import Mathlib

/-!
Gaussian MCM cost function and bounded Levenberg-Marquardt optimizer

Shallow embedding of

* `Anima/diffusion/mcm/animaGaussianMCMCost.cxx`
* `Anima/math-tools/optimizers/nlopt_optimizers/animaBoundedLevenbergMarquardtOptimizer.cxx`

Conventions of the embedding.

* A `double` is a rational number (`ℚ`). In the definitions that follow the sources
  directly the arithmetic is exact and `1.0e-4` is the rational `1/10000`; statements that
  depend on exact cancellation are made on `GetValuesRounded`, which follows `GetValues`
  with every arithmetic result rounded (section "The arithmetic of `double`").
* Infinities and NaN are not modelled: a division by zero is `0` here where the code gets
  an infinity or a NaN, so the theorems on a function that divides carry the hypothesis that
  its divisors are not `0`.
* `std::vector <double>`, `itk::Array <double>` and `vnl_vector <double>` are `List ℚ`.
  An element read `v[i]` is `v.getD i 0` and an element write `v[i] = a` is `v.set i a`;
  the source performs no range check, so the theorems carry the size hypotheses under
  which every index is inside its container.
* `unsigned int` values are natural numbers below `2 ^ 32`; a container size stored in an
  `unsigned int` goes through `toUInt`.
* A `for (unsigned int i = 0;i < n;++i)` loop is `forLoop n body init`.
* A member function is a function from the object state to the new object state and a
  result; a thrown `itk::ExceptionObject` is `Except.error`, and the state returned next to
  it is the state at the throw.
-/

set_option autoImplicit false

namespace anima

/-! ## Common helpers -/

/-- Value of a container size once stored in an `unsigned int`. -/
def toUInt (n : Nat) : Nat := n % 2 ^ 32

/-- The loop `for (unsigned int i = 0;i < n;++i) state = body state i`. -/
def forLoop {α : Type} (n : Nat) (body : α → Nat → α) (init : α) : α :=
  (List.range n).foldl body init

/-- The call `v.resize(n)` on a `std::vector <double>`: keeps the first `n` entries and pads
with zeros. -/
def resize (v : List ℚ) (n : Nat) : List ℚ :=
  v.take n ++ List.replicate (n - v.length) 0

/-- A `vnl_matrix <double>`: `rows * cols` entries stored row after row in one block.
Entry `(r, c)` is `data[r * cols + c]`, for `m(r,c)` as well as for `m[r][c]`. -/
structure VnlMatrix where
  rows : Nat
  cols : Nat
  data : List ℚ

namespace VnlMatrix

/-- Element read `m(r,c)` or `m[r][c]`. -/
def get (m : VnlMatrix) (r c : Nat) : ℚ := m.data.getD (r * m.cols + c) 0

/-- Element write `m(r,c) = a`. -/
def put (m : VnlMatrix) (r c : Nat) (a : ℚ) : VnlMatrix :=
  { m with data := m.data.set (r * m.cols + c) a }

/-- The calls `m.SetSize(r,c); m.Fill(0.0);`. -/
def zeros (r c : Nat) : VnlMatrix := ⟨r, c, List.replicate (r * c) 0⟩

/-- The call `m.transpose()`: entry `(a, b)` of the result is entry `(b, a)` of `m`. -/
def transpose (m : VnlMatrix) : VnlMatrix :=
  ⟨m.cols, m.rows, (List.range (m.cols * m.rows)).map (fun k => m.get (k % m.rows) (k / m.rows))⟩

/-- The block holds exactly `rows * cols` entries. -/
def WellSized (m : VnlMatrix) : Prop := m.data.length = m.rows * m.cols

end VnlMatrix

/-- The functions and the constant of `<cmath>` used by the sources, taken as parameters. -/
structure CMath where
  log : ℚ → ℚ
  tgamma : ℚ → ℚ
  sqrt : ℚ → ℚ
  floor : ℚ → ℚ
  pow : ℚ → ℚ → ℚ
  M_PI : ℚ

/-- A stand-in for `<cmath>` to instantiate statements at concrete inputs: every function
returns its (first) argument, and `M_PI` is `355/113`. -/
def cmathStandIn : CMath where
  log := fun x => x
  tgamma := fun x => x
  sqrt := fun x => x
  floor := fun x => x
  pow := fun x _ => x
  M_PI := 355 / 113

/-! ## GaussianMCMCost -/

/-- A gradient direction (`Vector3DType`). -/
abbrev Vector3DType := ℚ × ℚ × ℚ

/-- The exceptions raised through `itkExceptionMacro` in `GaussianMCMCost`. -/
inductive CostError where
  /-- Message: "Null predicted signal vector." -/
  | DegenerateSignalError
  /-- Message: "Tow low estimated noise variance." -/
  | DegenerateVarianceError
  /-- Message: "Marginal estimation does not handle Levenberg-Marquardt". -/
  | UnsupportedCombinationError
  deriving DecidableEq, Repr

/-- The forward model behind `m_MCMStructure`, taken as a parameter: the first argument of
both functions is the parameter vector last given to `SetParametersFromVector`, the other two
are the b-value and the gradient direction of the measurement. -/
structure MCMStructure where
  GetPredictedSignal : List ℚ → ℚ → Vector3DType → ℚ
  GetSignalJacobian : List ℚ → ℚ → Vector3DType → List ℚ

/-- Member variables of `GaussianMCMCost`. `m_MCMParameters` is the state of
`m_MCMStructure`: the vector last given to `SetParametersFromVector`. -/
structure GaussianMCMCost where
  m_ObservedSignals : List ℚ
  m_Gradients : List Vector3DType
  m_BValues : List ℚ
  m_MCMParameters : List ℚ
  m_TestedParameters : List ℚ
  m_PredictedSignals : List ℚ
  m_PredictedSquaredNorm : ℚ
  m_B0Value : ℚ
  m_SigmaSquare : ℚ
  m_Residuals : List ℚ
  m_PredictedJacobianProducts : List ℚ
  m_MarginalEstimation : Bool

namespace GaussianMCMCost

/-- Size invariant of the measurement set: the observed signals, b-values and gradients are
paired one to one, `m_Residuals` has one entry per measurement, and the number of
measurements fits an `unsigned int`. -/
def WellFormed (s : GaussianMCMCost) : Prop :=
  s.m_ObservedSignals.length = s.m_Gradients.length ∧
  s.m_BValues.length = s.m_Gradients.length ∧
  s.m_Residuals.length = s.m_Gradients.length ∧
  s.m_Gradients.length < 2 ^ 32

instance (s : GaussianMCMCost) : Decidable (WellFormed s) := by
  unfold WellFormed; infer_instance

/-- Local variables of the first loop of `GetValues`, with the two members it writes. -/
structure SignalSums where
  observedSquaredNorm : ℚ
  observedPredictedProduct : ℚ
  m_PredictedSquaredNorm : ℚ
  m_PredictedSignals : List ℚ

/-- Body of the first loop of `GetValues` (lines 27-34). -/
def signalLoopBody (mcm : MCMStructure) (s : GaussianMCMCost) (acc : SignalSums) (i : Nat) :
    SignalSums :=
  let predictedSignal :=
    mcm.GetPredictedSignal s.m_MCMParameters (s.m_BValues.getD i 0) (s.m_Gradients.getD i (0, 0, 0))
  { observedSquaredNorm :=
      acc.observedSquaredNorm + s.m_ObservedSignals.getD i 0 * s.m_ObservedSignals.getD i 0
    m_PredictedSquaredNorm := acc.m_PredictedSquaredNorm + predictedSignal * predictedSignal
    observedPredictedProduct :=
      acc.observedPredictedProduct + s.m_ObservedSignals.getD i 0 * predictedSignal
    m_PredictedSignals := acc.m_PredictedSignals.set i predictedSignal }

/-- `GaussianMCMCost::GetValues(parameters)`. -/
def GetValues (mcm : MCMStructure) (s : GaussianMCMCost) (parameters : List ℚ) :
    GaussianMCMCost × Except CostError (List ℚ) :=
  let numberOfParameters := toUInt parameters.length
  let nbImages := toUInt s.m_Gradients.length
  -- Set MCM parameters
  let tested := forLoop numberOfParameters (fun t i => t.set i (parameters.getD i 0))
    (resize s.m_TestedParameters numberOfParameters)
  let s1 := { s with m_TestedParameters := tested, m_MCMParameters := tested }
  let sums := forLoop nbImages (signalLoopBody mcm s1)
    { observedSquaredNorm := 0, observedPredictedProduct := 0, m_PredictedSquaredNorm := 0,
      m_PredictedSignals := resize s1.m_PredictedSignals nbImages }
  let s2 := { s1 with m_PredictedSignals := sums.m_PredictedSignals,
                      m_PredictedSquaredNorm := sums.m_PredictedSquaredNorm }
  if s2.m_PredictedSquaredNorm < 1 / 10000 then
    (s2, .error .DegenerateSignalError)
  else if s2.m_SigmaSquare < 1 / 10000 then
    (s2, .error .DegenerateVarianceError)
  else
    -- Update B0
    let b0 := sums.observedPredictedProduct / s2.m_PredictedSquaredNorm
    let residuals := forLoop nbImages
      (fun r i => r.set i (b0 * s2.m_PredictedSignals.getD i 0 - s2.m_ObservedSignals.getD i 0))
      s2.m_Residuals
    -- Update SigmaSq
    let sigmaSquare :=
      (sums.observedSquaredNorm - b0 * b0 * s2.m_PredictedSquaredNorm) / (nbImages : ℚ)
    ({ s2 with m_B0Value := b0, m_Residuals := residuals, m_SigmaSquare := sigmaSquare },
      .ok residuals)

/-- `GaussianMCMCost::GetCurrentCostValue()`. -/
def GetCurrentCostValue (cm : CMath) (s : GaussianMCMCost) : ℚ :=
  let nbImages : ℚ := (toUInt s.m_Residuals.length : ℚ)
  if s.m_MarginalEstimation then
    -2 * cm.log 2 + (nbImages - 1) * cm.log cm.M_PI - 2 * cm.log (cm.tgamma ((nbImages + 1) / 2))
      + (nbImages + 1) * cm.log nbImages + cm.log s.m_PredictedSquaredNorm
      + (nbImages + 1) * cm.log s.m_SigmaSquare
  else
    nbImages * (1 + cm.log (2 * cm.M_PI * s.m_SigmaSquare))

/-- State of the two nested loops of `GetDerivativeMatrix`: the output matrix and
`m_PredictedJacobianProducts`. -/
structure JacobianLoopState where
  derivative : VnlMatrix
  m_PredictedJacobianProducts : List ℚ

/-- Body of the inner loop of `GetDerivativeMatrix` (lines 112-116) for measurement `i`. -/
def jacobianInnerBody (s : GaussianMCMCost) (signalJacobian : List ℚ) (i : Nat)
    (st : JacobianLoopState) (j : Nat) : JacobianLoopState :=
  { derivative := st.derivative.put j i
      (s.m_B0Value * s.m_PredictedSignals.getD i 0 * signalJacobian.getD j 0
        - s.m_ObservedSignals.getD i 0 * signalJacobian.getD j 0)
    m_PredictedJacobianProducts := st.m_PredictedJacobianProducts.set j
      (st.m_PredictedJacobianProducts.getD j 0
        + s.m_PredictedSignals.getD i 0 * signalJacobian.getD j 0) }

/-- Body of the outer loop of `GetDerivativeMatrix` (lines 108-117). -/
def jacobianOuterBody (mcm : MCMStructure) (s : GaussianMCMCost) (nbParams : Nat)
    (st : JacobianLoopState) (i : Nat) : JacobianLoopState :=
  let signalJacobian :=
    mcm.GetSignalJacobian s.m_MCMParameters (s.m_BValues.getD i 0) (s.m_Gradients.getD i (0, 0, 0))
  forLoop nbParams (jacobianInnerBody s signalJacobian i) st

/-- The test of lines 87-96: some `i < nbParams` has
`m_TestedParameters[i] != parameters[i]`. -/
def requireGetValue (s : GaussianMCMCost) (parameters : List ℚ) (nbParams : Nat) : Bool :=
  (List.range nbParams).any (fun i => s.m_TestedParameters.getD i 0 != parameters.getD i 0)

/-- `GaussianMCMCost::GetDerivativeMatrix(parameters, derivative)`: the new state, the new
content of the output argument `derivative`, and the exception if one is thrown. -/
def GetDerivativeMatrix (mcm : MCMStructure) (s : GaussianMCMCost) (parameters : List ℚ)
    (derivative : VnlMatrix) : GaussianMCMCost × VnlMatrix × Except CostError Unit :=
  let nbParams := toUInt parameters.length
  if s.m_MarginalEstimation then
    (s, derivative, .error .UnsupportedCombinationError)
  else if nbParams = 0 then
    (s, derivative, .ok ())
  else
    let nbValues := toUInt s.m_ObservedSignals.length
    -- Assume get derivative is called with the same parameters as GetValue just before
    let evaluated : GaussianMCMCost × Except CostError (List ℚ) :=
      if requireGetValue s parameters nbParams then GetValues mcm s parameters
      else (s, .ok s.m_Residuals)
    match evaluated with
    | (s1, .error e) => (s1, derivative, .error e)
    | (s1, .ok _) =>
      let st := forLoop nbValues (jacobianOuterBody mcm s1 nbParams)
        { derivative := VnlMatrix.zeros nbParams nbValues
          m_PredictedJacobianProducts :=
            List.replicate nbParams 0 }
      ({ s1 with m_PredictedJacobianProducts := st.m_PredictedJacobianProducts },
        st.derivative, .ok ())

/-- `GaussianMCMCost::GetCurrentDerivative(derivativeMatrix, derivative)`: the new content of
the output argument `derivative`. The code divides by `m_SigmaSquare` and, in the marginal
regime, by `m_PredictedSquaredNorm` and `nbValues`; it agrees with this definition when
these are not `0`. -/
def GetCurrentDerivative (s : GaussianMCMCost) (derivativeMatrix : VnlMatrix) : List ℚ :=
  let nbParams := derivativeMatrix.rows
  let nbValues := derivativeMatrix.cols
  forLoop nbParams
    (fun derivative j =>
      let jacobianProductsSum :=
        forLoop nbValues (fun acc i => acc + derivativeMatrix.get j i) (0 : ℚ)
      if !s.m_MarginalEstimation then
        derivative.set j (2 * s.m_B0Value * jacobianProductsSum / s.m_SigmaSquare)
      else
        derivative.set j
          (2 * (s.m_PredictedJacobianProducts.getD j 0 / s.m_PredictedSquaredNorm
            + ((nbValues : ℚ) + 1) * s.m_B0Value * jacobianProductsSum
              / ((nbValues : ℚ) * s.m_SigmaSquare))))
    (List.replicate nbParams 0)

/-- The observed signal of measurement `i`. -/
def observed (s : GaussianMCMCost) (i : Nat) : ℚ := s.m_ObservedSignals.getD i 0

/-- The signal the forward model predicts for measurement `i` at the parameters `x`. -/
def predicted (mcm : MCMStructure) (s : GaussianMCMCost) (x : List ℚ) (i : Nat) : ℚ :=
  mcm.GetPredictedSignal x (s.m_BValues.getD i 0) (s.m_Gradients.getD i (0, 0, 0))

/-- The gradient the forward model gives for measurement `i` at the parameters `x`. -/
def gradient (mcm : MCMStructure) (s : GaussianMCMCost) (x : List ℚ) (i : Nat) : List ℚ :=
  mcm.GetSignalJacobian x (s.m_BValues.getD i 0) (s.m_Gradients.getD i (0, 0, 0))

/-- Sum of the squared observed signals over the first `n` measurements. -/
def observedSquaredNorm (s : GaussianMCMCost) (n : Nat) : ℚ :=
  Finset.sum (Finset.range n) (fun i => observed s i * observed s i)

/-- Sum of the squared predicted signals over the first `n` measurements. -/
def predictedSquaredNorm (mcm : MCMStructure) (s : GaussianMCMCost) (x : List ℚ) (n : Nat) : ℚ :=
  Finset.sum (Finset.range n) (fun i => predicted mcm s x i * predicted mcm s x i)

/-- Sum of the products observed times predicted over the first `n` measurements. -/
def observedPredictedProduct (mcm : MCMStructure) (s : GaussianMCMCost) (x : List ℚ) (n : Nat) :
    ℚ :=
  Finset.sum (Finset.range n) (fun i => observed s i * predicted mcm s x i)

/-- State of the cost function when `GetValues` reaches the two tests of lines 36-46. -/
def afterSignals (mcm : MCMStructure) (s : GaussianMCMCost) (x : List ℚ) : GaussianMCMCost :=
  { s with
    m_TestedParameters := x
    m_MCMParameters := x
    m_PredictedSignals := (List.range s.m_Gradients.length).map (predicted mcm s x)
    m_PredictedSquaredNorm := predictedSquaredNorm mcm s x s.m_Gradients.length }

/-- The amplitude `GetValues` computes at `x`. -/
def amplitude (mcm : MCMStructure) (s : GaussianMCMCost) (x : List ℚ) : ℚ :=
  observedPredictedProduct mcm s x s.m_Gradients.length
    / predictedSquaredNorm mcm s x s.m_Gradients.length

/-- The residual vector `GetValues` computes at `x`. -/
def residualVector (mcm : MCMStructure) (s : GaussianMCMCost) (x : List ℚ) : List ℚ :=
  (List.range s.m_Gradients.length).map
    (fun i => amplitude mcm s x * predicted mcm s x i - observed s i)

/-- The variance `GetValues` computes at `x`. -/
def variance (mcm : MCMStructure) (s : GaussianMCMCost) (x : List ℚ) : ℚ :=
  (observedSquaredNorm s s.m_Gradients.length
    - amplitude mcm s x * amplitude mcm s x * predictedSquaredNorm mcm s x s.m_Gradients.length)
    / (s.m_Gradients.length : ℚ)

/-- The state a successful `GetValues` leaves. -/
def evaluated (mcm : MCMStructure) (s : GaussianMCMCost) (x : List ℚ) : GaussianMCMCost :=
  { afterSignals mcm s x with
    m_B0Value := amplitude mcm s x
    m_Residuals := residualVector mcm s x
    m_SigmaSquare := variance mcm s x }

/-! ## Fixtures: the linear forward model of the end-to-end scenarios -/

/-- Forward model `predicted(x) = x[0]` for every measurement, with gradient `[1,0,...]`. -/
def linearModel : MCMStructure where
  GetPredictedSignal := fun x _ _ => x.getD 0 0
  GetSignalJacobian := fun x _ _ => 1 :: List.replicate (x.length - 1) 0

/-- Forward model whose predicted signal is `0` for every measurement. -/
def zeroSignalModel : MCMStructure where
  GetPredictedSignal := fun _ _ _ => 0
  GetSignalJacobian := fun x _ _ => List.replicate x.length 0

/-- Five identical observed values `2.0`, before any evaluation, with a carried noise variance
of `1`, in the conditional regime. -/
def scenarioCost : GaussianMCMCost where
  m_ObservedSignals := [2, 2, 2, 2, 2]
  m_Gradients := [(1, 0, 0), (1, 0, 0), (1, 0, 0), (1, 0, 0), (1, 0, 0)]
  m_BValues := [0, 0, 0, 0, 0]
  m_MCMParameters := []
  m_TestedParameters := []
  m_PredictedSignals := []
  m_PredictedSquaredNorm := 0
  m_B0Value := 0
  m_SigmaSquare := 1
  m_Residuals := [0, 0, 0, 0, 0]
  m_PredictedJacobianProducts := []
  m_MarginalEstimation := false

/-- Two measurements, observed `1` and `2`, before any evaluation, with a carried noise
variance of `1`, in the conditional regime. -/
def noisyCost : GaussianMCMCost where
  m_ObservedSignals := [1, 2]
  m_Gradients := [(1, 0, 0), (0, 1, 0)]
  m_BValues := [0, 1000]
  m_MCMParameters := []
  m_TestedParameters := []
  m_PredictedSignals := []
  m_PredictedSquaredNorm := 0
  m_B0Value := 0
  m_SigmaSquare := 1
  m_Residuals := [0, 0]
  m_PredictedJacobianProducts := []
  m_MarginalEstimation := false

/-- One measurement with a stored noise variance of `1`, in the conditional regime. -/
def singleCost : GaussianMCMCost where
  m_ObservedSignals := [1]
  m_Gradients := [(1, 0, 0)]
  m_BValues := [0]
  m_MCMParameters := []
  m_TestedParameters := []
  m_PredictedSignals := []
  m_PredictedSquaredNorm := 0
  m_B0Value := 0
  m_SigmaSquare := 1
  m_Residuals := [0]
  m_PredictedJacobianProducts := []
  m_MarginalEstimation := false

/-- The measurements of `noisyCost` in the marginal regime. -/
def marginalCost : GaussianMCMCost := { noisyCost with m_MarginalEstimation := true }

end GaussianMCMCost

deriving instance DecidableEq for Except

/-! ## BoundedLevenbergMarquardtOptimizer -/

/-- The constant `std::numeric_limits <double>::epsilon()`, which is `2^-52`. -/
def machineEpsilon : ℚ := 1 / 2 ^ 52

/-- The value of `std::sqrt(std::numeric_limits <double>::epsilon())`, which is exactly
`2^-26`. -/
def sqrtMachineEpsilon : ℚ := 1 / 2 ^ 26

/-- The cost function `m_CostFunction` the optimizer drives, over a state `σ`:
`GetValue(parameters)` returns the residual vector, `GetDerivative(parameters, derivative)`
fills the output matrix `derivative`; both may throw. -/
structure CostFunction (σ : Type) where
  GetValue : σ → List ℚ → σ × Except CostError (List ℚ)
  GetDerivative : σ → List ℚ → VnlMatrix → σ × VnlMatrix × Except CostError Unit

/-- Modelled from the spec: the binding of `GaussianMCMCost` to the optimizer's cost function
interface is not in the sources; `GetValue` is `Evaluate` (`GetValues`) and `GetDerivative`
is `JacobianAndAggregates` (`GetDerivativeMatrix`). -/
def gaussianCostFunction (mcm : MCMStructure) : CostFunction GaussianMCMCost where
  GetValue := GaussianMCMCost.GetValues mcm
  GetDerivative := GaussianMCMCost.GetDerivativeMatrix mcm

/-- The `BLMLambdaCostFunction` object as `UpdateLambdaParameter` configures it
(lines 251-260 and 302). -/
structure BLMLambdaCostFunction where
  derivative : VnlMatrix
  qtResiduals : List ℚ
  m_JRank : Nat
  m_DValues : List ℚ
  m_PivotVector : List Nat
  m_InversePivotVector : List Nat
  m_LowerBoundsPermutted : List ℚ
  m_UpperBoundsPermutted : List ℚ
  m_DeltaParameter : ℚ
  m_SquareCostFunction : Bool

/-- The collaborators of the optimizer that are outside the sources, taken as parameters.
* `QRPivotDecomposition(matrix, pivotVector, betaValues, rank)` returns the new content of
  its four arguments.
* `GetQtBFromQRDecomposition(matrix, b, betaValues, rank)` returns the new content of `b`.
* `lambdaCostGetValue cost p` is `cost->GetValue(p)` followed by
  `cost->GetSolutionVector()`: the value and the step of the bounded subproblem.
* `nloptMinimize objective lower upper initial` is the position the `NLOPTOptimizers`
  object reports after `StartOptimization()` (BOBYQA, relative tolerances `1e-3`, at most
  `500` evaluations). -/
structure Externals where
  cm : CMath
  QRPivotDecomposition : VnlMatrix → List Nat → List ℚ → Nat → VnlMatrix × List Nat × List ℚ × Nat
  GetQtBFromQRDecomposition : VnlMatrix → List ℚ → List ℚ → Nat → List ℚ
  lambdaCostGetValue : BLMLambdaCostFunction → List ℚ → ℚ × List ℚ
  nloptMinimize : (List ℚ → ℚ) → List ℚ → List ℚ → List ℚ → List ℚ

/-- Member variables of `BoundedLevenbergMarquardtOptimizer`; `m_CostFunction` is the state
of the cost function object and `m_InitialPosition` what `GetInitialPosition()` returns. -/
structure BoundedLevenbergMarquardtOptimizer (σ : Type) where
  m_CostFunction : σ
  m_InitialPosition : List ℚ
  m_CurrentPosition : List ℚ
  m_CurrentValue : ℚ
  m_ResidualValues : List ℚ
  m_DeltaParameter : ℚ
  m_LambdaParameter : ℚ
  m_CurrentAddonVector : List ℚ
  m_LowerBounds : List ℚ
  m_UpperBounds : List ℚ
  m_NumberOfIterations : Nat
  m_ValueTolerance : ℚ
  m_CostTolerance : ℚ

namespace BoundedLevenbergMarquardtOptimizer

variable {σ : Type}

/-- The squared norm computed by the loop of `EvaluateCostFunctionAtParameters`
(lines 328-331). -/
def squaredNorm (residualValues : List ℚ) : ℚ :=
  forLoop (toUInt residualValues.length)
    (fun costValue i => costValue + residualValues.getD i 0 * residualValues.getD i 0) 0

/-- `EvaluateCostFunctionAtParameters(parameters, residualValues)`: the new members, and
either the exception of the cost function or the returned cost with the new content of
`residualValues`. -/
def EvaluateCostFunctionAtParameters (cf : CostFunction σ)
    (o : BoundedLevenbergMarquardtOptimizer σ) (parameters : List ℚ) :
    BoundedLevenbergMarquardtOptimizer σ × Except CostError (ℚ × List ℚ) :=
  match cf.GetValue o.m_CostFunction parameters with
  | (c, .error e) => ({ o with m_CostFunction := c }, .error e)
  | (c, .ok residualValues) =>
    ({ o with m_CostFunction := c }, .ok (squaredNorm residualValues, residualValues))

/-- `CheckConditions(numIterations, newParams, dValues, newCostValue)`. The relative
difference divides by `m_CurrentValue`; the code agrees with this definition when
`m_CurrentValue` is not `0`. -/
def CheckConditions (cm : CMath) (o : BoundedLevenbergMarquardtOptimizer σ)
    (numIterations : Nat) (newParams dValues : List ℚ) (newCostValue : ℚ) : Bool :=
  if numIterations = o.m_NumberOfIterations then true
  else
    -- Criteria as in More, 8.3 and 8.4 equations
    let dxNorm := forLoop newParams.length
      (fun acc i => acc + (dValues.getD i 0 * newParams.getD i 0)
        * (dValues.getD i 0 * newParams.getD i 0)) (0 : ℚ)
    let dxNorm := cm.sqrt dxNorm
    if o.m_DeltaParameter < o.m_ValueTolerance * dxNorm then true
    else
      let relativeDiff := (o.m_CurrentValue - newCostValue) / o.m_CurrentValue
      if relativeDiff ≥ 0 ∧ relativeDiff < o.m_CostTolerance then true
      else false

/-- `UpdateLambdaParameter(...)`: the new `m_LambdaParameter` and `m_CurrentAddonVector`. -/
def UpdateLambdaParameter (ext : Externals) (m_DeltaParameter : ℚ) (derivative : VnlMatrix)
    (dValues : List ℚ) (pivotVector inversePivotVector : List Nat)
    (qtResiduals lowerBoundsPermutted upperBoundsPermutted : List ℚ) (rank : Nat) :
    ℚ × List ℚ :=
  let cost : BLMLambdaCostFunction :=
    { derivative := derivative, qtResiduals := qtResiduals, m_JRank := rank,
      m_DValues := dValues, m_PivotVector := pivotVector,
      m_InversePivotVector := inversePivotVector,
      m_LowerBoundsPermutted := lowerBoundsPermutted,
      m_UpperBoundsPermutted := upperBoundsPermutted,
      m_DeltaParameter := m_DeltaParameter, m_SquareCostFunction := false }
  let p : List ℚ := [0]
  let zero := ext.lambdaCostGetValue cost p
  if zero.1 ≤ 0 then
    (0, zero.2)
  else
    -- Compute upper bound for lambda
    let n := derivative.cols
    let u0InVector := forLoop n
      (fun u i =>
        forLoop rank
          (fun u j =>
            if j ≤ i then u.set i (u.getD i 0 + derivative.get j i * qtResiduals.getD j 0)
            else u)
          (u.set i 0))
      (List.replicate n 0)
    let upperBoundLambda := forLoop n
      (fun acc i =>
        acc + (u0InVector.getD (inversePivotVector.getD i 0) 0 / dValues.getD i 0)
          * (u0InVector.getD (inversePivotVector.getD i 0) 0 / dValues.getD i 0))
      (0 : ℚ)
    let upperBoundLambda := ext.cm.sqrt upperBoundLambda / m_DeltaParameter
    let p : List ℚ := [upperBoundLambda / 2]
    let cost := { cost with m_SquareCostFunction := true }
    let p := ext.nloptMinimize (fun q => (ext.lambdaCostGetValue cost q).1)
      [0] [upperBoundLambda] p
    (p.getD 0 0, (ext.lambdaCostGetValue cost p).2)

/-- The statement `parameters = oldParameters; parameters += m_CurrentAddonVector;`. -/
def addVector (oldParameters addon : List ℚ) : List ℚ :=
  forLoop oldParameters.length (fun p i => p.set i (p.getD i 0 + addon.getD i 0)) oldParameters

/-- The test of lines 40-54: some entry `derivativeMatrix[i][j]`, `i < nbParams`,
`j < numResiduals`, has an absolute value above `sqrt(epsilon)`. The matrix is the
transposed one, of `numResiduals` rows: for `nbParams <= numResiduals` every read lies in
its block; for `nbParams > numResiduals` the code reads past the block, where this
definition reads `0`. -/
def derivativeCheck (derivativeMatrix : VnlMatrix) (nbParams numResiduals : Nat) : Bool :=
  (List.range nbParams).any (fun i =>
    (List.range numResiduals).any (fun j =>
      decide (|derivativeMatrix.get i j| > sqrtMachineEpsilon)))

/-- The loop of lines 101-102 and 212-213: `inversePivotVector[pivotVector[i]] = i`. -/
def invertPivot (nbParams : Nat) (pivotVector inversePivotVector : List Nat) : List Nat :=
  forLoop nbParams (fun inv i => inv.set (pivotVector.getD i 0) i) inversePivotVector

/-- Local variables of `StartOptimization` that live across the iterations of the main loop,
with the members of the optimizer. -/
structure LoopState (σ : Type) where
  members : BoundedLevenbergMarquardtOptimizer σ
  nbParams : Nat
  numResiduals : Nat
  parameters : List ℚ
  oldParameters : List ℚ
  newResidualValues : List ℚ
  derivativeMatrix : VnlMatrix
  derivativeMatrixCopy : VnlMatrix
  dValues : List ℚ
  pivotVector : List Nat
  inversePivotVector : List Nat
  qrBetaValues : List ℚ
  qtResiduals : List ℚ
  lowerBoundsPermutted : List ℚ
  upperBoundsPermutted : List ℚ
  rank : Nat
  numIterations : Nat
  stopConditionReached : Bool
  rejectedStep : Bool

/-- How the part of `StartOptimization` before the main loop ends: with an exception of the
cost function, with the `return` of line 57, or at the head of the main loop. -/
inductive Initialised (σ : Type) where
  | threw (e : CostError) (members : BoundedLevenbergMarquardtOptimizer σ)
  | degenerate (members : BoundedLevenbergMarquardtOptimizer σ)
  | ready (st : LoopState σ)

/-- The scaling values and their maximum (lines 60-74). -/
def initialDValues (cm : CMath) (derivativeMatrix : VnlMatrix) (nbParams numResiduals : Nat) :
    List ℚ × ℚ :=
  forLoop nbParams
    (fun (acc : List ℚ × ℚ) i =>
      let normValue := forLoop numResiduals
        (fun normValue j => normValue + derivativeMatrix.get j i * derivativeMatrix.get j i)
        (0 : ℚ)
      let dValues := acc.1.set i (cm.sqrt normValue)
      if dValues.getD i 0 ≠ 0 then
        if i = 0 ∨ dValues.getD i 0 > acc.2 then (dValues, dValues.getD i 0)
        else (dValues, acc.2)
      else (dValues, acc.2))
    (List.replicate nbParams 0, 0)

/-- `StartOptimization()` up to the main loop (lines 15-102). -/
def initialise (ext : Externals) (cf : CostFunction σ)
    (o : BoundedLevenbergMarquardtOptimizer σ) : Initialised σ :=
  let o := { o with m_CurrentPosition := o.m_InitialPosition }
  let parameters := o.m_CurrentPosition
  let nbParams := toUInt parameters.length
  match EvaluateCostFunctionAtParameters cf o parameters with
  | (o, .error e) => .threw e o
  | (o, .ok (costValue, residualValues)) =>
    let o := { o with m_ResidualValues := residualValues, m_CurrentValue := costValue }
    let numResiduals := toUInt o.m_ResidualValues.length
    let oldParameters := parameters
    -- Be careful here: we consider the problem of the form |f(x)|^2, J is thus the
    -- Jacobian of f
    match cf.GetDerivative o.m_CostFunction parameters (VnlMatrix.zeros nbParams numResiduals) with
    | (c, _, .error e) => .threw e { o with m_CostFunction := c }
    | (c, derivativeMatrix, .ok _) =>
      let o := { o with m_CostFunction := c }
      let derivativeMatrix := derivativeMatrix.transpose
      let derivativeMatrixCopy := derivativeMatrix
      if !derivativeCheck derivativeMatrix nbParams numResiduals then
        .degenerate o
      else
        let o := { o with m_DeltaParameter := 0 }
        let scaling := initialDValues ext.cm derivativeMatrix nbParams numResiduals
        let maxDValue := scaling.2
        let basePower := ext.cm.floor (ext.cm.log maxDValue / ext.cm.log 2)
        let epsilon := 20 * machineEpsilon * (toUInt (numResiduals + nbParams) : ℚ)
          * ext.cm.pow 2 basePower
        -- Change the scaling d-values if they are below a threshold of matrix rank
        let scaled := forLoop nbParams
          (fun (acc : List ℚ × ℚ) i =>
            let dValues := if acc.1.getD i 0 < epsilon then acc.1.set i epsilon else acc.1
            (dValues, acc.2 + dValues.getD i 0 * parameters.getD i 0 * parameters.getD i 0))
          (scaling.1, o.m_DeltaParameter)
        let dValues := scaled.1
        let o := { o with m_DeltaParameter := ext.cm.sqrt scaled.2 }
        let qtResiduals := o.m_ResidualValues
        let qr := ext.QRPivotDecomposition derivativeMatrix (List.replicate nbParams 0)
          (List.replicate nbParams 0) 0
        let derivativeMatrix := qr.1
        let pivotVector := qr.2.1
        let qrBetaValues := qr.2.2.1
        let rank := qr.2.2.2
        let qtResiduals :=
          ext.GetQtBFromQRDecomposition derivativeMatrix qtResiduals qrBetaValues rank
        let inversePivotVector := invertPivot nbParams pivotVector (List.replicate nbParams 0)
        .ready
          { members := o, nbParams := nbParams, numResiduals := numResiduals,
            parameters := parameters, oldParameters := oldParameters,
            newResidualValues := [], derivativeMatrix := derivativeMatrix,
            derivativeMatrixCopy := derivativeMatrixCopy, dValues := dValues,
            pivotVector := pivotVector, inversePivotVector := inversePivotVector,
            qrBetaValues := qrBetaValues, qtResiduals := qtResiduals,
            lowerBoundsPermutted := List.replicate nbParams 0,
            upperBoundsPermutted := List.replicate nbParams 0,
            rank := rank, numIterations := 0, stopConditionReached := false,
            rejectedStep := false }

end BoundedLevenbergMarquardtOptimizer

namespace BoundedLevenbergMarquardtOptimizer

variable {σ : Type}

/-- The bounds relative to the current point, in pivot order (lines 108-112). -/
def permuteBounds (o : BoundedLevenbergMarquardtOptimizer σ) (nbParams : Nat)
    (pivotVector : List Nat) (oldParameters : List ℚ)
    (lowerBoundsPermutted upperBoundsPermutted : List ℚ) : List ℚ × List ℚ :=
  forLoop nbParams
    (fun (acc : List ℚ × List ℚ) i =>
      (acc.1.set i (o.m_LowerBounds.getD (pivotVector.getD i 0) 0
          - oldParameters.getD (pivotVector.getD i 0) 0),
        acc.2.set i (o.m_UpperBounds.getD (pivotVector.getD i 0) 0
          - oldParameters.getD (pivotVector.getD i 0) 0)))
    (lowerBoundsPermutted, upperBoundsPermutted)

/-- The value `|| f + Jp ||^2` of lines 127-137. -/
def fjpNorm (derivativeMatrixCopy : VnlMatrix) (residualValues addon : List ℚ)
    (nbParams numResiduals : Nat) : ℚ :=
  forLoop numResiduals
    (fun fjpNorm i =>
      let fjpAddonValue := forLoop nbParams
        (fun fjpAddonValue j => fjpAddonValue + derivativeMatrixCopy.get i j * addon.getD j 0)
        (residualValues.getD i 0)
      fjpNorm + fjpAddonValue * fjpAddonValue)
    (0 : ℚ)

/-- The acceptance ratio of lines 125 and 139-149. Both quotients divide by the current
cost; the code agrees with this definition when the current cost is not `0`. -/
def acceptRatio (rejectedStep : Bool) (tentativeNewCostValue currentValue fjpNorm : ℚ) : ℚ :=
  if !rejectedStep then
    let acceptRatio := 1 - tentativeNewCostValue / currentValue
    let denomAcceptRatio := 1 - fjpNorm / currentValue
    if denomAcceptRatio > 0 then acceptRatio / denomAcceptRatio else 0
  else 0

/-- The value of `gamma` before it is clamped (lines 164-174); it divides by the current
cost. -/
def gammaValue (derivativeMatrixCopy : VnlMatrix) (residualValues addon : List ℚ)
    (nbParams numResiduals : Nat) (currentValue : ℚ) : ℚ :=
  forLoop nbParams
    (fun gamma i =>
      let jtFValue := forLoop numResiduals
        (fun jtFValue j => jtFValue + derivativeMatrixCopy.get j i * residualValues.getD i 0)
        (0 : ℚ)
      gamma + addon.getD i 0 * jtFValue)
    (0 : ℚ) / currentValue

/-- The shrink factor `mu` of lines 158-186. -/
def shrinkFactor (derivativeMatrixCopy : VnlMatrix) (residualValues addon : List ℚ)
    (nbParams numResiduals : Nat) (tentativeNewCostValue currentValue : ℚ) : ℚ :=
  if tentativeNewCostValue > 100 * currentValue then 1 / 10
  else if tentativeNewCostValue > currentValue then
    -- Gamma is p^T J^T f / |f|^2
    let gamma := gammaValue derivativeMatrixCopy residualValues addon nbParams numResiduals
      currentValue
    let gamma := if gamma < -1 then -1 else if gamma > 0 then 0 else gamma
    let mu := 1 / 2 * gamma
    let denomMu := gamma + 1 / 2 * (1 - tentativeNewCostValue / currentValue)
    let mu := mu / denomMu
    min (1 / 2) (max (1 / 10) mu)
  else 1 / 2

/-- The new trust-region radius (lines 151-189). -/
def adaptDelta (delta ratio mu : ℚ) : ℚ :=
  if ratio ≥ 3 / 4 then delta * 2
  else if ratio ≤ 1 / 4 then delta * mu
  else delta

/-- The update of the scaling values after an accepted step (lines 196-204). -/
def updateDValues (cm : CMath) (derivativeMatrix : VnlMatrix) (dValues : List ℚ)
    (nbParams numResiduals : Nat) : List ℚ :=
  forLoop nbParams
    (fun dValues i =>
      let normValue := forLoop numResiduals
        (fun normValue j => normValue + derivativeMatrix.get i j * derivativeMatrix.get i j)
        (0 : ℚ)
      let normValue := cm.sqrt normValue
      dValues.set i (max (dValues.getD i 0) normValue))
    dValues

/-- One pass through the body of the main loop of `StartOptimization` (lines 106-224):
the local variables and members at the end of the body, or the exception of the cost
function with the members at the throw. -/
def iteration (ext : Externals) (cf : CostFunction σ) (st : LoopState σ) :
    Except (CostError × BoundedLevenbergMarquardtOptimizer σ) (LoopState σ) :=
  let numIterations := (st.numIterations + 1) % 2 ^ 32
  let bounds := permuteBounds st.members st.nbParams st.pivotVector st.oldParameters
    st.lowerBoundsPermutted st.upperBoundsPermutted
  -- Updates lambda and get new addon vector at the same time
  let step := UpdateLambdaParameter ext st.members.m_DeltaParameter st.derivativeMatrix
    st.dValues st.pivotVector st.inversePivotVector st.qtResiduals bounds.1 bounds.2 st.rank
  let o := { st.members with m_LambdaParameter := step.1, m_CurrentAddonVector := step.2 }
  let parameters := addVector st.oldParameters o.m_CurrentAddonVector
  -- Check acceptability of step
  match EvaluateCostFunctionAtParameters cf o parameters with
  | (o, .error e) => .error (e, o)
  | (o, .ok (tentativeNewCostValue, newResidualValues)) =>
    let rejectedStep := decide (tentativeNewCostValue > o.m_CurrentValue)
    let fjp := fjpNorm st.derivativeMatrixCopy o.m_ResidualValues o.m_CurrentAddonVector
      st.nbParams st.numResiduals
    let ratio := acceptRatio rejectedStep tentativeNewCostValue o.m_CurrentValue fjp
    let mu := shrinkFactor st.derivativeMatrixCopy o.m_ResidualValues o.m_CurrentAddonVector
      st.nbParams st.numResiduals tentativeNewCostValue o.m_CurrentValue
    let o := { o with m_DeltaParameter := adaptDelta o.m_DeltaParameter ratio mu }
    let st := { st with members := o, parameters := parameters,
                        newResidualValues := newResidualValues, rejectedStep := rejectedStep,
                        numIterations := numIterations, lowerBoundsPermutted := bounds.1,
                        upperBoundsPermutted := bounds.2 }
    if !rejectedStep then
      let o := { o with m_ResidualValues := newResidualValues }
      match cf.GetDerivative o.m_CostFunction parameters st.derivativeMatrix with
      | (c, _, .error e) => .error (e, { o with m_CostFunction := c })
      | (c, derivativeMatrix, .ok _) =>
        let o := { o with m_CostFunction := c }
        let dValues := updateDValues ext.cm derivativeMatrix st.dValues st.nbParams
          st.numResiduals
        let derivativeMatrix := derivativeMatrix.transpose
        let derivativeMatrixCopy := derivativeMatrix
        let qtResiduals := o.m_ResidualValues
        let qr := ext.QRPivotDecomposition derivativeMatrix st.pivotVector st.qrBetaValues st.rank
        let qtResiduals := ext.GetQtBFromQRDecomposition qr.1 qtResiduals qr.2.2.1 qr.2.2.2
        let inversePivotVector := invertPivot st.nbParams qr.2.1 st.inversePivotVector
        let stopConditionReached :=
          if numIterations ≠ 1 then
            CheckConditions ext.cm o numIterations parameters dValues tentativeNewCostValue
          else st.stopConditionReached
        .ok { st with
              members := { o with m_CurrentValue := tentativeNewCostValue }
              oldParameters := parameters
              derivativeMatrix := qr.1
              derivativeMatrixCopy := derivativeMatrixCopy
              dValues := dValues
              pivotVector := qr.2.1
              qrBetaValues := qr.2.2.1
              rank := qr.2.2.2
              qtResiduals := qtResiduals
              inversePivotVector := inversePivotVector
              stopConditionReached := stopConditionReached }
    else
      let stopConditionReached :=
        if numIterations ≠ 1 then
          CheckConditions ext.cm o numIterations parameters st.dValues tentativeNewCostValue
        else st.stopConditionReached
      .ok { st with stopConditionReached := stopConditionReached }

/-- How a run of `StartOptimization` ends: with an exception of the cost function, with a
return, or still inside the main loop when the allowed number of passes is used up. -/
inductive Outcome (σ : Type) where
  | threw (e : CostError) (members : BoundedLevenbergMarquardtOptimizer σ)
  | returned (members : BoundedLevenbergMarquardtOptimizer σ)
  | running (st : LoopState σ)

/-- The main loop `while (!stopConditionReached)` followed by
`this->SetCurrentPosition(oldParameters)` (lines 104-227), for at most `fuel` passes. -/
def mainLoop (ext : Externals) (cf : CostFunction σ) : Nat → LoopState σ → Outcome σ
  | fuel, st =>
    if st.stopConditionReached then
      .returned { st.members with m_CurrentPosition := st.oldParameters }
    else
      match fuel with
      | 0 => .running st
      | fuel + 1 =>
        match iteration ext cf st with
        | .error (e, o) => .threw e o
        | .ok st => mainLoop ext cf fuel st

/-- `StartOptimization()`, the main loop being allowed `fuel` passes. -/
def StartOptimization (ext : Externals) (cf : CostFunction σ)
    (o : BoundedLevenbergMarquardtOptimizer σ) (fuel : Nat) : Outcome σ :=
  match initialise ext cf o with
  | .threw e o => .threw e o
  | .degenerate o => .returned o
  | .ready st => mainLoop ext cf fuel st

/-- The loop states a run goes through, from the state `st0` at the head of the main loop. -/
inductive Reachable (ext : Externals) (cf : CostFunction σ) (st0 : LoopState σ) :
    LoopState σ → Prop where
  | head : Reachable ext cf st0 st0
  | pass (a b : LoopState σ) : Reachable ext cf st0 a → a.stopConditionReached = false →
      iteration ext cf a = .ok b → Reachable ext cf st0 b

/-- Every parameter of `x` lies between its lower and its upper bound. -/
def InBounds (o : BoundedLevenbergMarquardtOptimizer σ) (x : List ℚ) : Prop :=
  ∀ i, i < x.length →
    o.m_LowerBounds.getD i 0 ≤ x.getD i 0 ∧ x.getD i 0 ≤ o.m_UpperBounds.getD i 0

/-- The step `addon` keeps every parameter of `current + addon` between its bounds:
`lower[i] - current[i] <= addon[i] <= upper[i] - current[i]`. -/
def StepFeasible (o : BoundedLevenbergMarquardtOptimizer σ) (current addon : List ℚ) : Prop :=
  ∀ i, i < current.length →
    o.m_LowerBounds.getD i 0 - current.getD i 0 ≤ addon.getD i 0 ∧
    addon.getD i 0 ≤ o.m_UpperBounds.getD i 0 - current.getD i 0

end BoundedLevenbergMarquardtOptimizer

/-! ## Fixtures for the optimizer -/

namespace BoundedLevenbergMarquardtOptimizer

variable {σ : Type}

instance (o : BoundedLevenbergMarquardtOptimizer σ) (x : List ℚ) : Decidable (InBounds o x) := by
  unfold InBounds; infer_instance

/-- The position a run returns, if it returns. -/
def Outcome.position : Outcome σ → Option (List ℚ)
  | .returned o => some o.m_CurrentPosition
  | _ => none

/-- The current cost a run returns with, if it returns. -/
def Outcome.value : Outcome σ → Option ℚ
  | .returned o => some o.m_CurrentValue
  | _ => none

/-- Stand-ins for the external collaborators: the factorisation leaves the matrix as it is
with the identity pivot and full rank, and the bounded subproblem always answers with the
zero step. -/
def zeroStepExternals : Externals where
  cm := cmathStandIn
  QRPivotDecomposition := fun m pivotVector betaValues _ =>
    (m, List.range pivotVector.length, betaValues, pivotVector.length)
  GetQtBFromQRDecomposition := fun _ b _ _ => b
  lambdaCostGetValue := fun cost _ => (0, List.replicate cost.m_DValues.length 0)
  nloptMinimize := fun _ _ _ initial => initial

/-- Stand-ins for the external collaborators, the bounded subproblem answering with the step
that halves the transformed residuals. -/
def halvingExternals : Externals :=
  { zeroStepExternals with
    lambdaCostGetValue := fun cost _ => (0, cost.qtResiduals.map (fun r => -r / 2)) }

/-- A cost function whose residual vector is the parameter vector itself; its Jacobian is the
identity matrix. -/
def identityCost : CostFunction Unit where
  GetValue := fun _ x => ((), .ok x)
  GetDerivative := fun _ x _ =>
    ((), ⟨x.length, x.length,
      (List.range (x.length * x.length)).map
        (fun k => if k / x.length = k % x.length then 1 else 0)⟩, .ok ())

/-- An optimizer on `identityCost` with one parameter starting at `1`, bounds `[0, 2]` and at
most `3` iterations. -/
def identityOptimizer : BoundedLevenbergMarquardtOptimizer Unit where
  m_CostFunction := ()
  m_InitialPosition := [1]
  m_CurrentPosition := []
  m_CurrentValue := 0
  m_ResidualValues := []
  m_DeltaParameter := 0
  m_LambdaParameter := 0
  m_CurrentAddonVector := []
  m_LowerBounds := [0]
  m_UpperBounds := [2]
  m_NumberOfIterations := 3
  m_ValueTolerance := 1 / 1000000
  m_CostTolerance := 1 / 1000000

/-- Scenario B: the five observations `2.0` under `predicted(x) = x[0]`, initial parameters
`[0.1, 0]`, wide bounds except the upper bound `0.05` on parameter `0`. -/
def scenarioBOptimizer : BoundedLevenbergMarquardtOptimizer GaussianMCMCost where
  m_CostFunction := GaussianMCMCost.scenarioCost
  m_InitialPosition := [1 / 10, 0]
  m_CurrentPosition := []
  m_CurrentValue := 0
  m_ResidualValues := []
  m_DeltaParameter := 0
  m_LambdaParameter := 0
  m_CurrentAddonVector := []
  m_LowerBounds := [-1000, -1000]
  m_UpperBounds := [1 / 20, 1000]
  m_NumberOfIterations := 100
  m_ValueTolerance := 1 / 1000000
  m_CostTolerance := 1 / 1000000

end BoundedLevenbergMarquardtOptimizer

/-! ## Further fixtures -/

deriving instance DecidableEq for VnlMatrix
deriving instance DecidableEq for BoundedLevenbergMarquardtOptimizer
deriving instance DecidableEq for BoundedLevenbergMarquardtOptimizer.LoopState

namespace BoundedLevenbergMarquardtOptimizer

/-- The loop state of `identityOptimizer` at the head of the main loop, at the point `[1]`
with residual `[1]`, cost `1`, Jacobian `[1]` and radius `1`. -/
def identityLoopState : LoopState Unit where
  members := { identityOptimizer with
    m_CurrentPosition := [1], m_CurrentValue := 1, m_ResidualValues := [1],
    m_DeltaParameter := 1 }
  nbParams := 1
  numResiduals := 1
  parameters := [1]
  oldParameters := [1]
  newResidualValues := []
  derivativeMatrix := ⟨1, 1, [1]⟩
  derivativeMatrixCopy := ⟨1, 1, [1]⟩
  dValues := [1]
  pivotVector := [0]
  inversePivotVector := [0]
  qrBetaValues := [0]
  qtResiduals := [1]
  lowerBoundsPermutted := [0]
  upperBoundsPermutted := [0]
  rank := 1
  numIterations := 0
  stopConditionReached := false
  rejectedStep := false

/-- The loop state that one pass of the main loop with `halvingExternals` on `identityCost`
leaves from `identityLoopState`: the accepted candidate `[1/2]`, cost `1/4`, radius `2`. -/
def identityNextState : LoopState Unit where
  members := { identityOptimizer with
    m_CurrentPosition := [1], m_CurrentValue := 1 / 4, m_ResidualValues := [1 / 2],
    m_DeltaParameter := 2, m_CurrentAddonVector := [-1 / 2] }
  nbParams := 1
  numResiduals := 1
  parameters := [1 / 2]
  oldParameters := [1 / 2]
  newResidualValues := [1 / 2]
  derivativeMatrix := ⟨1, 1, [1]⟩
  derivativeMatrixCopy := ⟨1, 1, [1]⟩
  dValues := [1]
  pivotVector := [0]
  inversePivotVector := [0]
  qrBetaValues := [0]
  qtResiduals := [1 / 2]
  lowerBoundsPermutted := [-1]
  upperBoundsPermutted := [1]
  rank := 1
  numIterations := 1
  stopConditionReached := false
  rejectedStep := false

end BoundedLevenbergMarquardtOptimizer

/-- Forward model with the constant predicted signal `1` and a gradient that is identically
zero (scenario C). -/
def GaussianMCMCost.zeroGradientModel : MCMStructure where
  GetPredictedSignal := fun _ _ _ => 1
  GetSignalJacobian := fun x _ _ => List.replicate x.length 0

namespace BoundedLevenbergMarquardtOptimizer

variable {σ : Type}

/-- A cost function that also counts its calls: the state carries the number of `GetValue`
calls and the number of `GetDerivative` calls made so far. -/
def countingCost (cf : CostFunction σ) : CostFunction (σ × Nat × Nat) where
  GetValue := fun s x =>
    (((cf.GetValue s.1 x).1, s.2.1 + 1, s.2.2), (cf.GetValue s.1 x).2)
  GetDerivative := fun s x derivative =>
    (((cf.GetDerivative s.1 x derivative).1, s.2.1, s.2.2 + 1),
      (cf.GetDerivative s.1 x derivative).2)

/-- The optimizer `o` on the counting cost function, both counters at `0`. -/
def withCounters (o : BoundedLevenbergMarquardtOptimizer σ) :
    BoundedLevenbergMarquardtOptimizer (σ × Nat × Nat) where
  m_CostFunction := (o.m_CostFunction, 0, 0)
  m_InitialPosition := o.m_InitialPosition
  m_CurrentPosition := o.m_CurrentPosition
  m_CurrentValue := o.m_CurrentValue
  m_ResidualValues := o.m_ResidualValues
  m_DeltaParameter := o.m_DeltaParameter
  m_LambdaParameter := o.m_LambdaParameter
  m_CurrentAddonVector := o.m_CurrentAddonVector
  m_LowerBounds := o.m_LowerBounds
  m_UpperBounds := o.m_UpperBounds
  m_NumberOfIterations := o.m_NumberOfIterations
  m_ValueTolerance := o.m_ValueTolerance
  m_CostTolerance := o.m_CostTolerance

/-- Scenario C: the five observations `2.0`, initial parameters `[0.1, 0]`, wide bounds. -/
def scenarioCOptimizer : BoundedLevenbergMarquardtOptimizer GaussianMCMCost :=
  { scenarioBOptimizer with m_UpperBounds := [1000, 1000] }

end BoundedLevenbergMarquardtOptimizer

/-- The state of the cost function of scenario A after a successful `GetValues` at
`[0.1, 0]` (which stores the variance `0`) followed by a `GetValues` at `[0.2, 0]`. -/
def GaussianMCMCost.staleCost : GaussianMCMCost :=
  (GaussianMCMCost.GetValues GaussianMCMCost.linearModel
    (GaussianMCMCost.GetValues GaussianMCMCost.linearModel GaussianMCMCost.scenarioCost
      [1 / 10, 0]).1 [1 / 5, 0]).1

namespace VnlMatrix

/-- The index pair `(r, c)` designates an entry of the matrix. -/
def Inside (m : VnlMatrix) (r c : Nat) : Prop := r < m.rows ∧ c < m.cols

instance (m : VnlMatrix) (r c : Nat) : Decidable (m.Inside r c) := by
  unfold Inside; infer_instance

instance (m : VnlMatrix) : Decidable m.WellSized := by
  unfold WellSized; infer_instance

end VnlMatrix

namespace BoundedLevenbergMarquardtOptimizer

variable {σ : Type}

/-- The number of passes of the main loop made so far, for a run that is still inside the
main loop. -/
def Outcome.passesRunning : Outcome σ → Option Nat
  | .running st => some st.numIterations
  | _ => none

/-- The loop state at the head of the main loop, when the run gets there. -/
def Initialised.state : Initialised σ → Option (LoopState σ)
  | .ready st => some st
  | _ => none

/-- The part before the main loop ended at the `return` of line 57. -/
def Initialised.isDegenerate : Initialised σ → Bool
  | .degenerate _ => true
  | _ => false

/-- The loop state after the first pass of the main loop, when that pass completes. -/
def firstPass (ext : Externals) (cf : CostFunction σ)
    (o : BoundedLevenbergMarquardtOptimizer σ) : Option (LoopState σ) :=
  match initialise ext cf o with
  | .ready st =>
    match iteration ext cf st with
    | .ok b => some b
    | .error _ => none
  | _ => none

/-- The index pairs `(i, j)` of the entries `derivativeMatrix[i][j]` the test of lines 40-54
reads when it finds no entry above the threshold. -/
def derivativeCheckReads (nbParams numResiduals : Nat) : List (Nat × Nat) :=
  (List.range nbParams).flatMap (fun i => (List.range numResiduals).map (fun j => (i, j)))

/-- The optimizer `identityOptimizer` with an iteration cap of `1`. -/
def capOneOptimizer : BoundedLevenbergMarquardtOptimizer Unit :=
  { identityOptimizer with m_NumberOfIterations := 1 }

/-- Stand-ins for the external collaborators, the bounded subproblem always answering with
the given step. -/
def fixedStepExternals (step : List ℚ) : Externals :=
  { zeroStepExternals with lambdaCostGetValue := fun _ _ => (0, step) }

/-- A cost function with two parameters and the two residuals `[1, 1 + x[0]]`; the only
non-zero entry of its Jacobian is the derivative `1` of residual `1` in parameter `0`. -/
def shearCost : CostFunction Unit where
  GetValue := fun _ x => ((), .ok [1, 1 + x.getD 0 0])
  GetDerivative := fun _ _ _ => ((), ⟨2, 2, [0, 1, 0, 0]⟩, .ok ())

/-- A cost function with two parameters and the three residuals `[1, 1, x[1]]`; the only
non-zero entry of its Jacobian is the derivative `1` of residual `2` in parameter `1`. -/
def lastEntryCost : CostFunction Unit where
  GetValue := fun _ x => ((), .ok [1, 1, x.getD 1 0])
  GetDerivative := fun _ _ _ => ((), ⟨2, 3, [0, 0, 0, 0, 0, 1]⟩, .ok ())

/-- An optimizer with two parameters starting at `x`, wide bounds and at most `10`
iterations. -/
def twoParameterOptimizer (x : List ℚ) : BoundedLevenbergMarquardtOptimizer Unit :=
  { identityOptimizer with
    m_InitialPosition := x, m_LowerBounds := [-1000, -1000], m_UpperBounds := [1000, 1000],
    m_NumberOfIterations := 10 }

end BoundedLevenbergMarquardtOptimizer

namespace BoundedLevenbergMarquardtOptimizer

variable {σ : Type}

deriving instance DecidableEq for Initialised

/-- The threshold `epsilon` of lines 76-77, from the largest scaling value. -/
def scalingThreshold (cm : CMath) (maxDValue : ℚ) (nbParams numResiduals : Nat) : ℚ :=
  20 * machineEpsilon * (toUInt (numResiduals + nbParams) : ℚ)
    * cm.pow 2 (cm.floor (cm.log maxDValue / cm.log 2))

/-- The loop of lines 80-86: the scaling values raised to the threshold, and the sum
`m_DeltaParameter` accumulates before its square root is taken. -/
def scaledSquaredRadius (epsilon : ℚ) (parameters : List ℚ) (nbParams : Nat)
    (dValues : List ℚ) (delta : ℚ) : List ℚ × ℚ :=
  forLoop nbParams
    (fun (acc : List ℚ × ℚ) i =>
      let dValues := if acc.1.getD i 0 < epsilon then acc.1.set i epsilon else acc.1
      (dValues, acc.2 + dValues.getD i 0 * parameters.getD i 0 * parameters.getD i 0))
    (dValues, delta)

/-- The optimizer `identityOptimizer` started at the zero vector `[0]`. -/
def zeroStartOptimizer : BoundedLevenbergMarquardtOptimizer Unit :=
  { identityOptimizer with m_InitialPosition := [0] }

end BoundedLevenbergMarquardtOptimizer


/-- The measurements of `marginalCost` with the members an evaluation at `[1]` followed by a
Jacobian evaluation would leave: `b0 = 3/2`, `sigma^2 = 1/4`, `sum predicted^2 = 2` and the
stored products `[2]`. -/
def GaussianMCMCost.marginalEvaluatedCost : GaussianMCMCost :=
  { GaussianMCMCost.marginalCost with
    m_PredictedSignals := [1, 1]
    m_PredictedSquaredNorm := 2
    m_B0Value := 3 / 2
    m_SigmaSquare := 1 / 4
    m_PredictedJacobianProducts := [2] }

namespace BoundedLevenbergMarquardtOptimizer

variable {σ : Type}

instance (o : BoundedLevenbergMarquardtOptimizer σ) (current addon : List ℚ) :
    Decidable (StepFeasible o current addon) := by
  unfold StepFeasible; infer_instance

/-- The loop states a run of at most `fuel` passes of the main loop goes through from `st`,
in order. -/
def passes (ext : Externals) (cf : CostFunction σ) :
    Nat → LoopState σ → List (LoopState σ)
  | 0, st => [st]
  | fuel + 1, st =>
    if st.stopConditionReached then [st]
    else
      match iteration ext cf st with
      | .ok b => st :: passes ext cf fuel b
      | .error _ => [st]

/-- The loop states of a run of `StartOptimization` with at most `fuel` passes of the main
loop; empty when the run does not reach the main loop. -/
def runTrace (ext : Externals) (cf : CostFunction σ)
    (o : BoundedLevenbergMarquardtOptimizer σ) (fuel : Nat) : List (LoopState σ) :=
  match initialise ext cf o with
  | .ready st => passes ext cf fuel st
  | _ => []

/-- Every state of the list has stopped, ends its pass with an exception, or is followed in
one pass by a state of the list. -/
def closedTrace [DecidableEq σ] (ext : Externals) (cf : CostFunction σ)
    (trace : List (LoopState σ)) : Bool :=
  trace.all (fun a =>
    a.stopConditionReached ||
      match iteration ext cf a with
      | .ok b => decide (b ∈ trace)
      | .error _ => true)

/-- Every pass made from a state of the list computes a step that satisfies `StepFeasible`
at the current point. -/
def feasibleTrace (ext : Externals) (cf : CostFunction σ)
    (o : BoundedLevenbergMarquardtOptimizer σ) (trace : List (LoopState σ)) : Bool :=
  trace.all (fun a =>
    a.stopConditionReached ||
      match iteration ext cf a with
      | .ok b => decide (StepFeasible o a.oldParameters b.members.m_CurrentAddonVector)
      | .error _ => true)

/-- The optimizer `identityOptimizer` with the upper bound `3/4`: the initial position `[1]`
is above it. -/
def tightOptimizer : BoundedLevenbergMarquardtOptimizer Unit :=
  { identityOptimizer with m_UpperBounds := [3 / 4] }

end BoundedLevenbergMarquardtOptimizer

/-! ## The arithmetic of `double`

In the definitions above a `double` is a rational number and the arithmetic is exact. The
definitions below follow `GetValues` with the result of every arithmetic operation rounded
by a function `fl`; `binary64.round` is the rounding to the nearest `double`. -/

namespace binary64

/-- The power `2^k` for an integer exponent `k`. -/
def twoPow (k : ℤ) : ℚ :=
  if 0 ≤ k then ((2 ^ k.toNat : ℕ) : ℚ) else 1 / ((2 ^ (-k).toNat : ℕ) : ℚ)

/-- The integer nearest to `m`, the even one of the two when `m` lies halfway. -/
def roundHalfEven (m : ℚ) : ℤ :=
  if m - ⌊m⌋ < 1 / 2 then ⌊m⌋
  else if 1 / 2 < m - ⌊m⌋ then ⌊m⌋ + 1
  else if ⌊m⌋ % 2 = 0 then ⌊m⌋
  else ⌊m⌋ + 1

/-- The number of halvings that take `n` below `2`, at most `fuel` of them. -/
def halvings : Nat → Nat → Nat
  | 0, _ => 0
  | fuel + 1, n => if n < 2 then 0 else halvings fuel (n / 2) + 1

/-- The integer part of the binary logarithm of `n`, for `n` other than `0`. -/
def log2 (n : Nat) : Nat := halvings n n

/-- The exponent `e` with `2^e <= |x| < 2^(e+1)`, for `x` other than `0`. -/
def exponent (x : ℚ) : ℤ :=
  let e : ℤ := (log2 x.num.natAbs : ℤ) - (log2 x.den : ℤ)
  if twoPow e ≤ |x| then e else e - 1

/-- The value of type `double` nearest to `x`: 53 significant bits, a tie going to the even
significand; the range of the exponent is left unbounded (no overflow, no subnormal
numbers). -/
def round (x : ℚ) : ℚ :=
  if x = 0 then 0
  else (roundHalfEven (x * twoPow (52 - exponent x)) : ℚ) / twoPow (52 - exponent x)

/-- The unit roundoff `2^-53` of `double`: the largest relative error of `round`. -/
def unitRoundoff : ℚ := 1 / 2 ^ 53

end binary64

/-- The function `fl` rounds with a relative error of at most `u`:
`|fl(x) - x| <= u * |x|`. -/
def RoundsWithin (fl : ℚ → ℚ) (u : ℚ) : Prop := ∀ x, |fl x - x| ≤ u * |x|

namespace GaussianMCMCost

/-- Body of the first loop of `GetValues` (lines 27-34), the result of every product and of
every sum rounded by `fl`. -/
def signalLoopBodyRounded (fl : ℚ → ℚ) (mcm : MCMStructure) (s : GaussianMCMCost)
    (acc : SignalSums) (i : Nat) : SignalSums :=
  let predictedSignal :=
    mcm.GetPredictedSignal s.m_MCMParameters (s.m_BValues.getD i 0) (s.m_Gradients.getD i (0, 0, 0))
  { observedSquaredNorm :=
      fl (acc.observedSquaredNorm
        + fl (s.m_ObservedSignals.getD i 0 * s.m_ObservedSignals.getD i 0))
    m_PredictedSquaredNorm :=
      fl (acc.m_PredictedSquaredNorm + fl (predictedSignal * predictedSignal))
    observedPredictedProduct :=
      fl (acc.observedPredictedProduct + fl (s.m_ObservedSignals.getD i 0 * predictedSignal))
    m_PredictedSignals := acc.m_PredictedSignals.set i predictedSignal }

/-- `GaussianMCMCost::GetValues(parameters)` with the control flow of `GetValues` and the
result of every arithmetic operation, the literal `1.0e-4` and the conversion of `nbImages`
to `double` rounded by `fl`. -/
def GetValuesRounded (fl : ℚ → ℚ) (mcm : MCMStructure) (s : GaussianMCMCost)
    (parameters : List ℚ) : GaussianMCMCost × Except CostError (List ℚ) :=
  let numberOfParameters := toUInt parameters.length
  let nbImages := toUInt s.m_Gradients.length
  -- Set MCM parameters
  let tested := forLoop numberOfParameters (fun t i => t.set i (parameters.getD i 0))
    (resize s.m_TestedParameters numberOfParameters)
  let s1 := { s with m_TestedParameters := tested, m_MCMParameters := tested }
  let sums := forLoop nbImages (signalLoopBodyRounded fl mcm s1)
    { observedSquaredNorm := 0, observedPredictedProduct := 0, m_PredictedSquaredNorm := 0,
      m_PredictedSignals := resize s1.m_PredictedSignals nbImages }
  let s2 := { s1 with m_PredictedSignals := sums.m_PredictedSignals,
                      m_PredictedSquaredNorm := sums.m_PredictedSquaredNorm }
  if s2.m_PredictedSquaredNorm < fl (1 / 10000) then
    (s2, .error .DegenerateSignalError)
  else if s2.m_SigmaSquare < fl (1 / 10000) then
    (s2, .error .DegenerateVarianceError)
  else
    -- Update B0
    let b0 := fl (sums.observedPredictedProduct / s2.m_PredictedSquaredNorm)
    let residuals := forLoop nbImages
      (fun r i =>
        r.set i (fl (fl (b0 * s2.m_PredictedSignals.getD i 0) - s2.m_ObservedSignals.getD i 0)))
      s2.m_Residuals
    -- Update SigmaSq
    let sigmaSquare :=
      fl (fl (sums.observedSquaredNorm - fl (fl (b0 * b0) * s2.m_PredictedSquaredNorm))
        / fl (nbImages : ℚ))
    ({ s2 with m_B0Value := b0, m_Residuals := residuals, m_SigmaSquare := sigmaSquare },
      .ok residuals)

/-- The sum `sum_(i < n) x i * y i` as the first loop of `GetValues` accumulates it from
`0`, each product and each sum rounded by `fl`. -/
def roundedDot (fl : ℚ → ℚ) (x y : Nat → ℚ) : Nat → ℚ
  | 0 => 0
  | n + 1 => fl (roundedDot fl x y n + fl (x n * y n))

/-- The rounded sum of the squared observed signals `GetValuesRounded` accumulates. -/
def observedSquaredNormRounded (fl : ℚ → ℚ) (s : GaussianMCMCost) : ℚ :=
  roundedDot fl (observed s) (observed s) s.m_Gradients.length

/-- The rounded sum of the squared predicted signals `GetValuesRounded` accumulates at `x`
and stores in `m_PredictedSquaredNorm`. -/
def predictedSquaredNormRounded (fl : ℚ → ℚ) (mcm : MCMStructure) (s : GaussianMCMCost)
    (x : List ℚ) : ℚ :=
  roundedDot fl (predicted mcm s x) (predicted mcm s x) s.m_Gradients.length

/-- The rounded sum of the products observed times predicted `GetValuesRounded` accumulates
at `x`. -/
def observedPredictedProductRounded (fl : ℚ → ℚ) (mcm : MCMStructure) (s : GaussianMCMCost)
    (x : List ℚ) : ℚ :=
  roundedDot fl (observed s) (predicted mcm s x) s.m_Gradients.length

/-- The amplitude `GetValuesRounded` computes at `x` (line 49). -/
def amplitudeRounded (fl : ℚ → ℚ) (mcm : MCMStructure) (s : GaussianMCMCost) (x : List ℚ) : ℚ :=
  fl (observedPredictedProductRounded fl mcm s x / predictedSquaredNormRounded fl mcm s x)

/-- The residual vector `GetValuesRounded` computes at `x` (lines 51-52). -/
def residualVectorRounded (fl : ℚ → ℚ) (mcm : MCMStructure) (s : GaussianMCMCost)
    (x : List ℚ) : List ℚ :=
  (List.range s.m_Gradients.length).map
    (fun i => fl (fl (amplitudeRounded fl mcm s x * predicted mcm s x i) - observed s i))

/-- The variance `GetValuesRounded` computes at `x` (line 55). -/
def varianceRounded (fl : ℚ → ℚ) (mcm : MCMStructure) (s : GaussianMCMCost) (x : List ℚ) : ℚ :=
  fl (fl (observedSquaredNormRounded fl s
        - fl (fl (amplitudeRounded fl mcm s x * amplitudeRounded fl mcm s x)
            * predictedSquaredNormRounded fl mcm s x))
      / fl (s.m_Gradients.length : ℚ))

/-- State of the cost function when `GetValuesRounded` reaches the two tests of lines
36-46. -/
def afterSignalsRounded (fl : ℚ → ℚ) (mcm : MCMStructure) (s : GaussianMCMCost)
    (x : List ℚ) : GaussianMCMCost :=
  { afterSignals mcm s x with
    m_PredictedSquaredNorm := predictedSquaredNormRounded fl mcm s x }

/-- Sum of the absolute values of the products observed times predicted over the
measurements. -/
def absoluteProductSum (mcm : MCMStructure) (s : GaussianMCMCost) (x : List ℚ) : ℚ :=
  Finset.sum (Finset.range s.m_Gradients.length)
    (fun i => |observed s i * predicted mcm s x i|)

/-- The parameters `[0.1, 0]` of scenario A as values of type `double`: `0.1` is the
`double` nearest to `1/10`. -/
def scenarioParameters : List ℚ := [binary64.round (1 / 10), 0]

end GaussianMCMCost
/-! ## Loop lemmas -/

theorem toUInt_of_lt {n : Nat} (h : n < 2 ^ 32) : toUInt n = n := Nat.mod_eq_of_lt h

theorem forLoop_zero {α : Type} (body : α → Nat → α) (init : α) : forLoop 0 body init = init := rfl

theorem forLoop_succ {α : Type} (n : Nat) (body : α → Nat → α) (init : α) :
    forLoop (n + 1) body init = body (forLoop n body init) n := by
  simp [forLoop, List.range_succ, List.foldl_append]

theorem length_resize (v : List ℚ) (n : Nat) : (resize v n).length = n := by
  simp [resize]; omega

theorem length_forLoop_set (f : List ℚ → Nat → ℚ) (n : Nat) (v : List ℚ) :
    (forLoop n (fun t i => t.set i (f t i)) v).length = v.length := by
  induction n with
  | zero => rfl
  | succ k ih => rw [forLoop_succ]; simp [ih]

/-- A loop that writes `f i` at every index `i < n` of a vector with at least `n` entries. -/
theorem forLoop_set_initial (f : Nat → ℚ) (v : List ℚ) (n : Nat) (hn : n ≤ v.length) :
    forLoop n (fun t i => t.set i (f i)) v = (List.range n).map f ++ v.drop n := by
  induction n with
  | zero => simp [forLoop]
  | succ k ih =>
    have hk : k < v.length := hn
    rw [forLoop_succ, ih (Nat.le_of_lt hk), List.set_append]
    have hd : v.drop k = v.getD k 0 :: v.drop (k + 1) := by
      rw [List.drop_eq_getElem_cons hk]
      simp [List.getD_eq_getElem?_getD, List.getElem?_eq_getElem hk]
    simp [List.range_succ, hd]

/-- A loop that writes `f i` at every index of a vector of `n` entries. -/
theorem forLoop_set_all (f : Nat → ℚ) (v : List ℚ) (n : Nat) (hn : v.length = n) :
    forLoop n (fun t i => t.set i (f i)) v = (List.range n).map f := by
  rw [forLoop_set_initial f v n (le_of_eq hn.symm)]
  simp [← hn]

theorem getD_map_range (f : Nat → ℚ) (n i : Nat) (hi : i < n) :
    ((List.range n).map f).getD i 0 = f i := by
  simp [List.getD_eq_getElem?_getD, List.getElem?_map, List.getElem?_range hi]

/-- A loop that adds `f i` to an accumulator for every `i < n`. -/
theorem forLoop_add (f : Nat → ℚ) (n : Nat) (a : ℚ) :
    forLoop n (fun acc i => acc + f i) a = a + Finset.sum (Finset.range n) f := by
  induction n with
  | zero => simp [forLoop]
  | succ k ih => rw [forLoop_succ, ih, Finset.sum_range_succ]; ring

theorem map_range_getD (l : List ℚ) : (List.range l.length).map (fun i => l.getD i 0) = l := by
  apply List.ext_getElem
  · simp
  · intro i h1 h2
    simp [List.getD_eq_getElem?_getD, List.getElem?_eq_getElem h2]

namespace GaussianMCMCost

/-- The first loop of `GetValues` in closed form. -/
theorem signalLoop_eq (mcm : MCMStructure) (s : GaussianMCMCost) (n : Nat) (a : SignalSums) :
    forLoop n (signalLoopBody mcm s) a =
      { observedSquaredNorm := a.observedSquaredNorm + observedSquaredNorm s n
        observedPredictedProduct :=
          a.observedPredictedProduct + observedPredictedProduct mcm s s.m_MCMParameters n
        m_PredictedSquaredNorm :=
          a.m_PredictedSquaredNorm + predictedSquaredNorm mcm s s.m_MCMParameters n
        m_PredictedSignals :=
          forLoop n (fun t i => t.set i (predicted mcm s s.m_MCMParameters i))
            a.m_PredictedSignals } := by
  induction n with
  | zero =>
    simp [forLoop, observedSquaredNorm, observedPredictedProduct, predictedSquaredNorm]
  | succ k ih =>
    rw [forLoop_succ, ih, forLoop_succ]
    simp [signalLoopBody, observedSquaredNorm, observedPredictedProduct, predictedSquaredNorm,
      Finset.sum_range_succ, observed, predicted, add_assoc]

/-- The copy of `parameters` into `m_TestedParameters` (lines 16-19). -/
theorem testedParameters_eq (v x : List ℚ) (hx : x.length < 2 ^ 32) :
    forLoop (toUInt x.length) (fun t i => t.set i (x.getD i 0)) (resize v (toUInt x.length))
      = x := by
  rw [toUInt_of_lt hx, forLoop_set_all (fun i => x.getD i 0) _ _ (length_resize v x.length)]
  exact map_range_getD x

/-- `GetValues` in closed form, for a well-formed measurement set. -/
theorem GetValues_eq (mcm : MCMStructure) (s : GaussianMCMCost) (x : List ℚ)
    (hwf : WellFormed s) (hx : x.length < 2 ^ 32) :
    GetValues mcm s x =
      if predictedSquaredNorm mcm s x s.m_Gradients.length < 1 / 10000 then
        (afterSignals mcm s x, .error .DegenerateSignalError)
      else if s.m_SigmaSquare < 1 / 10000 then
        (afterSignals mcm s x, .error .DegenerateVarianceError)
      else
        ({ afterSignals mcm s x with
            m_B0Value := amplitude mcm s x
            m_Residuals := residualVector mcm s x
            m_SigmaSquare := variance mcm s x }, .ok (residualVector mcm s x)) := by
  obtain ⟨ho, hb, hr, hn⟩ := hwf
  have hset : ∀ (b0 : ℚ) (p : Nat → ℚ) (o : List ℚ),
      forLoop s.m_Gradients.length
        (fun r i => r.set i (b0 * ((List.range s.m_Gradients.length).map p).getD i 0
          - o.getD i 0)) s.m_Residuals
        = (List.range s.m_Gradients.length).map (fun i => b0 * p i - o.getD i 0) := by
    intro b0 p o
    rw [forLoop_set_all _ _ _ hr]
    apply List.map_congr_left
    intro i hi
    rw [getD_map_range _ _ _ (List.mem_range.mp hi)]
  unfold GetValues
  simp only [testedParameters_eq _ x hx, toUInt_of_lt hn, signalLoop_eq,
    forLoop_set_all _ _ _ (length_resize _ _), zero_add, hset]
  rfl

/-- `GetValues` succeeds only past both tests, and then returns `residualVector`. -/
theorem GetValues_ok_inv (mcm : MCMStructure) (s : GaussianMCMCost) (x residuals : List ℚ)
    (hwf : WellFormed s) (hx : x.length < 2 ^ 32)
    (hok : (GetValues mcm s x).2 = .ok residuals) :
    ¬ predictedSquaredNorm mcm s x s.m_Gradients.length < 1 / 10000 ∧
    ¬ s.m_SigmaSquare < 1 / 10000 ∧ residuals = residualVector mcm s x := by
  rw [GetValues_eq mcm s x hwf hx] at hok
  by_cases h1 : predictedSquaredNorm mcm s x s.m_Gradients.length < 1 / 10000
  · rw [if_pos h1] at hok
    exact absurd hok (by simp)
  · by_cases h2 : s.m_SigmaSquare < 1 / 10000
    · rw [if_neg h1, if_pos h2] at hok
      exact absurd hok (by simp)
    · rw [if_neg h1, if_neg h2] at hok
      exact ⟨h1, h2, (Except.ok.inj hok).symm⟩

/-- The result of `GetValues` past both tests. -/
theorem GetValues_ok (mcm : MCMStructure) (s : GaussianMCMCost) (x : List ℚ)
    (hwf : WellFormed s) (hx : x.length < 2 ^ 32)
    (h1 : ¬ predictedSquaredNorm mcm s x s.m_Gradients.length < 1 / 10000)
    (h2 : ¬ s.m_SigmaSquare < 1 / 10000) :
    GetValues mcm s x =
      ({ afterSignals mcm s x with
          m_B0Value := amplitude mcm s x
          m_Residuals := residualVector mcm s x
          m_SigmaSquare := variance mcm s x }, .ok (residualVector mcm s x)) := by
  rw [GetValues_eq mcm s x hwf hx, if_neg h1, if_neg h2]

theorem length_residualVector (mcm : MCMStructure) (s : GaussianMCMCost) (x : List ℚ) :
    (residualVector mcm s x).length = s.m_Gradients.length := by
  simp [residualVector]

theorem getD_residualVector (mcm : MCMStructure) (s : GaussianMCMCost) (x : List ℚ) (i : Nat)
    (hi : i < s.m_Gradients.length) :
    (residualVector mcm s x).getD i 0 = amplitude mcm s x * predicted mcm s x i - observed s i := by
  unfold residualVector
  rw [getD_map_range _ _ _ hi]

/-- A successful `GetValues` has at least one measurement. -/
theorem one_le_of_not_degenerate (mcm : MCMStructure) (s : GaussianMCMCost) (x : List ℚ)
    (h1 : ¬ predictedSquaredNorm mcm s x s.m_Gradients.length < 1 / 10000) :
    1 ≤ s.m_Gradients.length := by
  by_contra h
  have h0 : s.m_Gradients.length = 0 := by omega
  apply h1
  rw [h0]
  norm_num [predictedSquaredNorm]

theorem wellFormed_evaluated (mcm : MCMStructure) (s : GaussianMCMCost) (x : List ℚ)
    (hwf : WellFormed s) : WellFormed (evaluated mcm s x) := by
  obtain ⟨ho, hb, _, hn⟩ := hwf
  exact ⟨ho, hb, length_residualVector mcm s x, hn⟩

/-- A second `GetValues` at the same point, right after a successful one. -/
theorem GetValues_evaluated (mcm : MCMStructure) (s : GaussianMCMCost) (x : List ℚ)
    (hwf : WellFormed s) (hx : x.length < 2 ^ 32)
    (h1 : ¬ predictedSquaredNorm mcm s x s.m_Gradients.length < 1 / 10000) :
    GetValues mcm (evaluated mcm s x) x =
      if variance mcm s x < 1 / 10000 then
        (evaluated mcm s x, .error .DegenerateVarianceError)
      else (evaluated mcm s x, .ok (residualVector mcm s x)) := by
  rw [GetValues_eq mcm _ x (wellFormed_evaluated mcm s x hwf) hx]
  have hp : predictedSquaredNorm mcm (evaluated mcm s x) x (evaluated mcm s x).m_Gradients.length
      = predictedSquaredNorm mcm s x s.m_Gradients.length := rfl
  have hv : (evaluated mcm s x).m_SigmaSquare = variance mcm s x := rfl
  rw [hp, if_neg h1, hv]
  split_ifs <;> rfl

/-- The state after a successful `GetValues` is `evaluated`. -/
theorem GetValues_ok_state (mcm : MCMStructure) (s : GaussianMCMCost) (x residuals : List ℚ)
    (hwf : WellFormed s) (hx : x.length < 2 ^ 32)
    (hok : (GetValues mcm s x).2 = .ok residuals) :
    GetValues mcm s x = (evaluated mcm s x, .ok residuals) := by
  obtain ⟨h1, h2, hres⟩ := GetValues_ok_inv mcm s x residuals hwf hx hok
  rw [GetValues_ok mcm s x hwf hx h1 h2, hres]
  rfl

end GaussianMCMCost

theorem getD_set (l : List ℚ) (a k : Nat) (v : ℚ) :
    (l.set a v).getD k 0 = if a = k ∧ k < l.length then v else l.getD k 0 := by
  simp only [List.getD_eq_getElem?_getD, List.getElem?_set]
  by_cases h : a = k
  · subst h
    by_cases h2 : a < l.length
    · simp [h2]
    · simp [h2, List.getElem?_eq_none (not_lt.mp h2)]
  · simp [h]

theorem flat_index_inj {n r c r' c' : Nat} (hc : c < n) (hc' : c' < n) :
    r * n + c = r' * n + c' ↔ r = r' ∧ c = c' := by
  constructor
  · intro h
    have h1 : (r * n + c) % n = (r' * n + c') % n := by rw [h]
    have h2 : (r * n + c) / n = (r' * n + c') / n := by rw [h]
    have hn : 0 < n := by omega
    rw [Nat.mul_comm r, Nat.mul_comm r', Nat.mul_add_mod, Nat.mul_add_mod,
      Nat.mod_eq_of_lt hc, Nat.mod_eq_of_lt hc'] at h1
    rw [Nat.mul_comm r, Nat.mul_comm r', Nat.mul_add_div hn, Nat.mul_add_div hn,
      Nat.div_eq_of_lt hc, Nat.div_eq_of_lt hc'] at h2
    omega
  · rintro ⟨rfl, rfl⟩
    rfl

/-- A loop that writes `v r` at entry `(r, i)` of a block for every `r < m`. -/
theorem getD_forLoop_set_column (v : Nat → ℚ) (n i : Nat) (hi : i < n) (d0 : List ℚ) (m : Nat) :
    (forLoop m (fun d j => d.set (j * n + i) (v j)) d0).length = d0.length ∧
    ∀ r c, c < n →
      (forLoop m (fun d j => d.set (j * n + i) (v j)) d0).getD (r * n + c) 0
        = if r < m ∧ c = i ∧ r * n + c < d0.length then v r else d0.getD (r * n + c) 0 := by
  induction m with
  | zero => simp [forLoop]
  | succ k ih =>
    obtain ⟨ihl, ihv⟩ := ih
    rw [forLoop_succ]
    refine ⟨by rw [List.length_set, ihl], ?_⟩
    intro r c hc
    rw [getD_set, ihl, ihv r c hc]
    simp only [flat_index_inj hi hc]
    by_cases h1 : k = r
    · subst h1
      by_cases h2 : i = c
      · subst h2
        by_cases h3 : k * n + i < d0.length
        · simp [h3]
        · simp [h3]
      · have h2' : ¬ c = i := fun h => h2 h.symm
        simp [h2, h2']
    · have : (r < k + 1) ↔ r < k := by omega
      simp [h1, this]

/-- A loop that adds `g j` to entry `j` of a vector for every `j < m`. -/
theorem getD_forLoop_accumulate (g : Nat → ℚ) (p0 : List ℚ) (m : Nat) :
    (forLoop m (fun p j => p.set j (p.getD j 0 + g j)) p0).length = p0.length ∧
    ∀ k, (forLoop m (fun p j => p.set j (p.getD j 0 + g j)) p0).getD k 0
        = if k < m ∧ k < p0.length then p0.getD k 0 + g k else p0.getD k 0 := by
  induction m with
  | zero => simp [forLoop]
  | succ n ih =>
    obtain ⟨ihl, ihv⟩ := ih
    rw [forLoop_succ]
    refine ⟨by rw [List.length_set, ihl], ?_⟩
    intro k
    rw [getD_set, ihl, ihv k, ihv n]
    by_cases h1 : n = k
    · subst h1
      by_cases h2 : n < p0.length
      · simp [h2]
      · simp [h2]
    · have : (k < n + 1) ↔ k < n := by omega
      simp [h1, this]

theorem getD_replicate_zero (n k : Nat) : (List.replicate n (0 : ℚ)).getD k 0 = 0 := by
  simp only [List.getD_eq_getElem?_getD, List.getElem?_replicate]
  split_ifs <;> rfl

namespace GaussianMCMCost

/-- The inner loop of `GetDerivativeMatrix`, one loop per output. -/
theorem jacobianInner_eq (s : GaussianMCMCost) (J : List ℚ) (i m : Nat)
    (st : JacobianLoopState) :
    forLoop m (jacobianInnerBody s J i) st =
      { derivative :=
          { rows := st.derivative.rows
            cols := st.derivative.cols
            data := forLoop m
              (fun d j => d.set (j * st.derivative.cols + i)
                (s.m_B0Value * s.m_PredictedSignals.getD i 0 * J.getD j 0
                  - s.m_ObservedSignals.getD i 0 * J.getD j 0))
              st.derivative.data }
        m_PredictedJacobianProducts := forLoop m
          (fun p j => p.set j (p.getD j 0 + s.m_PredictedSignals.getD i 0 * J.getD j 0))
          st.m_PredictedJacobianProducts } := by
  induction m with
  | zero => rfl
  | succ k ih =>
    rw [forLoop_succ, ih, forLoop_succ, forLoop_succ]
    rfl

theorem flat_index_lt {P N r c : Nat} (hr : r < P) (hc : c < N) : r * N + c < P * N := by
  calc r * N + c < r * N + N := by omega
    _ = (r + 1) * N := by ring
    _ ≤ P * N := Nat.mul_le_mul_right N hr

/-- Invariant of the outer loop of `GetDerivativeMatrix` after `n` measurements. -/
theorem jacobianOuter_spec (mcm : MCMStructure) (s : GaussianMCMCost) (P N n : Nat)
    (hn : n ≤ N) :
    (forLoop n (jacobianOuterBody mcm s P)
      ⟨VnlMatrix.zeros P N, List.replicate P 0⟩).derivative.rows = P ∧
    (forLoop n (jacobianOuterBody mcm s P)
      ⟨VnlMatrix.zeros P N, List.replicate P 0⟩).derivative.cols = N ∧
    (forLoop n (jacobianOuterBody mcm s P)
      ⟨VnlMatrix.zeros P N, List.replicate P 0⟩).derivative.data.length = P * N ∧
    (forLoop n (jacobianOuterBody mcm s P)
      ⟨VnlMatrix.zeros P N, List.replicate P 0⟩).m_PredictedJacobianProducts.length = P ∧
    (∀ r c, r < P → c < N →
      (forLoop n (jacobianOuterBody mcm s P)
        ⟨VnlMatrix.zeros P N, List.replicate P 0⟩).derivative.get r c
        = if c < n then
            s.m_B0Value * s.m_PredictedSignals.getD c 0
                * (gradient mcm s s.m_MCMParameters c).getD r 0
              - observed s c * (gradient mcm s s.m_MCMParameters c).getD r 0
          else 0) ∧
    (∀ j, j < P →
      (forLoop n (jacobianOuterBody mcm s P)
        ⟨VnlMatrix.zeros P N, List.replicate P 0⟩).m_PredictedJacobianProducts.getD j 0
        = ∑ i ∈ Finset.range n,
            s.m_PredictedSignals.getD i 0 * (gradient mcm s s.m_MCMParameters i).getD j 0) := by
  induction n with
  | zero =>
    refine ⟨rfl, rfl, by simp [forLoop, VnlMatrix.zeros], by simp [forLoop], ?_, ?_⟩
    · intro r c hr hc
      simp [forLoop, VnlMatrix.zeros, VnlMatrix.get, getD_replicate_zero]
    · intro j hj
      simp [forLoop, getD_replicate_zero]
  | succ k ih =>
    obtain ⟨hrows, hcols, hlen, hplen, hget, hpjp⟩ := ih (Nat.le_of_succ_le hn)
    have hk : k < N := hn
    rw [forLoop_succ]
    generalize forLoop k (jacobianOuterBody mcm s P) ⟨VnlMatrix.zeros P N, List.replicate P 0⟩
      = st at hrows hcols hlen hplen hget hpjp
    unfold jacobianOuterBody
    simp only [jacobianInner_eq]
    obtain ⟨hl1, hv1⟩ := getD_forLoop_set_column
      (fun j => s.m_B0Value * s.m_PredictedSignals.getD k 0
          * (gradient mcm s s.m_MCMParameters k).getD j 0
        - s.m_ObservedSignals.getD k 0 * (gradient mcm s s.m_MCMParameters k).getD j 0)
      N k hk st.derivative.data P
    obtain ⟨hl2, hv2⟩ := getD_forLoop_accumulate
      (fun j => s.m_PredictedSignals.getD k 0 * (gradient mcm s s.m_MCMParameters k).getD j 0)
      st.m_PredictedJacobianProducts P
    simp only [gradient] at hl1 hv1 hl2 hv2 ⊢
    simp only [hcols]
    refine ⟨hrows, trivial, by rw [hl1, hlen], by rw [hl2, hplen], ?_, ?_⟩
    · intro r c hr hc
      have hg := hget r c hr hc
      simp only [VnlMatrix.get, hcols] at hg ⊢
      rw [hv1 r c hc, hg, hlen]
      have hlt := flat_index_lt hr hc
      by_cases h1 : c = k
      · subst h1
        simp [hr, hlt, observed]
      · have h2 : (c < k + 1) ↔ c < k := by omega
        simp [h1, h2, gradient, observed]
    · intro j hj
      rw [hv2 j, hpjp j hj, hplen, Finset.sum_range_succ]
      simp [hj, gradient]

end GaussianMCMCost

namespace GaussianMCMCost

theorem requireGetValue_self (s : GaussianMCMCost) (n : Nat) :
    requireGetValue s s.m_TestedParameters n = false := by
  simp [requireGetValue]

/-- `GetDerivativeMatrix` in the conditional regime at the cached point. -/
theorem GetDerivativeMatrix_cached (mcm : MCMStructure) (s : GaussianMCMCost) (x : List ℚ)
    (derivative : VnlMatrix) (hm : s.m_MarginalEstimation = false) (hP : 1 ≤ x.length)
    (hx : x.length < 2 ^ 32) (hN : s.m_ObservedSignals.length < 2 ^ 32)
    (hcached : s.m_TestedParameters = x) :
    GetDerivativeMatrix mcm s x derivative =
      ({ s with m_PredictedJacobianProducts :=
            (forLoop s.m_ObservedSignals.length (jacobianOuterBody mcm s x.length)
              ⟨VnlMatrix.zeros x.length s.m_ObservedSignals.length,
                List.replicate x.length 0⟩).m_PredictedJacobianProducts },
        (forLoop s.m_ObservedSignals.length (jacobianOuterBody mcm s x.length)
          ⟨VnlMatrix.zeros x.length s.m_ObservedSignals.length,
            List.replicate x.length 0⟩).derivative, .ok ()) := by
  subst hcached
  have h0 : ¬ s.m_TestedParameters.length = 0 := by omega
  simp [GetDerivativeMatrix, hm, toUInt_of_lt hx, toUInt_of_lt hN, requireGetValue_self, h0]

end GaussianMCMCost

namespace BoundedLevenbergMarquardtOptimizer

variable {σ : Type}

theorem CheckConditions_of_cap (cm : CMath) (o : BoundedLevenbergMarquardtOptimizer σ)
    (numIterations : Nat) (newParams dValues : List ℚ) (newCostValue : ℚ)
    (h : numIterations = o.m_NumberOfIterations) :
    CheckConditions cm o numIterations newParams dValues newCostValue = true := by
  unfold CheckConditions
  rw [if_pos h]

theorem stop_of_check (n : Nat) (c s : Bool) (h1 : n ≠ 1) (hc : c = true) :
    (if n ≠ 1 then c else s) = true := by
  rw [if_pos h1]
  exact hc

/-- What one pass of the main loop does to the quantities the acceptance test governs. -/
theorem iteration_spec (ext : Externals) (cf : CostFunction σ) (a b : LoopState σ)
    (h : iteration ext cf a = .ok b) :
    b.members.m_LowerBounds = a.members.m_LowerBounds ∧
    b.members.m_UpperBounds = a.members.m_UpperBounds ∧
    b.members.m_NumberOfIterations = a.members.m_NumberOfIterations ∧
    b.members.m_InitialPosition = a.members.m_InitialPosition ∧
    b.numIterations = (a.numIterations + 1) % 2 ^ 32 ∧
    b.parameters = addVector a.oldParameters b.members.m_CurrentAddonVector ∧
    b.members.m_CurrentAddonVector
      = (UpdateLambdaParameter ext a.members.m_DeltaParameter a.derivativeMatrix a.dValues
          a.pivotVector a.inversePivotVector a.qtResiduals
          (permuteBounds a.members a.nbParams a.pivotVector a.oldParameters
            a.lowerBoundsPermutted a.upperBoundsPermutted).1
          (permuteBounds a.members a.nbParams a.pivotVector a.oldParameters
            a.lowerBoundsPermutted a.upperBoundsPermutted).2 a.rank).2 ∧
    b.rejectedStep = decide (squaredNorm b.newResidualValues > a.members.m_CurrentValue) ∧
    (b.rejectedStep = false →
      b.oldParameters = b.parameters ∧
      b.members.m_CurrentValue = squaredNorm b.newResidualValues ∧
      b.members.m_ResidualValues = b.newResidualValues) ∧
    (b.rejectedStep = true →
      b.oldParameters = a.oldParameters ∧
      b.members.m_CurrentValue = a.members.m_CurrentValue ∧
      b.members.m_ResidualValues = a.members.m_ResidualValues) ∧
    (b.numIterations ≠ 1 → b.numIterations = b.members.m_NumberOfIterations →
      b.stopConditionReached = true) := by
  unfold iteration at h
  simp only [EvaluateCostFunctionAtParameters] at h
  split at h
  · exact absurd h (by simp)
  · rename_i o tentative newRes heq
    split at heq
    · exact absurd heq (by simp)
    · rename_i c res hval
      simp only [Prod.mk.injEq, Except.ok.injEq] at heq
      obtain ⟨ho, htent, hres⟩ := heq
      subst ho htent hres
      split at h
      · split at h
        · exact absurd h (by simp)
        · rename_i hrej _ c2 dm u hder
          simp only [Except.ok.injEq] at h
          subst h
          simp only [Bool.not_eq_true', decide_eq_false_iff_not] at hrej
          refine ⟨rfl, rfl, rfl, rfl, rfl, rfl, rfl, rfl, ?_, ?_, ?_⟩
          · intro _
            exact ⟨rfl, rfl, rfl⟩
          · intro hr
            simp only [decide_eq_true_eq] at hr
            exact absurd hr hrej
          · intro h1 hM
            exact stop_of_check _ _ _ h1 (CheckConditions_of_cap _ _ _ _ _ _ hM)
      · rename_i hrej
        simp only [Except.ok.injEq] at h
        subst h
        simp only [Bool.not_eq_true', decide_eq_false_iff_not, not_not] at hrej
        refine ⟨rfl, rfl, rfl, rfl, rfl, rfl, rfl, rfl, ?_, ?_, ?_⟩
        · intro hr
          simp only [decide_eq_false_iff_not] at hr
          exact absurd hrej hr
        · intro _
          exact ⟨rfl, rfl, rfl⟩
        · intro h1 hM
          exact stop_of_check _ _ _ h1 (CheckConditions_of_cap _ _ _ _ _ _ hM)

end BoundedLevenbergMarquardtOptimizer

namespace BoundedLevenbergMarquardtOptimizer

variable {σ : Type}

theorem length_addVector (x addon : List ℚ) : (addVector x addon).length = x.length :=
  (getD_forLoop_accumulate (fun i => addon.getD i 0) x x.length).1

theorem getD_addVector (x addon : List ℚ) (i : Nat) (hi : i < x.length) :
    (addVector x addon).getD i 0 = x.getD i 0 + addon.getD i 0 := by
  unfold addVector
  rw [(getD_forLoop_accumulate (fun i => addon.getD i 0) x x.length).2 i, if_pos ⟨hi, hi⟩]

/-- A feasible step from a point within the bounds leads to a point within the bounds. -/
theorem inBounds_addVector (o : BoundedLevenbergMarquardtOptimizer σ) (x addon : List ℚ)
    (hstep : StepFeasible o x addon) : InBounds o (addVector x addon) := by
  intro i hi
  rw [length_addVector] at hi
  rw [getD_addVector x addon i hi]
  obtain ⟨h1, h2⟩ := hstep i hi
  constructor <;> linarith

/-- The state at the head of the main loop. -/
theorem initialise_ready (ext : Externals) (cf : CostFunction σ)
    (o : BoundedLevenbergMarquardtOptimizer σ) (st0 : LoopState σ)
    (h : initialise ext cf o = .ready st0) :
    st0.oldParameters = o.m_InitialPosition ∧
    (cf.GetValue o.m_CostFunction o.m_InitialPosition).2 = .ok st0.members.m_ResidualValues ∧
    st0.members.m_CurrentValue = squaredNorm st0.members.m_ResidualValues ∧
    st0.members.m_LowerBounds = o.m_LowerBounds ∧
    st0.members.m_UpperBounds = o.m_UpperBounds ∧
    st0.members.m_NumberOfIterations = o.m_NumberOfIterations ∧
    st0.members.m_InitialPosition = o.m_InitialPosition ∧
    st0.numIterations = 0 ∧
    st0.stopConditionReached = false := by
  unfold initialise at h
  simp only [EvaluateCostFunctionAtParameters] at h
  split at h
  · exact absurd h (by simp)
  · rename_i o1 costValue residualValues heq
    split at heq
    · exact absurd heq (by simp)
    · rename_i c res hval
      simp only [Prod.mk.injEq, Except.ok.injEq] at heq
      obtain ⟨ho, hcost, hres⟩ := heq
      subst ho hcost hres
      split at h
      · exact absurd h (by simp)
      · split at h
        · exact absurd h (by simp)
        · simp only [Initialised.ready.injEq] at h
          subst h
          exact ⟨rfl, by rw [hval], rfl, rfl, rfl, rfl, rfl, rfl, rfl⟩

/-- The members at the `return` of line 57. -/
theorem initialise_degenerate (ext : Externals) (cf : CostFunction σ)
    (o o' : BoundedLevenbergMarquardtOptimizer σ)
    (h : initialise ext cf o = .degenerate o') :
    o'.m_CurrentPosition = o.m_InitialPosition ∧
    (cf.GetValue o.m_CostFunction o.m_InitialPosition).2 = .ok o'.m_ResidualValues ∧
    o'.m_CurrentValue = squaredNorm o'.m_ResidualValues := by
  unfold initialise at h
  simp only [EvaluateCostFunctionAtParameters] at h
  split at h
  · exact absurd h (by simp)
  · rename_i o1 costValue residualValues heq
    split at heq
    · exact absurd heq (by simp)
    · rename_i c res hval
      simp only [Prod.mk.injEq, Except.ok.injEq] at heq
      obtain ⟨ho, hcost, hres⟩ := heq
      subst ho hcost hres
      split at h
      · exact absurd h (by simp)
      · split at h
        · simp only [Initialised.degenerate.injEq] at h
          subst h
          exact ⟨rfl, by rw [hval], rfl⟩
        · exact absurd h (by simp)

/-- A returning main loop stops in a reachable state. -/
theorem mainLoop_returned (ext : Externals) (cf : CostFunction σ) (st0 : LoopState σ)
    (fuel : Nat) (st : LoopState σ) (o' : BoundedLevenbergMarquardtOptimizer σ)
    (hst : Reachable ext cf st0 st) (h : mainLoop ext cf fuel st = .returned o') :
    ∃ st', Reachable ext cf st0 st' ∧ st'.stopConditionReached = true ∧
      o' = { st'.members with m_CurrentPosition := st'.oldParameters } := by
  induction fuel generalizing st with
  | zero =>
    unfold mainLoop at h
    by_cases hs : st.stopConditionReached = true
    · rw [if_pos hs] at h
      exact ⟨st, hst, hs, (Outcome.returned.inj h).symm⟩
    · rw [if_neg hs] at h
      exact absurd h (by simp)
  | succ n ih =>
    unfold mainLoop at h
    by_cases hs : st.stopConditionReached = true
    · rw [if_pos hs] at h
      exact ⟨st, hst, hs, (Outcome.returned.inj h).symm⟩
    · rw [if_neg hs] at h
      simp only at h
      split at h
      · exact absurd h (by simp)
      · rename_i b hb
        exact ih b (Reachable.pass st b hst (by simpa using hs) hb) h

/-- Along a run the configuration is constant and the current cost never increases. -/
theorem reachable_invariant (ext : Externals) (cf : CostFunction σ) (st0 st : LoopState σ)
    (hst : Reachable ext cf st0 st) :
    st.members.m_LowerBounds = st0.members.m_LowerBounds ∧
    st.members.m_UpperBounds = st0.members.m_UpperBounds ∧
    st.members.m_NumberOfIterations = st0.members.m_NumberOfIterations ∧
    st.members.m_CurrentValue ≤ st0.members.m_CurrentValue ∧
    (st.oldParameters = st0.oldParameters ∨
      ∃ a b, Reachable ext cf st0 a ∧ a.stopConditionReached = false ∧
        iteration ext cf a = .ok b ∧ b.rejectedStep = false ∧
        squaredNorm b.newResidualValues ≤ a.members.m_CurrentValue ∧
        st.oldParameters = b.parameters) := by
  induction hst with
  | head => exact ⟨rfl, rfl, rfl, le_refl _, Or.inl rfl⟩
  | pass a b ha hstop hab ih =>
    obtain ⟨hl, hu, hM, hcost, hpos⟩ := ih
    obtain ⟨il, iu, iM, _, _, _, _, irej, iacc, irejd, _⟩ := iteration_spec ext cf a b hab
    refine ⟨il.trans hl, iu.trans hu, iM.trans hM, ?_, ?_⟩
    · cases hr : b.rejectedStep with
      | false =>
        rw [hr] at irej
        have hle : squaredNorm b.newResidualValues ≤ a.members.m_CurrentValue := by
          have := of_decide_eq_false irej.symm
          exact not_lt.mp this
        rw [(iacc hr).2.1]
        exact le_trans hle hcost
      | true =>
        rw [(irejd hr).2.1]
        exact hcost
    · cases hr : b.rejectedStep with
      | false =>
        rw [hr] at irej
        have hle : squaredNorm b.newResidualValues ≤ a.members.m_CurrentValue := by
          have := of_decide_eq_false irej.symm
          exact not_lt.mp this
        exact Or.inr ⟨a, b, ha, hstop, hab, hr, hle, (iacc hr).1⟩
      | true =>
        rw [(irejd hr).1]
        exact hpos

end BoundedLevenbergMarquardtOptimizer

namespace BoundedLevenbergMarquardtOptimizer

variable {σ : Type}

/-- With an iteration cap `M >= 2` the main loop ends within `M` passes. -/
theorem mainLoop_not_running (ext : Externals) (cf : CostFunction σ) (M : Nat) (hM2 : 2 ≤ M)
    (hM : M < 2 ^ 32) (fuel : Nat) (st : LoopState σ)
    (hcap : st.members.m_NumberOfIterations = M)
    (hnum : st.stopConditionReached = false → st.numIterations < M)
    (hfuel : M - st.numIterations ≤ fuel) (r : LoopState σ) :
    mainLoop ext cf fuel st ≠ .running r := by
  induction fuel generalizing st with
  | zero =>
    unfold mainLoop
    by_cases hs : st.stopConditionReached = true
    · rw [if_pos hs]
      simp
    · have := hnum (by simpa using hs)
      omega
  | succ n ih =>
    unfold mainLoop
    by_cases hs : st.stopConditionReached = true
    · rw [if_pos hs]
      simp
    · rw [if_neg hs]
      simp only
      have hlt := hnum (by simpa using hs)
      split
      · simp
      · rename_i b hb
        obtain ⟨_, _, iM, _, inum, _, _, _, _, _, istop⟩ := iteration_spec ext cf st b hb
        have hnb : b.numIterations = st.numIterations + 1 := by
          rw [inum]
          exact Nat.mod_eq_of_lt (by omega)
        apply ih b (iM.trans hcap)
        · intro hbs
          by_contra hge
          have heq : b.numIterations = b.members.m_NumberOfIterations := by
            rw [iM, hcap]
            omega
          have h1 : b.numIterations ≠ 1 := by
            rw [heq, iM, hcap]
            omega
          rw [istop h1 heq] at hbs
          exact absurd hbs (by simp)
        · omega

end BoundedLevenbergMarquardtOptimizer

namespace BoundedLevenbergMarquardtOptimizer

variable {σ : Type}

/-- Along a run whose steps are feasible, the current point is the initial one or lies
within the bounds. -/
theorem reachable_inBounds (ext : Externals) (cf : CostFunction σ)
    (o : BoundedLevenbergMarquardtOptimizer σ) (st0 st : LoopState σ)
    (hstep : ∀ a b, Reachable ext cf st0 a → a.stopConditionReached = false →
      iteration ext cf a = .ok b →
      StepFeasible o a.oldParameters b.members.m_CurrentAddonVector)
    (hst : Reachable ext cf st0 st) :
    (st.oldParameters = st0.oldParameters ∨ InBounds o st.oldParameters) ∧
      st.oldParameters.length = st0.oldParameters.length := by
  induction hst with
  | head => exact ⟨Or.inl rfl, rfl⟩
  | pass a b ha hstop hab ih =>
    obtain ⟨hin, hlen⟩ := ih
    obtain ⟨_, _, _, _, _, hpar, _, _, iacc, irejd, _⟩ := iteration_spec ext cf a b hab
    cases hr : b.rejectedStep with
    | false =>
      rw [(iacc hr).1, hpar]
      exact ⟨Or.inr (inBounds_addVector o _ _ (hstep a b ha hstop hab)),
        by rw [length_addVector, hlen]⟩
    | true =>
      rw [(irejd hr).1]
      exact ⟨hin, hlen⟩

theorem mem_passes_self (ext : Externals) (cf : CostFunction σ) (fuel : Nat)
    (st : LoopState σ) : st ∈ passes ext cf fuel st := by
  cases fuel with
  | zero => simp [passes]
  | succ n =>
    unfold passes
    split
    · simp
    · split <;> simp

/-- A closed list of loop states that holds the head of the main loop holds every state the
run goes through. -/
theorem reachable_mem_trace [DecidableEq σ] (ext : Externals) (cf : CostFunction σ)
    (st0 : LoopState σ) (trace : List (LoopState σ)) (h0 : st0 ∈ trace)
    (hclosed : closedTrace ext cf trace = true) (a : LoopState σ)
    (ha : Reachable ext cf st0 a) : a ∈ trace := by
  induction ha with
  | head => exact h0
  | pass a b _ hstop hab ih =>
    have h := List.all_eq_true.mp hclosed a ih
    rw [hstop, hab] at h
    simpa using h

/-- Feasibility of the steps of a run, checked on the list of its loop states. -/
theorem stepFeasible_of_trace [DecidableEq σ] (ext : Externals) (cf : CostFunction σ)
    (o : BoundedLevenbergMarquardtOptimizer σ) (fuel : Nat)
    (hclosed : closedTrace ext cf (runTrace ext cf o fuel) = true)
    (hfeasible : feasibleTrace ext cf o (runTrace ext cf o fuel) = true)
    (st0 a b : LoopState σ) (hi : initialise ext cf o = .ready st0)
    (ha : Reachable ext cf st0 a) (hstop : a.stopConditionReached = false)
    (hab : iteration ext cf a = .ok b) :
    StepFeasible o a.oldParameters b.members.m_CurrentAddonVector := by
  have htrace : runTrace ext cf o fuel = passes ext cf fuel st0 := by
    unfold runTrace
    rw [hi]
  rw [htrace] at hclosed hfeasible
  have hmem := reachable_mem_trace ext cf st0 _ (mem_passes_self ext cf fuel st0) hclosed a ha
  have h := List.all_eq_true.mp hfeasible a hmem
  rw [hstop, hab] at h
  simpa using h

/-- A rounding of the sum `parameters += m_CurrentAddonVector` that is monotone and leaves
the bounds as they are keeps a feasible step within the bounds. -/
theorem inBounds_addVector_rounded (o : BoundedLevenbergMarquardtOptimizer σ)
    (fl : ℚ → ℚ) (hmono : Monotone fl) (x addon : List ℚ)
    (hfix : ∀ i, i < x.length → fl (o.m_LowerBounds.getD i 0) = o.m_LowerBounds.getD i 0 ∧
      fl (o.m_UpperBounds.getD i 0) = o.m_UpperBounds.getD i 0)
    (hstep : StepFeasible o x addon) : InBounds o ((addVector x addon).map fl) := by
  intro i hi
  rw [List.length_map, length_addVector] at hi
  have hget : ((addVector x addon).map fl).getD i 0 = fl (x.getD i 0 + addon.getD i 0) := by
    rw [List.getD_eq_getElem _ _ (by rw [List.length_map, length_addVector]; exact hi),
      List.getElem_map, ← getD_addVector x addon i hi,
      List.getD_eq_getElem _ _ (by rw [length_addVector]; exact hi)]
  rw [hget]
  obtain ⟨h1, h2⟩ := hstep i hi
  obtain ⟨f1, f2⟩ := hfix i hi
  constructor
  · rw [← f1]
    exact hmono (by linarith)
  · rw [← f2]
    exact hmono (by linarith)

end BoundedLevenbergMarquardtOptimizer
/-! ## Further lemmas -/

namespace BoundedLevenbergMarquardtOptimizer

variable {σ : Type}

theorem squaredNorm_eq_sum (r : List ℚ) (h : r.length < 2 ^ 32) :
    squaredNorm r = ∑ i ∈ Finset.range r.length, r.getD i 0 * r.getD i 0 := by
  unfold squaredNorm
  rw [toUInt_of_lt h, forLoop_add, zero_add]

end BoundedLevenbergMarquardtOptimizer

namespace BoundedLevenbergMarquardtOptimizer

variable {σ : Type}

/-- The trust-region radius after one pass of the main loop. -/
theorem iteration_delta (ext : Externals) (cf : CostFunction σ) (a b : LoopState σ)
    (h : iteration ext cf a = .ok b) :
    b.members.m_DeltaParameter
      = adaptDelta a.members.m_DeltaParameter
          (acceptRatio b.rejectedStep (squaredNorm b.newResidualValues)
            a.members.m_CurrentValue
            (fjpNorm a.derivativeMatrixCopy a.members.m_ResidualValues
              b.members.m_CurrentAddonVector a.nbParams a.numResiduals))
          (shrinkFactor a.derivativeMatrixCopy a.members.m_ResidualValues
            b.members.m_CurrentAddonVector a.nbParams a.numResiduals
            (squaredNorm b.newResidualValues) a.members.m_CurrentValue) := by
  unfold iteration at h
  simp only [EvaluateCostFunctionAtParameters] at h
  split at h
  · exact absurd h (by simp)
  · rename_i o tentative newRes heq
    split at heq
    · exact absurd heq (by simp)
    · rename_i c res hval
      simp only [Prod.mk.injEq, Except.ok.injEq] at heq
      obtain ⟨ho, htent, hres⟩ := heq
      subst ho htent hres
      split at h
      · split at h
        · exact absurd h (by simp)
        · simp only [Except.ok.injEq] at h
          subst h
          rfl
      · simp only [Except.ok.injEq] at h
        subst h
        rfl

/-- The shrink factor always lies in `[0.1, 0.5]`. -/
theorem shrinkFactor_bounds (J : VnlMatrix) (f p : List ℚ) (P N : Nat) (t c : ℚ) :
    1 / 10 ≤ shrinkFactor J f p P N t c ∧ shrinkFactor J f p P N t c ≤ 1 / 2 := by
  unfold shrinkFactor
  split_ifs
  · norm_num
  · simp only
    exact ⟨le_min (by norm_num) (le_max_left _ _), min_le_left _ _⟩
  · norm_num

theorem shrinkFactor_far (J : VnlMatrix) (f p : List ℚ) (P N : Nat) (t c : ℚ)
    (h : 100 * c < t) : shrinkFactor J f p P N t c = 1 / 10 := by
  unfold shrinkFactor
  rw [if_pos h]

theorem shrinkFactor_accepted (J : VnlMatrix) (f p : List ℚ) (P N : Nat) (t c : ℚ)
    (hc : 0 < c) (h : ¬ c < t) : shrinkFactor J f p P N t c = 1 / 2 := by
  unfold shrinkFactor
  have h100 : ¬ t > 100 * c := by
    intro h'
    apply h
    linarith
  rw [if_neg h100, if_neg h]

/-- The value `|| f + Jp ||^2` in closed form. -/
theorem fjpNorm_eq (J : VnlMatrix) (f p : List ℚ) (P N : Nat) :
    fjpNorm J f p P N
      = ∑ i ∈ Finset.range N,
          (f.getD i 0 + ∑ j ∈ Finset.range P, J.get i j * p.getD j 0) ^ 2 := by
  unfold fjpNorm
  simp only [forLoop_add, zero_add, sq]

/-- The acceptance ratio of the code is the gain ratio when the step is not rejected and the
denominator is positive, and `0` otherwise. -/
theorem acceptRatio_eq (t c pn : ℚ) :
    acceptRatio (decide (t > c)) t c pn
      = (if ¬ c < t ∧ 0 < 1 - pn / c then (1 - t / c) / (1 - pn / c) else 0) := by
  unfold acceptRatio
  by_cases hr : c < t
  · have e1 : decide (t > c) = true := decide_eq_true hr
    rw [e1]
    simp [hr]
  · have e1 : decide (t > c) = false := decide_eq_false hr
    rw [e1]
    simp [hr]

theorem adaptDelta_cases (delta ratio mu : ℚ) :
    (3 / 4 ≤ ratio → adaptDelta delta ratio mu = 2 * delta) ∧
    (ratio ≤ 1 / 4 → adaptDelta delta ratio mu = mu * delta) ∧
    (1 / 4 < ratio → ratio < 3 / 4 → adaptDelta delta ratio mu = delta) := by
  unfold adaptDelta
  refine ⟨?_, ?_, ?_⟩
  · intro h
    rw [if_pos h]
    ring
  · intro h
    have h1 : ¬ ratio ≥ 3 / 4 := by
      intro h'
      linarith
    rw [if_neg h1, if_pos h]
    ring
  · intro h1 h2
    rw [if_neg (not_le.mpr h2), if_neg (not_le.mpr h1)]

end BoundedLevenbergMarquardtOptimizer

namespace BoundedLevenbergMarquardtOptimizer

variable {σ : Type}

/-- Reading a matrix whose entries are all numerically zero gives a numerically zero value,
also through the transposed matrix. -/
theorem abs_get_transpose_le (J : VnlMatrix)
    (hzero : ∀ v ∈ J.data, |v| ≤ sqrtMachineEpsilon) (r c : Nat) :
    |J.transpose.get r c| ≤ sqrtMachineEpsilon := by
  have h0 : |(0 : ℚ)| ≤ sqrtMachineEpsilon := by
    rw [abs_zero]
    unfold sqrtMachineEpsilon
    positivity
  have hget : ∀ k, |J.data.getD k 0| ≤ sqrtMachineEpsilon := by
    intro k
    rw [List.getD_eq_getElem?_getD]
    by_cases hk : k < J.data.length
    · rw [List.getElem?_eq_getElem hk]
      exact hzero _ (List.getElem_mem hk)
    · rw [List.getElem?_eq_none (not_lt.mp hk)]
      exact h0
  unfold VnlMatrix.get VnlMatrix.transpose
  simp only
  rw [List.getD_eq_getElem?_getD, List.getElem?_map]
  by_cases hk : r * J.rows + c < (List.range (J.cols * J.rows)).length
  · rw [List.getElem?_eq_getElem hk]
    simp only [Option.map_some', Option.getD_some, List.getElem_range]
    exact hget _
  · rw [List.getElem?_eq_none (not_lt.mp hk)]
    exact h0

/-- The degenerate check fails on a numerically zero Jacobian. -/
theorem derivativeCheck_zero (J : VnlMatrix)
    (hzero : ∀ v ∈ J.data, |v| ≤ sqrtMachineEpsilon) (nbParams numResiduals : Nat) :
    derivativeCheck J.transpose nbParams numResiduals = false := by
  unfold derivativeCheck
  rw [List.any_eq_false]
  intro i _
  rw [Bool.not_eq_true, List.any_eq_false]
  intro j _
  rw [Bool.not_eq_true, decide_eq_false_iff_not]
  exact not_lt.mpr (abs_get_transpose_le J hzero i j)

/-- The part of `StartOptimization` before the main loop on a numerically zero Jacobian. -/
theorem initialise_zero_jacobian (ext : Externals) (cf : CostFunction σ)
    (o : BoundedLevenbergMarquardtOptimizer σ) (c1 c2 : σ) (residuals : List ℚ)
    (J : VnlMatrix)
    (hval : cf.GetValue o.m_CostFunction o.m_InitialPosition = (c1, .ok residuals))
    (hder : cf.GetDerivative c1 o.m_InitialPosition
      (VnlMatrix.zeros (toUInt o.m_InitialPosition.length) (toUInt residuals.length))
      = (c2, J, .ok ()))
    (hzero : ∀ v ∈ J.data, |v| ≤ sqrtMachineEpsilon) :
    initialise ext cf o
      = .degenerate { o with m_CurrentPosition := o.m_InitialPosition
                             m_CostFunction := c2
                             m_ResidualValues := residuals
                             m_CurrentValue := squaredNorm residuals } := by
  unfold initialise
  simp only [EvaluateCostFunctionAtParameters, hval, hder, derivativeCheck_zero J hzero,
    Bool.not_false, if_true]

end BoundedLevenbergMarquardtOptimizer

namespace BoundedLevenbergMarquardtOptimizer

variable {σ : Type}

/-- The trust-region radius at the head of the main loop. -/
theorem initialise_delta (ext : Externals) (cf : CostFunction σ)
    (o : BoundedLevenbergMarquardtOptimizer σ) (st0 : LoopState σ)
    (h : initialise ext cf o = .ready st0) :
    st0.nbParams = toUInt o.m_InitialPosition.length ∧
    ∃ J : VnlMatrix,
      st0.members.m_DeltaParameter
        = ext.cm.sqrt (scaledSquaredRadius
            (scalingThreshold ext.cm (initialDValues ext.cm J st0.nbParams st0.numResiduals).2
              st0.nbParams st0.numResiduals)
            o.m_InitialPosition st0.nbParams
            (initialDValues ext.cm J st0.nbParams st0.numResiduals).1 0).2 := by
  unfold initialise at h
  simp only [EvaluateCostFunctionAtParameters] at h
  split at h
  · exact absurd h (by simp)
  · rename_i o1 costValue residualValues heq
    split at heq
    · exact absurd heq (by simp)
    · rename_i c res hval
      simp only [Prod.mk.injEq, Except.ok.injEq] at heq
      obtain ⟨ho, hcost, hres⟩ := heq
      subst ho hcost hres
      split at h
      · exact absurd h (by simp)
      · split at h
        · exact absurd h (by simp)
        · rename_i c2 dm u hder hcheck
          simp only [Initialised.ready.injEq] at h
          subst h
          exact ⟨rfl, dm.transpose, rfl⟩

theorem forLoop_fst_length (body : List ℚ × ℚ → Nat → List ℚ × ℚ)
    (hbody : ∀ acc i, (body acc i).1.length = acc.1.length) (n : Nat) (init : List ℚ × ℚ) :
    (forLoop n body init).1.length = init.1.length := by
  induction n with
  | zero => rfl
  | succ k ih => rw [forLoop_succ, hbody, ih]

theorem length_initialDValues (cm : CMath) (J : VnlMatrix) (nbParams numResiduals : Nat) :
    (initialDValues cm J nbParams numResiduals).1.length = nbParams := by
  unfold initialDValues
  rw [forLoop_fst_length]
  · simp
  · intro acc i
    simp only
    split_ifs <;> simp

/-- The sum accumulated by the loop of lines 80-86 is positive as soon as one parameter is
not zero. -/
theorem scaledSquaredRadius_pos (epsilon : ℚ) (x : List ℚ) (n : Nat) (dValues : List ℚ)
    (heps : 0 < epsilon) (hlen : dValues.length = n)
    (hne : ∃ i, i < n ∧ x.getD i 0 ≠ 0) :
    0 < (scaledSquaredRadius epsilon x n dValues 0).2 := by
  unfold scaledSquaredRadius
  have key : ∀ k, k ≤ n →
      (forLoop k
        (fun (acc : List ℚ × ℚ) i =>
          let dValues := if acc.1.getD i 0 < epsilon then acc.1.set i epsilon else acc.1
          (dValues, acc.2 + dValues.getD i 0 * x.getD i 0 * x.getD i 0))
        (dValues, 0)).1.length = n ∧
      0 ≤ (forLoop k
        (fun (acc : List ℚ × ℚ) i =>
          let dValues := if acc.1.getD i 0 < epsilon then acc.1.set i epsilon else acc.1
          (dValues, acc.2 + dValues.getD i 0 * x.getD i 0 * x.getD i 0))
        (dValues, 0)).2 ∧
      ((∃ i, i < k ∧ x.getD i 0 ≠ 0) →
        0 < (forLoop k
          (fun (acc : List ℚ × ℚ) i =>
            let dValues := if acc.1.getD i 0 < epsilon then acc.1.set i epsilon else acc.1
            (dValues, acc.2 + dValues.getD i 0 * x.getD i 0 * x.getD i 0))
          (dValues, 0)).2) := by
    intro k
    induction k with
    | zero =>
      intro _
      refine ⟨by simpa [forLoop] using hlen, by simp [forLoop], ?_⟩
      rintro ⟨i, hi, _⟩
      omega
    | succ m ih =>
      intro hm
      obtain ⟨hl, hnn, hpos⟩ := ih (Nat.le_of_succ_le hm)
      rw [forLoop_succ]
      generalize forLoop m
        (fun (acc : List ℚ × ℚ) i =>
          let dValues := if acc.1.getD i 0 < epsilon then acc.1.set i epsilon else acc.1
          (dValues, acc.2 + dValues.getD i 0 * x.getD i 0 * x.getD i 0))
        (dValues, 0) = acc at hl hnn hpos
      have hmlt : m < acc.1.length := by rw [hl]; exact hm
      have hd : epsilon ≤
          (if acc.1.getD m 0 < epsilon then acc.1.set m epsilon else acc.1).getD m 0 := by
        by_cases hlt : acc.1.getD m 0 < epsilon
        · rw [if_pos hlt, getD_set, if_pos ⟨rfl, hmlt⟩]
        · rw [if_neg hlt]
          exact not_lt.mp hlt
      have hdpos : 0 <
          (if acc.1.getD m 0 < epsilon then acc.1.set m epsilon else acc.1).getD m 0 :=
        lt_of_lt_of_le heps hd
      have hterm : 0 ≤
          (if acc.1.getD m 0 < epsilon then acc.1.set m epsilon else acc.1).getD m 0
            * x.getD m 0 * x.getD m 0 := by
        rw [mul_assoc]
        exact mul_nonneg (le_of_lt hdpos) (mul_self_nonneg _)
      refine ⟨?_, ?_, ?_⟩
      · simp only
        split_ifs
        · rw [List.length_set, hl]
        · exact hl
      · simp only
        linarith
      · rintro ⟨i, hi, hxi⟩
        simp only
        by_cases him : i = m
        · subst him
          have : 0 <
              (if acc.1.getD i 0 < epsilon then acc.1.set i epsilon else acc.1).getD i 0
                * x.getD i 0 * x.getD i 0 := by
            rw [mul_assoc]
            exact mul_pos hdpos (mul_self_pos.mpr hxi)
          linarith
        · have := hpos ⟨i, by omega, hxi⟩
          linarith
  exact (key n (le_refl n)).2.2 hne

theorem adaptDelta_pos (delta ratio mu : ℚ) (hd : 0 < delta) (hmu : 0 < mu) :
    0 < adaptDelta delta ratio mu := by
  unfold adaptDelta
  split_ifs
  · linarith
  · exact mul_pos hd hmu
  · exact hd

/-- One pass of the main loop keeps a positive radius positive. -/
theorem iteration_delta_pos (ext : Externals) (cf : CostFunction σ) (a b : LoopState σ)
    (h : iteration ext cf a = .ok b) (hd : 0 < a.members.m_DeltaParameter) :
    0 < b.members.m_DeltaParameter := by
  rw [iteration_delta ext cf a b h]
  apply adaptDelta_pos _ _ _ hd
  exact lt_of_lt_of_le (by norm_num) (shrinkFactor_bounds _ _ _ _ _ _ _).1

end BoundedLevenbergMarquardtOptimizer


/-! ## Lemmas on the arithmetic of `double` -/

namespace GaussianMCMCost

/-- The first loop of `GetValuesRounded` in closed form. -/
theorem signalLoopRounded_eq (fl : ℚ → ℚ) (mcm : MCMStructure) (s : GaussianMCMCost) (n : Nat)
    (v : List ℚ) :
    forLoop n (signalLoopBodyRounded fl mcm s)
        { observedSquaredNorm := 0, observedPredictedProduct := 0, m_PredictedSquaredNorm := 0,
          m_PredictedSignals := v } =
      { observedSquaredNorm := roundedDot fl (observed s) (observed s) n
        observedPredictedProduct :=
          roundedDot fl (observed s) (predicted mcm s s.m_MCMParameters) n
        m_PredictedSquaredNorm :=
          roundedDot fl (predicted mcm s s.m_MCMParameters) (predicted mcm s s.m_MCMParameters) n
        m_PredictedSignals :=
          forLoop n (fun t i => t.set i (predicted mcm s s.m_MCMParameters i)) v } := by
  induction n with
  | zero => simp [forLoop, roundedDot]
  | succ k ih =>
    rw [forLoop_succ, ih, forLoop_succ]
    simp [signalLoopBodyRounded, roundedDot, observed, predicted]

/-- With the identity for `fl`, `GetValuesRounded` is `GetValues`. -/
theorem GetValuesRounded_id : GetValuesRounded id = GetValues := rfl

/-- `GetValuesRounded` in closed form, for a well-formed measurement set. -/
theorem GetValuesRounded_eq (fl : ℚ → ℚ) (mcm : MCMStructure) (s : GaussianMCMCost)
    (x : List ℚ) (hwf : WellFormed s) (hx : x.length < 2 ^ 32) :
    GetValuesRounded fl mcm s x =
      if predictedSquaredNormRounded fl mcm s x < fl (1 / 10000) then
        (afterSignalsRounded fl mcm s x, .error .DegenerateSignalError)
      else if s.m_SigmaSquare < fl (1 / 10000) then
        (afterSignalsRounded fl mcm s x, .error .DegenerateVarianceError)
      else
        ({ afterSignalsRounded fl mcm s x with
            m_B0Value := amplitudeRounded fl mcm s x
            m_Residuals := residualVectorRounded fl mcm s x
            m_SigmaSquare := varianceRounded fl mcm s x },
          .ok (residualVectorRounded fl mcm s x)) := by
  obtain ⟨ho, hb, hr, hn⟩ := hwf
  have hset : ∀ (b0 : ℚ) (p : Nat → ℚ) (o : List ℚ),
      forLoop s.m_Gradients.length
        (fun r i => r.set i (fl (fl (b0 * ((List.range s.m_Gradients.length).map p).getD i 0)
          - o.getD i 0))) s.m_Residuals
        = (List.range s.m_Gradients.length).map (fun i => fl (fl (b0 * p i) - o.getD i 0)) := by
    intro b0 p o
    rw [forLoop_set_all _ _ _ hr]
    apply List.map_congr_left
    intro i hi
    rw [getD_map_range _ _ _ (List.mem_range.mp hi)]
  unfold GetValuesRounded
  simp only [testedParameters_eq _ x hx, toUInt_of_lt hn, signalLoopRounded_eq,
    forLoop_set_all _ _ _ (length_resize _ _), hset]
  rfl

/-- `GetValuesRounded` succeeds only past both tests, and then leaves the rounded amplitude,
residuals and variance. -/
theorem GetValuesRounded_ok_inv (fl : ℚ → ℚ) (mcm : MCMStructure) (s : GaussianMCMCost)
    (x residuals : List ℚ) (hwf : WellFormed s) (hx : x.length < 2 ^ 32)
    (hok : (GetValuesRounded fl mcm s x).2 = .ok residuals) :
    ¬ predictedSquaredNormRounded fl mcm s x < fl (1 / 10000) ∧
    ¬ s.m_SigmaSquare < fl (1 / 10000) ∧ residuals = residualVectorRounded fl mcm s x ∧
    GetValuesRounded fl mcm s x =
      ({ afterSignalsRounded fl mcm s x with
          m_B0Value := amplitudeRounded fl mcm s x
          m_Residuals := residualVectorRounded fl mcm s x
          m_SigmaSquare := varianceRounded fl mcm s x },
        .ok (residualVectorRounded fl mcm s x)) := by
  rw [GetValuesRounded_eq fl mcm s x hwf hx] at hok ⊢
  by_cases h1 : predictedSquaredNormRounded fl mcm s x < fl (1 / 10000)
  · rw [if_pos h1] at hok
    exact absurd hok (by simp)
  · by_cases h2 : s.m_SigmaSquare < fl (1 / 10000)
    · rw [if_neg h1, if_pos h2] at hok
      exact absurd hok (by simp)
    · rw [if_neg h1, if_neg h2] at hok ⊢
      exact ⟨h1, h2, (Except.ok.inj hok).symm, rfl⟩

/-- The result of `GetValuesRounded` past both tests. -/
theorem GetValuesRounded_ok (fl : ℚ → ℚ) (mcm : MCMStructure) (s : GaussianMCMCost)
    (x : List ℚ) (hwf : WellFormed s) (hx : x.length < 2 ^ 32)
    (h1 : ¬ predictedSquaredNormRounded fl mcm s x < fl (1 / 10000))
    (h2 : ¬ s.m_SigmaSquare < fl (1 / 10000)) :
    GetValuesRounded fl mcm s x =
      ({ afterSignalsRounded fl mcm s x with
          m_B0Value := amplitudeRounded fl mcm s x
          m_Residuals := residualVectorRounded fl mcm s x
          m_SigmaSquare := varianceRounded fl mcm s x },
        .ok (residualVectorRounded fl mcm s x)) := by
  rw [GetValuesRounded_eq fl mcm s x hwf hx, if_neg h1, if_neg h2]

end GaussianMCMCost

namespace binary64

theorem twoPow_eq (k : ℤ) : twoPow k = (2 : ℚ) ^ k := by
  unfold twoPow
  split_ifs with h
  · have hk : ((k.toNat : ℕ) : ℤ) = k := Int.toNat_of_nonneg h
    conv_rhs => rw [← hk]
    rw [zpow_natCast]
    push_cast
    rfl
  · have hk : (((-k).toNat : ℕ) : ℤ) = -k := Int.toNat_of_nonneg (by omega)
    have hk' : k = -(((-k).toNat : ℕ) : ℤ) := by omega
    conv_rhs => rw [hk']
    rw [zpow_neg, zpow_natCast]
    push_cast
    rw [one_div]

theorem twoPow_pos (k : ℤ) : 0 < twoPow k := by
  rw [twoPow_eq]
  positivity

theorem twoPow_add (a b : ℤ) : twoPow (a + b) = twoPow a * twoPow b := by
  simp only [twoPow_eq]
  exact zpow_add₀ (by norm_num) a b

/-- The count of halvings brackets `n` between two consecutive powers of two. -/
theorem halvings_spec (fuel n : Nat) (hn : n ≠ 0) (hfuel : n ≤ fuel) :
    2 ^ halvings fuel n ≤ n ∧ n < 2 ^ (halvings fuel n + 1) := by
  induction fuel generalizing n with
  | zero => omega
  | succ k ih =>
    unfold halvings
    by_cases h2 : n < 2
    · rw [if_pos h2]
      omega
    · rw [if_neg h2]
      obtain ⟨h1, h3⟩ := ih (n / 2) (by omega) (by omega)
      constructor
      · rw [pow_succ]
        omega
      · rw [pow_succ]
        omega

theorem log2_spec (n : Nat) (hn : n ≠ 0) : 2 ^ log2 n ≤ n ∧ n < 2 ^ (log2 n + 1) :=
  halvings_spec n n hn (le_refl n)

/-- The nearest integer is at most one half away. -/
theorem roundHalfEven_error (m : ℚ) : |((roundHalfEven m : ℤ) : ℚ) - m| ≤ 1 / 2 := by
  have h1 := Int.floor_le m
  have h2 := Int.lt_floor_add_one m
  unfold roundHalfEven
  rw [abs_le]
  split_ifs with c1 c2 c3
  · constructor <;> linarith
  · push_cast
    constructor <;> linarith
  · constructor <;> linarith
  · push_cast
    constructor <;> linarith

/-- The exponent of a number other than `0` gives a power of two that is at most its
absolute value. -/
theorem twoPow_exponent_le (x : ℚ) (hx : x ≠ 0) : twoPow (exponent x) ≤ |x| := by
  unfold exponent
  simp only
  split_ifs with h
  · exact h
  · have hn : x.num.natAbs ≠ 0 := by
      simpa using (Rat.num_ne_zero.mpr hx)
    have hd : x.den ≠ 0 := x.den_ne_zero
    have h1 : 2 ^ log2 x.num.natAbs ≤ x.num.natAbs := (log2_spec _ hn).1
    have h2 : x.den < 2 ^ (log2 x.den + 1) := (log2_spec _ hd).2
    have habs : |x| = (x.num.natAbs : ℚ) / (x.den : ℚ) := by
      conv_lhs => rw [← Rat.num_div_den x]
      rw [abs_div, Nat.abs_cast]
      congr 1
      rw [Nat.cast_natAbs, Int.cast_abs]
    have he : ((log2 x.num.natAbs : ℤ) - (log2 x.den : ℤ) - 1)
        = (log2 x.num.natAbs : ℤ) + -((log2 x.den + 1 : ℕ) : ℤ) := by
      push_cast
      ring
    rw [he, twoPow_add, twoPow_eq, twoPow_eq, zpow_neg, zpow_natCast, zpow_natCast, habs,
      ← div_eq_mul_inv]
    have h1' : ((2 : ℚ) ^ log2 x.num.natAbs) ≤ (x.num.natAbs : ℚ) := by
      exact_mod_cast h1
    have h2' : (x.den : ℚ) ≤ (2 : ℚ) ^ (log2 x.den + 1) := by
      exact_mod_cast le_of_lt h2
    have hd0 : (0 : ℚ) < x.den := by exact_mod_cast Nat.pos_of_ne_zero hd
    exact div_le_div₀ (by positivity) h1' hd0 h2'

/-- The rounding to the nearest `double` has a relative error of at most `2^-53`. -/
theorem roundsWithin_round : RoundsWithin round unitRoundoff := by
  intro x
  unfold round
  split_ifs with h0
  · simp [h0]
  · set sc := twoPow (52 - exponent x) with hsc
    have hpos : 0 < sc := twoPow_pos _
    have herr := roundHalfEven_error (x * sc)
    have hexp := twoPow_exponent_le x h0
    have hbig : (2 : ℚ) ^ 52 ≤ |x| * sc := by
      have h52 : twoPow 52 = twoPow (exponent x) * sc := by
        rw [hsc, ← twoPow_add]
        congr 1
        ring
      have : twoPow 52 = (2 : ℚ) ^ 52 := by
        rw [twoPow_eq]
        norm_num
      rw [← this, h52]
      exact mul_le_mul_of_nonneg_right hexp (le_of_lt hpos)
    have hdiff : ((roundHalfEven (x * sc) : ℤ) : ℚ) / sc - x
        = (((roundHalfEven (x * sc) : ℤ) : ℚ) - x * sc) / sc := by
      field_simp
      ring
    rw [hdiff, abs_div, abs_of_pos hpos, div_le_iff₀ hpos]
    unfold unitRoundoff
    calc |((roundHalfEven (x * sc) : ℤ) : ℚ) - x * sc| ≤ 1 / 2 := herr
      _ = 1 / 2 ^ 53 * (2 : ℚ) ^ 52 := by norm_num
      _ ≤ 1 / 2 ^ 53 * (|x| * sc) := mul_le_mul_of_nonneg_left hbig (by positivity)
      _ = 1 / 2 ^ 53 * |x| * sc := by ring

end binary64

theorem RoundsWithin.abs_fl_le {fl : ℚ → ℚ} {u : ℚ} (hfl : RoundsWithin fl u) (x : ℚ) :
    |fl x| ≤ (1 + u) * |x| := by
  have h := hfl x
  have h2 : |fl x| ≤ |fl x - x| + |x| := by
    have := abs_add (fl x - x) x
    simpa using this
  linarith

theorem RoundsWithin.le_abs_fl {fl : ℚ → ℚ} {u : ℚ} (hfl : RoundsWithin fl u) (x : ℚ) :
    (1 - u) * |x| ≤ |fl x| := by
  have h := hfl x
  have h2 : |x| ≤ |x - fl x| + |fl x| := by
    have := abs_add (x - fl x) (fl x)
    simpa using this
  rw [abs_sub_comm] at h2
  linarith

/-- A rounding with a relative error below `1` keeps positive numbers positive. -/
theorem RoundsWithin.fl_pos {fl : ℚ → ℚ} {u : ℚ} (hfl : RoundsWithin fl u) (hu : u < 1) (x : ℚ)
    (hx : 0 < x) : 0 < fl x := by
  have h := abs_le.mp (hfl x)
  rw [abs_of_pos hx] at h
  nlinarith [h.1]

/-- The rounded residual `fl(fl(b * p) - o)` against the residual `b * p - o`. -/
theorem rounded_residual_error {fl : ℚ → ℚ} {u : ℚ} (hfl : RoundsWithin fl u) (hu0 : 0 ≤ u)
    (hu : u ≤ 1) (b p o : ℚ) :
    |fl (fl (b * p) - o) - (b * p - o)| ≤ 3 * u * (|b * p| + |o|) := by
  have h1 := hfl (b * p)
  have h2 := hfl (fl (b * p) - o)
  have h3 : |fl (b * p) - o| ≤ |fl (b * p)| + |o| := abs_sub _ _
  have h4 := hfl.abs_fl_le (b * p)
  have h5 : |fl (fl (b * p) - o) - (b * p - o)|
      ≤ |fl (fl (b * p) - o) - (fl (b * p) - o)| + |fl (b * p) - o - (b * p - o)| :=
    abs_sub_le _ _ _
  have h6 : fl (b * p) - o - (b * p - o) = fl (b * p) - b * p := by ring
  rw [h6] at h5
  have hbp : 0 ≤ |b * p| := abs_nonneg _
  have ho : 0 ≤ |o| := abs_nonneg _
  have h7 : u * |fl (b * p) - o| ≤ u * ((1 + u) * |b * p| + |o|) :=
    mul_le_mul_of_nonneg_left (by linarith) hu0
  have h8 : u * (u * |b * p|) ≤ 1 * (u * |b * p|) :=
    mul_le_mul_of_nonneg_right hu (mul_nonneg hu0 hbp)
  have h9 : 0 ≤ u * |o| := mul_nonneg hu0 ho
  linarith

namespace GaussianMCMCost

/-- The rounded accumulation of `sum_(i < n) x i * y i` differs from the sum by at most
`2 * (n + 1) * u` times the sum of the absolute values of the products. -/
theorem roundedDot_error (fl : ℚ → ℚ) (u : ℚ) (hfl : RoundsWithin fl u) (hu0 : 0 ≤ u)
    (x y : Nat → ℚ) (n : Nat) (hn : 2 * ((n : ℚ) + 1) * u ≤ 1) :
    |roundedDot fl x y n - ∑ i ∈ Finset.range n, x i * y i|
      ≤ 2 * ((n : ℚ) + 1) * u * ∑ i ∈ Finset.range n, |x i * y i| := by
  induction n with
  | zero => simp [roundedDot]
  | succ k ih =>
    have hk : 2 * ((k : ℚ) + 1) * u ≤ 1 := by
      push_cast at hn
      have : 0 ≤ u := hu0
      linarith
    have ih := ih hk
    rw [roundedDot, Finset.sum_range_succ, Finset.sum_range_succ]
    set S := ∑ i ∈ Finset.range k, x i * y i with hS
    set A := ∑ i ∈ Finset.range k, |x i * y i| with hA
    set Sh := roundedDot fl x y k with hSh
    set t := x k * y k with ht
    have hA0 : 0 ≤ A := Finset.sum_nonneg (fun i _ => abs_nonneg _)
    have hSA : |S| ≤ A := Finset.abs_sum_le_sum_abs _ _
    have ht0 : 0 ≤ |t| := abs_nonneg t
    have h1 : |fl t - t| ≤ u * |t| := hfl t
    have h2 := hfl (Sh + fl t)
    have h3 : |Sh + fl t - (S + t)| ≤ 2 * ((k : ℚ) + 1) * u * A + u * |t| := by
      have : Sh + fl t - (S + t) = (Sh - S) + (fl t - t) := by ring
      rw [this]
      exact le_trans (abs_add _ _) (add_le_add ih h1)
    have h4 : |Sh + fl t| ≤ |Sh + fl t - (S + t)| + |S + t| := by
      have := abs_add (Sh + fl t - (S + t)) (S + t)
      simpa using this
    have h5 : |S + t| ≤ A + |t| := le_trans (abs_add _ _) (add_le_add hSA le_rfl)
    have h6 : |fl (Sh + fl t) - (S + t)| ≤ |fl (Sh + fl t) - (Sh + fl t)| + |Sh + fl t - (S + t)| :=
      abs_sub_le _ _ _
    push_cast
    have hk0 : (0 : ℚ) ≤ k := Nat.cast_nonneg k
    have hut : 0 ≤ u * |t| := mul_nonneg hu0 ht0
    have huA : 0 ≤ u * A := mul_nonneg hu0 hA0
    -- e = 2 (k+1) u ≤ 1
    have he1 : 2 * ((k : ℚ) + 1) * u * (u * A) ≤ 1 * (u * A) :=
      mul_le_mul_of_nonneg_right hk huA
    have he2 : u * (u * |t|) ≤ 1 * (u * |t|) := by
      apply mul_le_mul_of_nonneg_right _ hut
      nlinarith
    have hz : u * |Sh + fl t| ≤ u * (2 * ((k : ℚ) + 1) * u * A + u * |t| + (A + |t|)) :=
      mul_le_mul_of_nonneg_left (by linarith) hu0
    have hkuA : 0 ≤ (k : ℚ) * (u * A) := mul_nonneg hk0 huA
    have hkut : 0 ≤ (k : ℚ) * (u * |t|) := mul_nonneg hk0 hut
    linarith
end GaussianMCMCost

/-- The rounded quotient `b = fl(Qh / Ph)` satisfies `|b * Ph - Qh| <= u * |Qh|`. -/
theorem rounded_quotient_error {fl : ℚ → ℚ} {u : ℚ} (hfl : RoundsWithin fl u)
    (Qh Ph : ℚ) (hPh : 0 < Ph) : |fl (Qh / Ph) * Ph - Qh| ≤ u * |Qh| := by
  have h := hfl (Qh / Ph)
  have h1 : fl (Qh / Ph) * Ph - Qh = (fl (Qh / Ph) - Qh / Ph) * Ph := by
    field_simp
  rw [h1, abs_mul, abs_of_pos hPh]
  have h2 : |Qh / Ph| * Ph = |Qh| := by
    rw [abs_div, abs_of_pos hPh]
    field_simp
  calc |fl (Qh / Ph) - Qh / Ph| * Ph ≤ u * |Qh / Ph| * Ph :=
        mul_le_mul_of_nonneg_right h (le_of_lt hPh)
    _ = u * |Qh| := by rw [mul_assoc, h2]

/-- The amplitude `b` that satisfies `|b * Ph - Qh| <= u * |Qh|` for rounded sums `Ph`, `Qh`
of `P`, `Q` nearly solves `b * P = Q`. -/
theorem amplitude_equation_error (u a b P Ph Q Qh A : ℚ) (hu0 : 0 ≤ u) (hu : u ≤ 1 / 32)
    (ha : a ≤ 1 / 16) (hP : 0 ≤ P) (hA : 0 ≤ A)
    (hPh : |Ph - P| ≤ a * P) (hQh : |Qh - Q| ≤ a * A) (hb : |b * Ph - Qh| ≤ u * |Qh|) :
    |b * P - Q| ≤ (a + 2 * u) * (|b| * P + A) := by
  have hB : 0 ≤ |b| := abs_nonneg b
  have hBP : 0 ≤ |b| * P := mul_nonneg hB hP
  have hPh' := abs_le.mp hPh
  have haP : a * P ≤ 1 / 16 * P := mul_le_mul_of_nonneg_right ha hP
  have hPh0 : 0 ≤ Ph := by linarith [hPh'.1]
  -- |Qh| ≤ |b| Ph + u |Qh|
  have h1 : |Qh| ≤ |b * Ph - Qh| + |b * Ph| := by
    have := abs_sub (b * Ph) (b * Ph - Qh)
    have e : b * Ph - (b * Ph - Qh) = Qh := by ring
    rw [e] at this
    linarith [abs_sub_comm (b * Ph - Qh) 0]
  have h2 : |b * Ph| = |b| * Ph := by rw [abs_mul, abs_of_nonneg hPh0]
  have hQ0 : 0 ≤ |Qh| := abs_nonneg _
  have h3 : u * |Qh| ≤ 1 / 32 * |Qh| := mul_le_mul_of_nonneg_right hu hQ0
  have h4 : |b| * Ph ≤ |b| * ((1 + a) * P) :=
    mul_le_mul_of_nonneg_left (by linarith [hPh'.2]) hB
  have h5 : a * (|b| * P) ≤ 1 / 16 * (|b| * P) := mul_le_mul_of_nonneg_right ha hBP
  have h6 : |Qh| ≤ 2 * (|b| * P) := by
    rw [h2] at h1
    nlinarith
  have h7 : u * |Qh| ≤ u * (2 * (|b| * P)) := mul_le_mul_of_nonneg_left h6 hu0
  have h8 : b * P - Q = b * (P - Ph) + (b * Ph - Qh) + (Qh - Q) := by ring
  have h9 : |b * (P - Ph)| ≤ |b| * (a * P) := by
    rw [abs_mul, abs_sub_comm]
    exact mul_le_mul_of_nonneg_left hPh hB
  rw [h8]
  have h10 := abs_add (b * (P - Ph) + (b * Ph - Qh)) (Qh - Q)
  have h11 := abs_add (b * (P - Ph)) (b * Ph - Qh)
  have h12 : 0 ≤ u * A := mul_nonneg hu0 hA
  nlinarith


/-- The rounded variance `v = fl(fl(Oh - fl(fl(b * b) * Ph)) / fl(n))` against
`(O - b^2 * P) / n`. -/
theorem rounded_variance_error {fl : ℚ → ℚ} {u : ℚ} (hfl : RoundsWithin fl u) (hu0 : 0 ≤ u)
    (hu : u ≤ 1 / 32) (a b O Oh P Ph n : ℚ) (ha : a ≤ 1 / 16) (hO : 0 ≤ O) (hP : 0 ≤ P)
    (hn : 1 ≤ n) (hOh : |Oh - O| ≤ a * O) (hPh : |Ph - P| ≤ a * P) :
    |n * fl (fl (Oh - fl (fl (b * b) * Ph)) / fl n) - (O - b * b * P)|
      ≤ (a + 8 * u) * (O + b * b * P) := by
  set bb := fl (b * b) with hbb
  set t := fl (bb * Ph) with ht
  set d := fl (Oh - t) with hd
  set fN := fl n with hfN
  set v := fl (d / fN) with hv
  have hb2 : 0 ≤ b * b := mul_self_nonneg b
  set T := b * b * P with hT
  have hT0 : 0 ≤ T := mul_nonneg hb2 hP
  have hPh' := abs_le.mp hPh
  have haP : a * P ≤ 1 / 16 * P := mul_le_mul_of_nonneg_right ha hP
  have haO : a * O ≤ 1 / 16 * O := mul_le_mul_of_nonneg_right ha hO
  have haT : a * T ≤ 1 / 16 * T := mul_le_mul_of_nonneg_right ha hT0
  have huT : u * T ≤ 1 / 32 * T := mul_le_mul_of_nonneg_right hu hT0
  have huO : u * O ≤ 1 / 32 * O := mul_le_mul_of_nonneg_right hu hO
  have huT0 : 0 ≤ u * T := mul_nonneg hu0 hT0
  have huO0 : 0 ≤ u * O := mul_nonneg hu0 hO
  have hPh0 : 0 ≤ Ph := by linarith [hPh'.1]
  -- c1
  have c1 : |bb - b * b| ≤ u * (b * b) := by
    have := hfl (b * b)
    rwa [abs_of_nonneg hb2] at this
  have c1' : |bb| ≤ (1 + u) * (b * b) := by
    have := hfl.abs_fl_le (b * b)
    rwa [abs_of_nonneg hb2] at this
  -- c2
  have c2a : |bb * Ph - T| ≤ (a + 17 / 16 * u) * T := by
    have e : bb * Ph - T = (bb - b * b) * Ph + b * b * (Ph - P) := by
      rw [hT]
      ring
    rw [e]
    have h1 : |(bb - b * b) * Ph| ≤ u * (b * b) * ((1 + 1 / 16) * P) := by
      rw [abs_mul, abs_of_nonneg hPh0]
      exact mul_le_mul c1 (by linarith [hPh'.2]) hPh0 (mul_nonneg hu0 hb2)
    have h2 : |b * b * (Ph - P)| ≤ b * b * (a * P) := by
      rw [abs_mul, abs_of_nonneg hb2]
      exact mul_le_mul_of_nonneg_left hPh hb2
    have h3 := abs_add ((bb - b * b) * Ph) (b * b * (Ph - P))
    have e1 : u * (b * b) * ((1 + 1 / 16) * P) = 17 / 16 * (u * T) := by
      rw [hT]
      ring
    have e2 : b * b * (a * P) = a * T := by
      rw [hT]
      ring
    rw [e1] at h1
    rw [e2] at h2
    linarith
  have c2b : |bb * Ph| ≤ 5 / 4 * T := by
    have h := abs_sub_abs_le_abs_sub (bb * Ph) T
    rw [abs_of_nonneg hT0] at h
    linarith
  have c2c : |t - bb * Ph| ≤ u * (5 / 4 * T) :=
    le_trans (hfl (bb * Ph)) (mul_le_mul_of_nonneg_left c2b hu0)
  have c2 : |t - T| ≤ (a + 3 * u) * T := by
    have h := abs_sub_le t (bb * Ph) T
    linarith
  -- c3
  have c3a : |Oh - t - (O - T)| ≤ a * O + (a + 3 * u) * T := by
    have e : Oh - t - (O - T) = (Oh - O) - (t - T) := by ring
    rw [e]
    exact le_trans (abs_sub _ _) (add_le_add hOh c2)
  have c3b : |O - T| ≤ O + T := by
    have := abs_sub O T
    rwa [abs_of_nonneg hO, abs_of_nonneg hT0] at this
  have c3c : |Oh - t| ≤ 5 / 4 * (O + T) := by
    have h := abs_sub_abs_le_abs_sub (Oh - t) (O - T)
    linarith
  have c3d : |d - (Oh - t)| ≤ u * (5 / 4 * (O + T)) :=
    le_trans (hfl (Oh - t)) (mul_le_mul_of_nonneg_left c3c hu0)
  have c3 : |d - (O - T)| ≤ (a + 17 / 4 * u) * (O + T) := by
    have h := abs_sub_le d (Oh - t) (O - T)
    linarith
  have c3' : |d| ≤ 5 / 4 * (O + T) := by
    have h := abs_sub_abs_le_abs_sub d (O - T)
    linarith
  -- c4
  have hn0 : 0 < n := by linarith
  have hfNn := abs_le.mp (hfl n)
  rw [abs_of_pos hn0] at hfNn
  have hun : u * n ≤ 1 / 32 * n := mul_le_mul_of_nonneg_right hu (le_of_lt hn0)
  have hfN0 : 0 < fN := by linarith [hfNn.1]
  have c4a : |v * fN - d| ≤ u * |d| := rounded_quotient_error hfl d fN hfN0
  have hd0 : 0 ≤ |d| := abs_nonneg d
  have hv0 : 0 ≤ |v| := abs_nonneg v
  have hud : u * |d| ≤ 1 / 32 * |d| := mul_le_mul_of_nonneg_right hu hd0
  have c4b : |v| * fN ≤ 33 / 32 * |d| := by
    have h := abs_sub_abs_le_abs_sub (v * fN) d
    rw [abs_mul, abs_of_pos hfN0] at h
    linarith
  have c4c : |v| * n ≤ 34 / 31 * |d| := by
    have h1 : |v| * ((1 - 1 / 32) * n) ≤ |v| * fN :=
      mul_le_mul_of_nonneg_left (by linarith [hfNn.1]) hv0
    linarith
  have c4d : |v * (n - fN)| ≤ u * (34 / 31 * |d|) := by
    rw [abs_mul]
    have h1 : |n - fN| ≤ u * n := by
      rw [abs_sub_comm]
      have := hfl n
      rwa [abs_of_pos hn0] at this
    calc |v| * |n - fN| ≤ |v| * (u * n) := mul_le_mul_of_nonneg_left h1 hv0
      _ = u * (|v| * n) := by ring
      _ ≤ u * (34 / 31 * |d|) := mul_le_mul_of_nonneg_left c4c hu0
  have c4 : |n * v - d| ≤ 3 * u * (O + T) := by
    have e : n * v - d = (v * fN - d) + v * (n - fN) := by ring
    rw [e]
    have h := abs_add (v * fN - d) (v * (n - fN))
    have h2 : u * |d| ≤ u * (5 / 4 * (O + T)) := mul_le_mul_of_nonneg_left c3' hu0
    linarith
  have h := abs_sub_le (n * v) d (O - T)
  linarith

/-- The square of a rounded residual against the square of the residual. -/
theorem rounded_square_error (u r rh bp o : ℚ) (hu0 : 0 ≤ u) (hu : u ≤ 1 / 32)
    (hr : r = bp - o) (hrh : |rh - r| ≤ 3 * u * (|bp| + |o|)) :
    |rh * rh - r * r| ≤ 14 * u * (bp * bp + o * o) := by
  set m := |bp| + |o| with hm
  have hm0 : 0 ≤ m := add_nonneg (abs_nonneg _) (abs_nonneg _)
  have hrm : |r| ≤ m := by
    rw [hr]
    exact abs_sub _ _
  have hm2 : m * m ≤ 2 * (bp * bp + o * o) := by
    have h1 : |bp| * |bp| = bp * bp := abs_mul_abs_self bp
    have h2 : |o| * |o| = o * o := abs_mul_abs_self o
    nlinarith [mul_self_nonneg (|bp| - |o|)]
  have e : rh * rh - r * r = (rh - r) * (rh - r) + 2 * r * (rh - r) := by ring
  rw [e]
  have h1 : |(rh - r) * (rh - r)| ≤ (3 * u * m) * (3 * u * m) := by
    rw [abs_mul]
    exact mul_le_mul hrh hrh (abs_nonneg _) (by positivity)
  have h2 : |2 * r * (rh - r)| ≤ 2 * m * (3 * u * m) := by
    rw [abs_mul, abs_mul, abs_of_pos (by norm_num : (0 : ℚ) < 2)]
    exact mul_le_mul (by linarith) hrh (abs_nonneg _) (by positivity)
  have h3 := abs_add ((rh - r) * (rh - r)) (2 * r * (rh - r))
  have hmm : 0 ≤ m * m := mul_nonneg hm0 hm0
  have humm : 0 ≤ u * (m * m) := mul_nonneg hu0 hmm
  have h4 : u * (u * (m * m)) ≤ 1 / 32 * (u * (m * m)) :=
    mul_le_mul_of_nonneg_right hu humm
  have h5 : u * (m * m) ≤ u * (2 * (bp * bp + o * o)) := mul_le_mul_of_nonneg_left hm2 hu0
  nlinarith
namespace GaussianMCMCost

/-- The three rounded sums of `GetValuesRounded` against the exact sums. -/
theorem rounded_sums_error (fl : ℚ → ℚ) (u : ℚ) (hfl : RoundsWithin fl u) (hu0 : 0 ≤ u)
    (mcm : MCMStructure) (s : GaussianMCMCost) (x : List ℚ)
    (hu : ((s.m_Gradients.length : ℚ) + 1) * u ≤ 1 / 32) :
    |observedSquaredNormRounded fl s - observedSquaredNorm s s.m_Gradients.length|
      ≤ 2 * ((s.m_Gradients.length : ℚ) + 1) * u * observedSquaredNorm s s.m_Gradients.length ∧
    |predictedSquaredNormRounded fl mcm s x - predictedSquaredNorm mcm s x s.m_Gradients.length|
      ≤ 2 * ((s.m_Gradients.length : ℚ) + 1) * u
          * predictedSquaredNorm mcm s x s.m_Gradients.length ∧
    |observedPredictedProductRounded fl mcm s x
        - observedPredictedProduct mcm s x s.m_Gradients.length|
      ≤ 2 * ((s.m_Gradients.length : ℚ) + 1) * u * absoluteProductSum mcm s x := by
  have hn : 2 * ((s.m_Gradients.length : ℚ) + 1) * u ≤ 1 := by linarith
  have hsq : ∀ f : Nat → ℚ, ∑ i ∈ Finset.range s.m_Gradients.length, |f i * f i|
      = ∑ i ∈ Finset.range s.m_Gradients.length, f i * f i := by
    intro f
    apply Finset.sum_congr rfl
    intro i _
    exact abs_mul_self (f i)
  refine ⟨?_, ?_, ?_⟩
  · have h := roundedDot_error fl u hfl hu0 (observed s) (observed s) s.m_Gradients.length hn
    rw [hsq] at h
    exact h
  · have h := roundedDot_error fl u hfl hu0 (predicted mcm s x) (predicted mcm s x)
      s.m_Gradients.length hn
    rw [hsq] at h
    exact h
  · exact roundedDot_error fl u hfl hu0 (observed s) (predicted mcm s x) s.m_Gradients.length hn

theorem length_residualVectorRounded (fl : ℚ → ℚ) (mcm : MCMStructure) (s : GaussianMCMCost)
    (x : List ℚ) : (residualVectorRounded fl mcm s x).length = s.m_Gradients.length := by
  simp [residualVectorRounded]

theorem getD_residualVectorRounded (fl : ℚ → ℚ) (mcm : MCMStructure) (s : GaussianMCMCost)
    (x : List ℚ) (i : Nat) (hi : i < s.m_Gradients.length) :
    (residualVectorRounded fl mcm s x).getD i 0
      = fl (fl (amplitudeRounded fl mcm s x * predicted mcm s x i) - observed s i) := by
  unfold residualVectorRounded
  rw [getD_map_range _ _ _ hi]

/-- A successful `GetValuesRounded` has a positive rounded sum of squared predictions and at
least one measurement. -/
theorem predictedSquaredNormRounded_pos (fl : ℚ → ℚ) (u : ℚ) (hfl : RoundsWithin fl u)
    (hu : u < 1) (mcm : MCMStructure) (s : GaussianMCMCost) (x : List ℚ)
    (h1 : ¬ predictedSquaredNormRounded fl mcm s x < fl (1 / 10000)) :
    0 < predictedSquaredNormRounded fl mcm s x ∧ 1 ≤ s.m_Gradients.length := by
  have hc : 0 < fl (1 / 10000) := hfl.fl_pos hu _ (by norm_num)
  have hp : 0 < predictedSquaredNormRounded fl mcm s x := lt_of_lt_of_le hc (not_lt.mp h1)
  refine ⟨hp, ?_⟩
  by_contra h
  have h0 : s.m_Gradients.length = 0 := by omega
  rw [predictedSquaredNormRounded, h0, roundedDot] at hp
  exact lt_irrefl _ hp

end GaussianMCMCost
namespace GaussianMCMCost

/-- The rounded amplitude on observations proportional to the predictions. -/
theorem rounded_amplitude_perfect_fit (u a b k P Ph Qh n : ℚ) (hu0 : 0 ≤ u)
    (hu : (n + 1) * u ≤ 1 / 32) (hn : 0 ≤ n) (ha : a = 2 * (n + 1) * u) (hP : 0 < P)
    (hPh : |Ph - P| ≤ a * P) (hQh : |Qh - k * P| ≤ a * (|k| * P))
    (hb : |b * Ph - Qh| ≤ u * |Qh|) :
    |b - k| ≤ 6 * (n + 1) * u * |k| := by
  have hu32 : u ≤ 1 / 32 := by nlinarith
  have ha16 : a ≤ 1 / 16 := by rw [ha]; linarith
  have ha0 : 0 ≤ a := by rw [ha]; positivity
  have hK : 0 ≤ |k| := abs_nonneg k
  have hKP : 0 ≤ |k| * P := mul_nonneg hK (le_of_lt hP)
  have hPh' := abs_le.mp hPh
  have haP : a * P ≤ 1 / 16 * P := mul_le_mul_of_nonneg_right ha16 (le_of_lt hP)
  have hPh0 : 0 < Ph := by linarith [hPh'.1]
  have h1 : |Qh| ≤ (1 + a) * (|k| * P) := by
    have h := abs_sub_abs_le_abs_sub Qh (k * P)
    rw [abs_mul, abs_of_pos hP] at h
    linarith
  have h2 : u * |Qh| ≤ u * ((1 + 1 / 16) * (|k| * P)) := by
    apply mul_le_mul_of_nonneg_left _ hu0
    have : a * (|k| * P) ≤ 1 / 16 * (|k| * P) := mul_le_mul_of_nonneg_right ha16 hKP
    linarith
  have h3 : |(b - k) * Ph| ≤ (17 / 16 * u + 2 * a) * (|k| * P) := by
    have e : (b - k) * Ph = (b * Ph - Qh) + (Qh - k * P) + k * (P - Ph) := by ring
    rw [e]
    have t1 := abs_add ((b * Ph - Qh) + (Qh - k * P)) (k * (P - Ph))
    have t2 := abs_add (b * Ph - Qh) (Qh - k * P)
    have t3 : |k * (P - Ph)| ≤ |k| * (a * P) := by
      rw [abs_mul, abs_sub_comm]
      exact mul_le_mul_of_nonneg_left hPh hK
    linarith
  rw [abs_mul, abs_of_pos hPh0] at h3
  have hD : 0 ≤ |b - k| := abs_nonneg _
  have h4 : |b - k| * ((1 - 1 / 16) * P) ≤ |b - k| * Ph :=
    mul_le_mul_of_nonneg_left (by linarith [hPh'.1]) hD
  have h5 : (|b - k| * (15 / 16)) * P ≤ ((17 / 16 * u + 2 * a) * |k|) * P := by
    have e1 : |b - k| * ((1 - 1 / 16) * P) = (|b - k| * (15 / 16)) * P := by ring
    have e2 : (17 / 16 * u + 2 * a) * (|k| * P) = ((17 / 16 * u + 2 * a) * |k|) * P := by ring
    rw [← e1, ← e2]
    linarith
  have h6 := le_of_mul_le_mul_right h5 hP
  have huK : 0 ≤ u * |k| := mul_nonneg hu0 hK
  have hnuK : 0 ≤ n * (u * |k|) := mul_nonneg hn huK
  rw [ha] at h6
  linarith

/-- The rounded variance on observations proportional to the predictions. -/
theorem rounded_variance_perfect_fit (u b k P n nv : ℚ) (hu0 : 0 ≤ u)
    (hu : (n + 1) * u ≤ 1 / 32) (hn : 0 ≤ n) (hP : 0 ≤ P)
    (hb : |b - k| ≤ 6 * (n + 1) * u * |k|)
    (hv : |nv - (k * k * P - b * b * P)| ≤ (2 * (n + 1) * u + 8 * u) * (k * k * P + b * b * P)) :
    |nv| ≤ 20 * (n + 2) * u * (k * k * P) := by
  have hK : 0 ≤ |k| := abs_nonneg k
  have hKK : |k| * |k| = k * k := abs_mul_abs_self k
  have hBB : |b| * |b| = b * b := abs_mul_abs_self b
  have hB : 0 ≤ |b| := abs_nonneg b
  have hD : 0 ≤ |b - k| := abs_nonneg _
  have hkk : 0 ≤ k * k := mul_self_nonneg k
  have hT : 0 ≤ k * k * P := mul_nonneg hkk hP
  have h6 : 6 * (n + 1) * u ≤ 3 / 16 := by linarith
  have hd : |b - k| ≤ 3 / 16 * |k| := le_trans hb (mul_le_mul_of_nonneg_right h6 hK)
  have hbk : |b| ≤ 19 / 16 * |k| := by
    have h := abs_sub_abs_le_abs_sub b k
    linarith
  have hbb : b * b ≤ 361 / 256 * (k * k) := by
    rw [← hBB, ← hKK]
    have := mul_le_mul hbk hbk hB (by positivity : (0 : ℚ) ≤ 19 / 16 * |k|)
    linarith
  have hbbP : b * b * P ≤ 361 / 256 * (k * k) * P := mul_le_mul_of_nonneg_right hbb hP
  have hdiff : |k * k * P - b * b * P| ≤ 6 * (n + 1) * u * (35 / 16) * (k * k * P) := by
    have e : k * k * P - b * b * P = (k - b) * (k + b) * P := by ring
    rw [e, abs_mul, abs_mul, abs_of_nonneg hP, abs_sub_comm]
    have h1 : |k + b| ≤ 35 / 16 * |k| := le_trans (abs_add _ _) (by linarith)
    have h2 : |b - k| * |k + b| ≤ (6 * (n + 1) * u * |k|) * (35 / 16 * |k|) :=
      mul_le_mul hb h1 (abs_nonneg _) (by positivity)
    have h3 : |b - k| * |k + b| * P ≤ (6 * (n + 1) * u * |k|) * (35 / 16 * |k|) * P :=
      mul_le_mul_of_nonneg_right h2 hP
    have e2 : (6 * (n + 1) * u * |k|) * (35 / 16 * |k|) * P
        = 6 * (n + 1) * u * (35 / 16) * (k * k * P) := by
      rw [← hKK]
      ring
    linarith
  have hE : (2 * (n + 1) * u + 8 * u) * (k * k * P + b * b * P)
      ≤ (2 * (n + 1) * u + 8 * u) * (617 / 256 * (k * k * P)) :=
    mul_le_mul_of_nonneg_left (by linarith) (by positivity)
  have t := abs_sub_abs_le_abs_sub nv (k * k * P - b * b * P)
  have huT : 0 ≤ u * (k * k * P) := mul_nonneg hu0 hT
  have hnuT : 0 ≤ n * (u * (k * k * P)) := mul_nonneg hn huT
  linarith

end GaussianMCMCost

theorem two_mul_abs_le (p q : ℚ) : 2 * (|p| * |q|) ≤ p * p + q * q := by
  have h1 := abs_mul_abs_self p
  have h2 := abs_mul_abs_self q
  have h3 := mul_self_nonneg (|p| - |q|)
  have e : (|p| - |q|) * (|p| - |q|) = |p| * |p| - 2 * (|p| * |q|) + |q| * |q| := by ring
  rw [e] at h3
  linarith
namespace binary64

theorem twoPow_le_twoPow {a b : ℤ} (h : a ≤ b) : twoPow a ≤ twoPow b := by
  rw [twoPow_eq, twoPow_eq]
  exact zpow_le_zpow_right₀ (by norm_num) h

theorem lt_of_twoPow_lt {a b : ℤ} (h : twoPow a < twoPow b) : a < b := by
  rw [twoPow_eq, twoPow_eq] at h
  exact (zpow_lt_zpow_iff_right₀ (by norm_num)).mp h

theorem roundHalfEven_intCast (k : ℤ) : roundHalfEven (k : ℚ) = k := by
  unfold roundHalfEven
  rw [Int.floor_intCast, sub_self, if_pos (by norm_num)]

/-- The nearest integer grows with the number. -/
theorem roundHalfEven_mono {m1 m2 : ℚ} (h : m1 ≤ m2) : roundHalfEven m1 ≤ roundHalfEven m2 := by
  by_contra hlt
  have hlt : roundHalfEven m2 + 1 ≤ roundHalfEven m1 := by omega
  have h1 := abs_le.mp (roundHalfEven_error m1)
  have h2 := abs_le.mp (roundHalfEven_error m2)
  have hq : ((roundHalfEven m2 : ℤ) : ℚ) + 1 ≤ ((roundHalfEven m1 : ℤ) : ℚ) := by
    exact_mod_cast hlt
  have heq : m1 = m2 := le_antisymm h (by linarith [h1.2, h2.1])
  rw [heq] at hlt
  omega

/-- The absolute value of a number other than `0` is below the power of two after the one
of its exponent. -/
theorem lt_twoPow_exponent (x : ℚ) (hx : x ≠ 0) : |x| < twoPow (exponent x + 1) := by
  unfold exponent
  simp only
  split_ifs with h
  · have hn : x.num.natAbs ≠ 0 := by
      simpa using (Rat.num_ne_zero.mpr hx)
    have hd : x.den ≠ 0 := x.den_ne_zero
    have h1 : x.num.natAbs < 2 ^ (log2 x.num.natAbs + 1) := (log2_spec _ hn).2
    have h2 : 2 ^ log2 x.den ≤ x.den := (log2_spec _ hd).1
    have habs : |x| = (x.num.natAbs : ℚ) / (x.den : ℚ) := by
      conv_lhs => rw [← Rat.num_div_den x]
      rw [abs_div, Nat.abs_cast]
      congr 1
      rw [Nat.cast_natAbs, Int.cast_abs]
    have he : ((log2 x.num.natAbs : ℤ) - (log2 x.den : ℤ) + 1)
        = ((log2 x.num.natAbs + 1 : ℕ) : ℤ) + -((log2 x.den : ℕ) : ℤ) := by
      push_cast
      ring
    rw [he, twoPow_add, twoPow_eq, twoPow_eq, zpow_neg, zpow_natCast, zpow_natCast, habs,
      ← div_eq_mul_inv]
    have h1' : (x.num.natAbs : ℚ) < (2 : ℚ) ^ (log2 x.num.natAbs + 1) := by
      exact_mod_cast h1
    have h2' : ((2 : ℚ) ^ log2 x.den) ≤ (x.den : ℚ) := by
      exact_mod_cast h2
    have hd0 : (0 : ℚ) < x.den := by exact_mod_cast Nat.pos_of_ne_zero hd
    have hp : (0 : ℚ) < (2 : ℚ) ^ log2 x.den := by positivity
    rw [div_lt_div_iff₀ hd0 hp]
    calc (x.num.natAbs : ℚ) * 2 ^ log2 x.den
        ≤ (x.num.natAbs : ℚ) * (x.den : ℚ) :=
          mul_le_mul_of_nonneg_left h2' (Nat.cast_nonneg _)
      _ < 2 ^ (log2 x.num.natAbs + 1) * (x.den : ℚ) := mul_lt_mul_of_pos_right h1' hd0
  · have e : ((log2 x.num.natAbs : ℤ) - (log2 x.den : ℤ) - 1 + 1)
        = (log2 x.num.natAbs : ℤ) - (log2 x.den : ℤ) := by ring
    rw [e]
    exact not_le.mp h

/-- The exponent grows with the absolute value. -/
theorem exponent_mono (x y : ℚ) (hx : x ≠ 0) (hy : y ≠ 0) (h : |x| ≤ |y|) :
    exponent x ≤ exponent y := by
  have h1 := twoPow_exponent_le x hx
  have h2 := lt_twoPow_exponent y hy
  have := lt_of_twoPow_lt (lt_of_le_of_lt (le_trans h1 h) h2)
  omega

theorem twoPow_52 (e : ℤ) : twoPow e * twoPow (52 - e) = 2 ^ 52 := by
  rw [← twoPow_add, twoPow_eq]
  have : e + (52 - e) = ((52 : ℕ) : ℤ) := by push_cast; ring
  rw [this, zpow_natCast]

theorem twoPow_53 (e : ℤ) : twoPow (e + 1) * twoPow (52 - e) = 2 ^ 53 := by
  rw [← twoPow_add, twoPow_eq]
  have : e + 1 + (52 - e) = ((53 : ℕ) : ℤ) := by push_cast; ring
  rw [this, zpow_natCast]

/-- The rounding of a positive number stays in the binade of the number. -/
theorem round_pos_bracket (x : ℚ) (hx : 0 < x) :
    twoPow (exponent x) ≤ round x ∧ round x ≤ twoPow (exponent x + 1) := by
  have h0 : x ≠ 0 := ne_of_gt hx
  unfold round
  rw [if_neg h0]
  set sc := twoPow (52 - exponent x) with hsc
  have hpos : 0 < sc := twoPow_pos _
  have h1 := twoPow_exponent_le x h0
  have h2 := lt_twoPow_exponent x h0
  rw [abs_of_pos hx] at h1 h2
  have hlo : ((2 ^ 52 : ℤ) : ℚ) ≤ x * sc := by
    have e : ((2 ^ 52 : ℤ) : ℚ) = twoPow (exponent x) * sc := by
      rw [hsc, twoPow_52]
      norm_num
    rw [e]
    exact mul_le_mul_of_nonneg_right h1 (le_of_lt hpos)
  have hhi : x * sc ≤ ((2 ^ 53 : ℤ) : ℚ) := by
    have e : ((2 ^ 53 : ℤ) : ℚ) = twoPow (exponent x + 1) * sc := by
      rw [hsc, twoPow_53]
      norm_num
    rw [e]
    exact mul_le_mul_of_nonneg_right (le_of_lt h2) (le_of_lt hpos)
  have r1 := roundHalfEven_mono hlo
  have r2 := roundHalfEven_mono hhi
  rw [roundHalfEven_intCast] at r1 r2
  have q1 : ((2 : ℚ) ^ 52) ≤ ((roundHalfEven (x * sc) : ℤ) : ℚ) := by exact_mod_cast r1
  have q2 : ((roundHalfEven (x * sc) : ℤ) : ℚ) ≤ (2 : ℚ) ^ 53 := by exact_mod_cast r2
  constructor
  · rw [le_div_iff₀ hpos, twoPow_52]
    exact q1
  · rw [div_le_iff₀ hpos, twoPow_53]
    exact q2

/-- The rounding of a negative number stays in the binade of the number. -/
theorem round_neg_bracket (x : ℚ) (hx : x < 0) :
    -twoPow (exponent x + 1) ≤ round x ∧ round x ≤ -twoPow (exponent x) := by
  have h0 : x ≠ 0 := ne_of_lt hx
  unfold round
  rw [if_neg h0]
  set sc := twoPow (52 - exponent x) with hsc
  have hpos : 0 < sc := twoPow_pos _
  have h1 := twoPow_exponent_le x h0
  have h2 := lt_twoPow_exponent x h0
  rw [abs_of_neg hx] at h1 h2
  have hhi : x * sc ≤ ((-(2 ^ 52) : ℤ) : ℚ) := by
    have e : ((-(2 ^ 52) : ℤ) : ℚ) = -twoPow (exponent x) * sc := by
      rw [hsc, neg_mul, twoPow_52]
      norm_num
    rw [e]
    exact mul_le_mul_of_nonneg_right (by linarith) (le_of_lt hpos)
  have hlo : ((-(2 ^ 53) : ℤ) : ℚ) ≤ x * sc := by
    have e : ((-(2 ^ 53) : ℤ) : ℚ) = -twoPow (exponent x + 1) * sc := by
      rw [hsc, neg_mul, twoPow_53]
      norm_num
    rw [e]
    exact mul_le_mul_of_nonneg_right (by linarith) (le_of_lt hpos)
  have r1 := roundHalfEven_mono hlo
  have r2 := roundHalfEven_mono hhi
  rw [roundHalfEven_intCast] at r1 r2
  have q1 : -((2 : ℚ) ^ 53) ≤ ((roundHalfEven (x * sc) : ℤ) : ℚ) := by exact_mod_cast r1
  have q2 : ((roundHalfEven (x * sc) : ℤ) : ℚ) ≤ -((2 : ℚ) ^ 52) := by exact_mod_cast r2
  constructor
  · rw [le_div_iff₀ hpos, neg_mul, twoPow_53]
    exact q1
  · rw [div_le_iff₀ hpos, neg_mul, twoPow_52]
    exact q2

/-- The rounding to the nearest `double` is monotone. -/
theorem round_monotone : Monotone round := by
  intro x y hxy
  rcases lt_trichotomy x 0 with hx | hx | hx
  · rcases lt_trichotomy y 0 with hy | hy | hy
    · -- both negative
      have hx0 : x ≠ 0 := ne_of_lt hx
      have hy0 : y ≠ 0 := ne_of_lt hy
      have habs : |y| ≤ |x| := by
        rw [abs_of_neg hx, abs_of_neg hy]
        linarith
      have he := exponent_mono y x hy0 hx0 habs
      rcases eq_or_lt_of_le he with heq | hlt
      · unfold round
        rw [if_neg hx0, if_neg hy0, heq]
        have hpos : 0 < twoPow (52 - exponent x) := twoPow_pos _
        apply div_le_div_of_nonneg_right _ (le_of_lt hpos)
        exact_mod_cast roundHalfEven_mono (mul_le_mul_of_nonneg_right hxy (le_of_lt hpos))
      · have b1 := (round_neg_bracket x hx).2
        have b2 := (round_neg_bracket y hy).1
        have : twoPow (exponent y + 1) ≤ twoPow (exponent x) := twoPow_le_twoPow (by omega)
        linarith
    · rw [hy]
      have b1 := (round_neg_bracket x hx).2
      have : 0 < twoPow (exponent x) := twoPow_pos _
      have r0 : round 0 = 0 := by simp [round]
      rw [r0]
      linarith
    · have b1 := (round_neg_bracket x hx).2
      have b2 := (round_pos_bracket y hy).1
      have p1 : 0 < twoPow (exponent x) := twoPow_pos _
      have p2 : 0 < twoPow (exponent y) := twoPow_pos _
      linarith
  · rw [hx] at hxy ⊢
    have r0 : round 0 = 0 := by simp [round]
    rw [r0]
    rcases eq_or_lt_of_le hxy with hy | hy
    · rw [← hy, r0]
    · have b2 := (round_pos_bracket y hy).1
      have p2 : 0 < twoPow (exponent y) := twoPow_pos _
      linarith
  · have hy : 0 < y := lt_of_lt_of_le hx hxy
    have hx0 : x ≠ 0 := ne_of_gt hx
    have hy0 : y ≠ 0 := ne_of_gt hy
    have habs : |x| ≤ |y| := by
      rw [abs_of_pos hx, abs_of_pos hy]
      exact hxy
    have he := exponent_mono x y hx0 hy0 habs
    rcases eq_or_lt_of_le he with heq | hlt
    · unfold round
      rw [if_neg hx0, if_neg hy0, heq]
      have hpos : 0 < twoPow (52 - exponent y) := twoPow_pos _
      apply div_le_div_of_nonneg_right _ (le_of_lt hpos)
      exact_mod_cast roundHalfEven_mono (mul_le_mul_of_nonneg_right hxy (le_of_lt hpos))
    · have b1 := (round_pos_bracket x hx).2
      have b2 := (round_pos_bracket y hy).1
      have : twoPow (exponent x + 1) ≤ twoPow (exponent y) := twoPow_le_twoPow (by omega)
      linarith

end binary64
/-! ## Theorems on GaussianMCMCost -/

open GaussianMCMCost

/-- C1: when `GetValues` succeeds on a well-formed measurement set of `N` measurements,
`N >= 1`, the stored amplitude is `b0 = (sum observed*predicted) / (sum predicted^2)`, the
returned (and stored) residuals are `b0 * predicted[i] - observed[i]`, and the stored variance
is `(sum observed^2 - b0^2 * sum predicted^2) / N`. -/
theorem GetValues_formulas (mcm : MCMStructure) (s : GaussianMCMCost) (x residuals : List ℚ)
    (hwf : WellFormed s) (hx : x.length < 2 ^ 32)
    (hok : (GetValues mcm s x).2 = .ok residuals) :
    1 ≤ s.m_Gradients.length ∧
    (GetValues mcm s x).1.m_B0Value
      = (∑ i ∈ Finset.range s.m_Gradients.length, observed s i * predicted mcm s x i)
        / (∑ i ∈ Finset.range s.m_Gradients.length, predicted mcm s x i ^ 2) ∧
    residuals.length = s.m_Gradients.length ∧
    (GetValues mcm s x).1.m_Residuals = residuals ∧
    (∀ i, i < s.m_Gradients.length →
      residuals.getD i 0
        = (GetValues mcm s x).1.m_B0Value * predicted mcm s x i - observed s i) ∧
    (GetValues mcm s x).1.m_SigmaSquare
      = ((∑ i ∈ Finset.range s.m_Gradients.length, observed s i ^ 2)
          - (GetValues mcm s x).1.m_B0Value ^ 2
            * (∑ i ∈ Finset.range s.m_Gradients.length, predicted mcm s x i ^ 2))
        / (s.m_Gradients.length : ℚ) := by
  obtain ⟨h1, h2, hres⟩ := GetValues_ok_inv mcm s x residuals hwf hx hok
  rw [GetValues_ok mcm s x hwf hx h1 h2]
  subst hres
  refine ⟨one_le_of_not_degenerate mcm s x h1, ?_, length_residualVector mcm s x, rfl, ?_, ?_⟩
  · simp only [amplitude, observedPredictedProduct, predictedSquaredNorm, sq]
  · intro i hi
    exact getD_residualVector mcm s x i hi
  · simp only [variance, amplitude, observedPredictedProduct, predictedSquaredNorm,
      observedSquaredNorm, sq]

/-- Witness of C1: the five observations `2.0` under the forward model `predicted(x) = x[0]`
at the parameters `[0.1, 0]`. -/
theorem GetValues_formulas_witness :
    1 ≤ scenarioCost.m_Gradients.length ∧
    (GetValues linearModel scenarioCost [1 / 10, 0]).1.m_B0Value
      = (∑ i ∈ Finset.range scenarioCost.m_Gradients.length,
          observed scenarioCost i * predicted linearModel scenarioCost [1 / 10, 0] i)
        / (∑ i ∈ Finset.range scenarioCost.m_Gradients.length,
          predicted linearModel scenarioCost [1 / 10, 0] i ^ 2) ∧
    ([0, 0, 0, 0, 0] : List ℚ).length = scenarioCost.m_Gradients.length ∧
    (GetValues linearModel scenarioCost [1 / 10, 0]).1.m_Residuals = [0, 0, 0, 0, 0] ∧
    (∀ i, i < scenarioCost.m_Gradients.length →
      ([0, 0, 0, 0, 0] : List ℚ).getD i 0
        = (GetValues linearModel scenarioCost [1 / 10, 0]).1.m_B0Value
            * predicted linearModel scenarioCost [1 / 10, 0] i - observed scenarioCost i) ∧
    (GetValues linearModel scenarioCost [1 / 10, 0]).1.m_SigmaSquare
      = ((∑ i ∈ Finset.range scenarioCost.m_Gradients.length, observed scenarioCost i ^ 2)
          - (GetValues linearModel scenarioCost [1 / 10, 0]).1.m_B0Value ^ 2
            * (∑ i ∈ Finset.range scenarioCost.m_Gradients.length,
                predicted linearModel scenarioCost [1 / 10, 0] i ^ 2))
        / (scenarioCost.m_Gradients.length : ℚ) :=
  GetValues_formulas linearModel scenarioCost [1 / 10, 0] [0, 0, 0, 0, 0]
    (by decide) (by decide) (by decide!)

/-- C2, counterexample: on the five observations `2.0` with `predicted(x) = x[0]`, a first
`GetValues` at `[0.1, 0]` succeeds and leaves the variance `0`; the second `GetValues` at the
same point raises `DegenerateVarianceError`. -/
theorem GetValues_not_idempotent :
    WellFormed scenarioCost ∧
    (GetValues linearModel scenarioCost [1 / 10, 0]).2 = .ok [0, 0, 0, 0, 0] ∧
    (GetValues linearModel scenarioCost [1 / 10, 0]).1.m_SigmaSquare = 0 ∧
    (GetValues linearModel (GetValues linearModel scenarioCost [1 / 10, 0]).1 [1 / 10, 0]).2
      = .error .DegenerateVarianceError := by
  refine ⟨by decide, by decide!, by decide!, by decide!⟩

/-- C2, amended: after a successful `GetValues` at `x`, a second `GetValues` at `x` succeeds
exactly when the variance the first call stored is at least `1e-4`, and then it returns the
same residuals and leaves the same state (same `b0`, same variance); when the stored variance
is below `1e-4` the second call raises `DegenerateVarianceError`. -/
theorem GetValues_idempotent (mcm : MCMStructure) (s : GaussianMCMCost) (x residuals : List ℚ)
    (hwf : WellFormed s) (hx : x.length < 2 ^ 32)
    (hok : (GetValues mcm s x).2 = .ok residuals) :
    (¬ (GetValues mcm s x).1.m_SigmaSquare < 1 / 10000 →
      (GetValues mcm (GetValues mcm s x).1 x).2 = .ok residuals ∧
      (GetValues mcm (GetValues mcm s x).1 x).1.m_Residuals = (GetValues mcm s x).1.m_Residuals ∧
      (GetValues mcm (GetValues mcm s x).1 x).1.m_B0Value = (GetValues mcm s x).1.m_B0Value ∧
      (GetValues mcm (GetValues mcm s x).1 x).1.m_SigmaSquare
        = (GetValues mcm s x).1.m_SigmaSquare) ∧
    ((GetValues mcm s x).1.m_SigmaSquare < 1 / 10000 →
      (GetValues mcm (GetValues mcm s x).1 x).2 = .error .DegenerateVarianceError) := by
  obtain ⟨h1, _, hres⟩ := GetValues_ok_inv mcm s x residuals hwf hx hok
  rw [GetValues_ok_state mcm s x residuals hwf hx hok]
  simp only
  rw [GetValues_evaluated mcm s x hwf hx h1]
  have hv : (evaluated mcm s x).m_SigmaSquare = variance mcm s x := rfl
  rw [hv]
  constructor
  · intro h
    rw [if_neg h, hres]
    exact ⟨rfl, rfl, rfl, rfl⟩
  · intro h
    rw [if_pos h]

/-- Witness of the amended C2: one observation `1` and one observation `2` under
`predicted(x) = x[0]` at `[1]`, where the first call stores the variance `1/4`. -/
theorem GetValues_idempotent_witness :
    (GetValues linearModel (GetValues linearModel noisyCost [1]).1 [1]).2
      = .ok [1 / 2, -1 / 2] ∧
    (GetValues linearModel (GetValues linearModel noisyCost [1]).1 [1]).1.m_Residuals
      = (GetValues linearModel noisyCost [1]).1.m_Residuals ∧
    (GetValues linearModel (GetValues linearModel noisyCost [1]).1 [1]).1.m_B0Value
      = (GetValues linearModel noisyCost [1]).1.m_B0Value ∧
    (GetValues linearModel (GetValues linearModel noisyCost [1]).1 [1]).1.m_SigmaSquare
      = (GetValues linearModel noisyCost [1]).1.m_SigmaSquare :=
  (GetValues_idempotent linearModel noisyCost [1] [1 / 2, -1 / 2]
    (by decide) (by decide) (by decide!)).1 (by decide!)

/-- C3: `GetValues` raises `DegenerateSignalError` exactly when `sum predicted^2 < 1e-4`,
whatever the carried variance (in particular when every predicted signal is `0`); otherwise it
raises `DegenerateVarianceError` exactly when the carried `m_SigmaSquare` is below `1e-4`;
otherwise it succeeds. It raises nothing else. -/
theorem GetValues_failure_cases (mcm : MCMStructure) (s : GaussianMCMCost) (x : List ℚ)
    (hwf : WellFormed s) (hx : x.length < 2 ^ 32) :
    ((GetValues mcm s x).2 = .error .DegenerateSignalError ↔
      (∑ i ∈ Finset.range s.m_Gradients.length, predicted mcm s x i ^ 2) < 1 / 10000) ∧
    ((GetValues mcm s x).2 = .error .DegenerateVarianceError ↔
      ¬ (∑ i ∈ Finset.range s.m_Gradients.length, predicted mcm s x i ^ 2) < 1 / 10000 ∧
        s.m_SigmaSquare < 1 / 10000) ∧
    ((∃ residuals, (GetValues mcm s x).2 = .ok residuals) ↔
      ¬ (∑ i ∈ Finset.range s.m_Gradients.length, predicted mcm s x i ^ 2) < 1 / 10000 ∧
        ¬ s.m_SigmaSquare < 1 / 10000) ∧
    (GetValues mcm s x).2 ≠ .error .UnsupportedCombinationError ∧
    ((∀ i, i < s.m_Gradients.length → predicted mcm s x i = 0) →
      (GetValues mcm s x).2 = .error .DegenerateSignalError) := by
  have hsum : (∑ i ∈ Finset.range s.m_Gradients.length, predicted mcm s x i ^ 2)
      = predictedSquaredNorm mcm s x s.m_Gradients.length := by
    simp only [predictedSquaredNorm, sq]
  rw [hsum, GetValues_eq mcm s x hwf hx]
  have hzero : (∀ i, i < s.m_Gradients.length → predicted mcm s x i = 0) →
      predictedSquaredNorm mcm s x s.m_Gradients.length < 1 / 10000 := by
    intro h0
    rw [predictedSquaredNorm, Finset.sum_eq_zero]
    · norm_num
    · intro i hi
      rw [h0 i (Finset.mem_range.mp hi)]
      ring
  by_cases h1 : predictedSquaredNorm mcm s x s.m_Gradients.length < 1 / 10000
  · rw [if_pos h1]
    exact ⟨iff_of_true rfl h1, iff_of_false (by simp) (fun h => h.1 h1),
      iff_of_false (by simp) (fun h => h.1 h1), by simp, fun _ => rfl⟩
  · by_cases h2 : s.m_SigmaSquare < 1 / 10000
    · rw [if_neg h1, if_pos h2]
      exact ⟨iff_of_false (by simp) h1, iff_of_true rfl ⟨h1, h2⟩,
        iff_of_false (by simp) (fun h => h.2 h2), by simp, fun h0 => absurd (hzero h0) h1⟩
    · rw [if_neg h1, if_neg h2]
      exact ⟨iff_of_false (by simp) h1, iff_of_false (by simp) (fun h => h2 h.2),
        iff_of_true ⟨_, rfl⟩ ⟨h1, h2⟩, by simp, fun h0 => absurd (hzero h0) h1⟩

/-- Witness of C3 (scenario D): with a predicted signal forced to `0` for the five
measurements, `GetValues` raises `DegenerateSignalError`. -/
theorem GetValues_failure_cases_witness :
    (GetValues zeroSignalModel scenarioCost [1 / 10, 0]).2 = .error .DegenerateSignalError :=
  (GetValues_failure_cases zeroSignalModel scenarioCost [1 / 10, 0]
    (by decide) (by decide)).2.2.2.2 (by decide!)

/-- C8, amended: when the observations are proportional to the predictions, `observed[i] =
c * predicted[i]`, the accumulated `sum predicted^2` and the carried variance are not below
`1e-4`, and the arithmetic rounds every operation with a relative error of at most `u`,
`(N + 1) * u <= 1/32`, the evaluation succeeds with `b0`, `b0 * predicted[i]`, the residuals
and the updated variance equal to `c`, `observed[i]`, `0` and `0` up to rounding:
`|b0 - c| <= 6 * (N + 1) * u * |c|`, `|b0 * predicted[i] - observed[i]| <= 6 * (N + 1) * u *
|observed[i]|`, `|residual[i]| <= (6 * N + 13) * u * |observed[i]|` and `N * |sigma^2| <=
20 * (N + 2) * u * c^2 * sum predicted^2`. In exact arithmetic (`u = 0`) these are the
equalities `b0 = c`, `residual[i] = 0` and `sigma^2 = 0`. -/
theorem GetValuesRounded_perfect_fit (fl : ℚ → ℚ) (u : ℚ) (mcm : MCMStructure)
    (s : GaussianMCMCost) (x : List ℚ) (c : ℚ) (hfl : RoundsWithin fl u) (hu0 : 0 ≤ u)
    (hu : ((s.m_Gradients.length : ℚ) + 1) * u ≤ 1 / 32)
    (hwf : WellFormed s) (hx : x.length < 2 ^ 32)
    (hprop : ∀ i, i < s.m_Gradients.length → observed s i = c * predicted mcm s x i)
    (hp : ¬ predictedSquaredNormRounded fl mcm s x < fl (1 / 10000))
    (hs : ¬ s.m_SigmaSquare < fl (1 / 10000)) :
    (GetValuesRounded fl mcm s x).2 = .ok (GetValuesRounded fl mcm s x).1.m_Residuals ∧
    (GetValuesRounded fl mcm s x).1.m_Residuals.length = s.m_Gradients.length ∧
    |(GetValuesRounded fl mcm s x).1.m_B0Value - c|
      ≤ 6 * ((s.m_Gradients.length : ℚ) + 1) * u * |c| ∧
    (∀ i, i < s.m_Gradients.length →
      |(GetValuesRounded fl mcm s x).1.m_B0Value * predicted mcm s x i - observed s i|
        ≤ 6 * ((s.m_Gradients.length : ℚ) + 1) * u * |observed s i|) ∧
    (∀ i, i < s.m_Gradients.length →
      |(GetValuesRounded fl mcm s x).1.m_Residuals.getD i 0|
        ≤ (6 * (s.m_Gradients.length : ℚ) + 13) * u * |observed s i|) ∧
    (s.m_Gradients.length : ℚ) * |(GetValuesRounded fl mcm s x).1.m_SigmaSquare|
      ≤ 20 * ((s.m_Gradients.length : ℚ) + 2) * u
        * (c * c * predictedSquaredNorm mcm s x s.m_Gradients.length) ∧
    (u = 0 →
      (GetValuesRounded fl mcm s x).1.m_B0Value = c ∧
      (∀ i, i < s.m_Gradients.length →
        (GetValuesRounded fl mcm s x).1.m_Residuals.getD i 0 = 0) ∧
      (GetValuesRounded fl mcm s x).1.m_SigmaSquare = 0) := by
  have hn0 : (0 : ℚ) ≤ (s.m_Gradients.length : ℚ) := Nat.cast_nonneg _
  have hu32 : u ≤ 1 / 32 := by nlinarith
  obtain ⟨hPhpos, hN⟩ := predictedSquaredNormRounded_pos fl u hfl (by linarith) mcm s x hp
  have hn1 : (1 : ℚ) ≤ (s.m_Gradients.length : ℚ) := by exact_mod_cast hN
  obtain ⟨hOh, hPh, hQh⟩ := rounded_sums_error fl u hfl hu0 mcm s x hu
  rw [GetValuesRounded_ok fl mcm s x hwf hx hp hs]
  show _ ∧ (residualVectorRounded fl mcm s x).length = _ ∧
    |amplitudeRounded fl mcm s x - c| ≤ _ ∧
    (∀ i, i < s.m_Gradients.length →
      |amplitudeRounded fl mcm s x * predicted mcm s x i - observed s i| ≤ _) ∧
    (∀ i, i < s.m_Gradients.length →
      |(residualVectorRounded fl mcm s x).getD i 0| ≤ _) ∧
    (s.m_Gradients.length : ℚ) * |varianceRounded fl mcm s x| ≤ _ ∧
    (u = 0 → amplitudeRounded fl mcm s x = c ∧
      (∀ i, i < s.m_Gradients.length → (residualVectorRounded fl mcm s x).getD i 0 = 0) ∧
      varianceRounded fl mcm s x = 0)
  set n : ℚ := (s.m_Gradients.length : ℚ) with hn
  set b := amplitudeRounded fl mcm s x with hb
  set P := predictedSquaredNorm mcm s x s.m_Gradients.length with hP
  have hP0 : 0 ≤ P := Finset.sum_nonneg (fun i _ => mul_self_nonneg _)
  have hK : 0 ≤ |c| := abs_nonneg c
  -- the exact sums of a perfect fit
  have hQ : observedPredictedProduct mcm s x s.m_Gradients.length = c * P := by
    rw [hP, observedPredictedProduct, predictedSquaredNorm, Finset.mul_sum]
    apply Finset.sum_congr rfl
    intro i hi
    rw [hprop i (Finset.mem_range.mp hi)]
    ring
  have hO : observedSquaredNorm s s.m_Gradients.length = c * c * P := by
    rw [hP, observedSquaredNorm, predictedSquaredNorm, Finset.mul_sum]
    apply Finset.sum_congr rfl
    intro i hi
    rw [hprop i (Finset.mem_range.mp hi)]
    ring
  have hA : absoluteProductSum mcm s x = |c| * P := by
    rw [hP, absoluteProductSum, predictedSquaredNorm, Finset.mul_sum]
    apply Finset.sum_congr rfl
    intro i hi
    rw [hprop i (Finset.mem_range.mp hi), mul_assoc, abs_mul, abs_mul_self]
  rw [hQ, hA] at hQh
  rw [hO] at hOh
  have ha16 : 2 * (n + 1) * u ≤ 1 / 16 := by linarith
  have hPh' := abs_le.mp hPh
  have haP : 2 * (n + 1) * u * P ≤ 1 / 16 * P := mul_le_mul_of_nonneg_right ha16 hP0
  have hPpos : 0 < P := by
    by_contra h
    have h0 : P = 0 := le_antisymm (not_lt.mp h) hP0
    rw [h0] at hPh'
    linarith [hPh'.2]
  have hamp : |b - c| ≤ 6 * (n + 1) * u * |c| :=
    rounded_amplitude_perfect_fit u (2 * (n + 1) * u) b c P
      (predictedSquaredNormRounded fl mcm s x) (observedPredictedProductRounded fl mcm s x) n
      hu0 hu hn0 rfl hPpos hPh hQh (rounded_quotient_error hfl _ _ hPhpos)
  have hprod : ∀ i, i < s.m_Gradients.length →
      |b * predicted mcm s x i - observed s i| ≤ 6 * (n + 1) * u * |observed s i| := by
    intro i hi
    rw [hprop i hi]
    have e : b * predicted mcm s x i - c * predicted mcm s x i
        = (b - c) * predicted mcm s x i := by ring
    rw [e, abs_mul, abs_mul]
    calc |b - c| * |predicted mcm s x i|
        ≤ 6 * (n + 1) * u * |c| * |predicted mcm s x i| :=
          mul_le_mul_of_nonneg_right hamp (abs_nonneg _)
      _ = 6 * (n + 1) * u * (|c| * |predicted mcm s x i|) := by ring
  have hresid : ∀ i, i < s.m_Gradients.length →
      |(residualVectorRounded fl mcm s x).getD i 0| ≤ (6 * n + 13) * u * |observed s i| := by
    intro i hi
    rw [getD_residualVectorRounded fl mcm s x i hi]
    have h1 := rounded_residual_error hfl hu0 (by linarith) b (predicted mcm s x i)
      (observed s i)
    have h2 := hprod i hi
    have h3 := abs_sub_abs_le_abs_sub
      (fl (fl (b * predicted mcm s x i) - observed s i))
      (b * predicted mcm s x i - observed s i)
    have h4 := abs_sub_abs_le_abs_sub (b * predicted mcm s x i)
      (b * predicted mcm s x i - observed s i)
    have e : b * predicted mcm s x i - (b * predicted mcm s x i - observed s i)
        = observed s i := by ring
    rw [e] at h4
    have ho : 0 ≤ |observed s i| := abs_nonneg _
    have huo : 0 ≤ u * |observed s i| := mul_nonneg hu0 ho
    have h6 : 6 * (n + 1) * u * |observed s i| ≤ 3 / 16 * |observed s i| :=
      mul_le_mul_of_nonneg_right (by linarith) ho
    have h7 : u * |b * predicted mcm s x i| ≤ u * (19 / 16 * |observed s i|) :=
      mul_le_mul_of_nonneg_left (by linarith) hu0
    have h8 : |b * predicted mcm s x i - observed s i| = |observed s i - b * predicted mcm s x i| :=
      abs_sub_comm _ _
    linarith
  have hvar : n * |varianceRounded fl mcm s x| ≤ 20 * (n + 2) * u * (c * c * P) := by
    have F1 := rounded_variance_error hfl hu0 hu32 (2 * (n + 1) * u) b (c * c * P)
      (observedSquaredNormRounded fl s) P (predictedSquaredNormRounded fl mcm s x) n ha16
      (mul_nonneg (mul_self_nonneg c) hP0) hP0 hn1 hOh hPh
    have h := rounded_variance_perfect_fit u b c P n (n * varianceRounded fl mcm s x) hu0 hu
      hn0 hP0 hamp F1
    rwa [abs_mul, abs_of_nonneg hn0] at h
  refine ⟨rfl, length_residualVectorRounded fl mcm s x, hamp, hprod, hresid, hvar, ?_⟩
  intro hu
  rw [hu, mul_zero, zero_mul] at hamp hvar
  refine ⟨sub_eq_zero.mp (abs_nonpos_iff.mp hamp), ?_, ?_⟩
  · intro i hi
    have h := hresid i hi
    rw [hu, mul_zero, zero_mul] at h
    exact abs_nonpos_iff.mp h
  · have h0 : |varianceRounded fl mcm s x| ≤ 0 := by
      by_contra h
      have hpos : 0 < |varianceRounded fl mcm s x| := not_le.mp h
      have := mul_pos (by linarith : (0 : ℚ) < n) hpos
      linarith
    exact abs_nonpos_iff.mp h0

/-- C8, counterexample (scenario A in the arithmetic of `double`): the five observations
`2.0` under `predicted(x) = x[0]` at the parameters `[0.1, 0]`, `0.1` being the `double`
nearest to `1/10`, are proportional to the predictions with `c = 2 / 0.1`, `sum predicted^2`
and the carried variance are above `1e-4` and the evaluation succeeds; but the stored `b0` is
`19.999999999999996`, not `c`, the rounded product `b0 * predicted` is `1.9999999999999998`,
not `2.0`, every residual is `-2^-52`, not `0`, and the updated variance is about
`7.1e-16`, not `0`. -/
theorem GetValuesRounded_scenarioA_inexact :
    WellFormed scenarioCost ∧
    (∀ i, i < scenarioCost.m_Gradients.length →
      observed scenarioCost i
        = 2 / binary64.round (1 / 10) * predicted linearModel scenarioCost scenarioParameters i) ∧
    1 / 10000 ≤ predictedSquaredNorm linearModel scenarioCost scenarioParameters
      scenarioCost.m_Gradients.length ∧
    1 / 10000 ≤ scenarioCost.m_SigmaSquare ∧
    (GetValuesRounded binary64.round linearModel scenarioCost scenarioParameters).2
      = .ok [-1 / 2 ^ 52, -1 / 2 ^ 52, -1 / 2 ^ 52, -1 / 2 ^ 52, -1 / 2 ^ 52] ∧
    (GetValuesRounded binary64.round linearModel scenarioCost scenarioParameters).1.m_B0Value
      = 5629499534213119 / 281474976710656 ∧
    (GetValuesRounded binary64.round linearModel scenarioCost scenarioParameters).1.m_B0Value
      ≠ 2 / binary64.round (1 / 10) ∧
    binary64.round
        ((GetValuesRounded binary64.round linearModel scenarioCost scenarioParameters).1.m_B0Value
          * predicted linearModel scenarioCost scenarioParameters 0)
      = 2 - 1 / 2 ^ 52 ∧
    (GetValuesRounded binary64.round linearModel scenarioCost scenarioParameters).1.m_B0Value
        * predicted linearModel scenarioCost scenarioParameters 0
      ≠ observed scenarioCost 0 ∧
    (GetValuesRounded binary64.round linearModel scenarioCost scenarioParameters).1.m_Residuals
      ≠ [0, 0, 0, 0, 0] ∧
    (GetValuesRounded binary64.round linearModel scenarioCost scenarioParameters).1.m_SigmaSquare
      = 3602879701896397 / 5070602400912917605986812821504 ∧
    (GetValuesRounded binary64.round linearModel scenarioCost scenarioParameters).1.m_SigmaSquare
      ≠ 0 := by
  refine ⟨by decide, by decide!, by decide!, by decide!, by decide!, by decide!, by decide!,
    by decide!, by decide!, by decide!, by decide!, by decide!⟩

/-- Witness of the amended C8 (scenario A in the arithmetic of `double`): at `[0.1, 0]` the
stored `b0 = 19.999999999999996` is within `36 * 2^-53 * |c|` of `c = 2 / 0.1`, and five
times the stored variance is at most `140 * 2^-53 * c^2 * sum predicted^2`. -/
theorem GetValuesRounded_perfect_fit_witness :
    |(GetValuesRounded binary64.round linearModel scenarioCost scenarioParameters).1.m_B0Value
        - 2 / binary64.round (1 / 10)|
      ≤ 6 * ((scenarioCost.m_Gradients.length : ℚ) + 1) * binary64.unitRoundoff
        * |2 / binary64.round (1 / 10)| ∧
    (scenarioCost.m_Gradients.length : ℚ)
        * |(GetValuesRounded binary64.round linearModel scenarioCost
            scenarioParameters).1.m_SigmaSquare|
      ≤ 20 * ((scenarioCost.m_Gradients.length : ℚ) + 2) * binary64.unitRoundoff
        * (2 / binary64.round (1 / 10) * (2 / binary64.round (1 / 10))
          * predictedSquaredNorm linearModel scenarioCost scenarioParameters
              scenarioCost.m_Gradients.length) :=
  ⟨(GetValuesRounded_perfect_fit binary64.round binary64.unitRoundoff linearModel scenarioCost
      scenarioParameters (2 / binary64.round (1 / 10)) binary64.roundsWithin_round
      (by decide!) (by decide!) (by decide) (by decide) (by decide!) (by decide!)
      (by decide!)).2.2.1,
   (GetValuesRounded_perfect_fit binary64.round binary64.unitRoundoff linearModel scenarioCost
      scenarioParameters (2 / binary64.round (1 / 10)) binary64.roundsWithin_round
      (by decide!) (by decide!) (by decide) (by decide) (by decide!) (by decide!)
      (by decide!)).2.2.2.2.2.1⟩

/-- C4: in the marginal regime `GetDerivativeMatrix` raises `UnsupportedCombinationError`
for every parameter vector (empty or not, equal to the cached point or not), and leaves the
output matrix and the whole state of the cost function unchanged. -/
theorem GetDerivativeMatrix_marginal (mcm : MCMStructure) (s : GaussianMCMCost) (x : List ℚ)
    (derivative : VnlMatrix) (hm : s.m_MarginalEstimation = true) :
    GetDerivativeMatrix mcm s x derivative
      = (s, derivative, .error .UnsupportedCombinationError) := by
  simp [GetDerivativeMatrix, hm]

/-- Witness of C4: the marginal regime with an empty parameter vector. -/
theorem GetDerivativeMatrix_marginal_witness :
    GetDerivativeMatrix linearModel marginalCost [] (VnlMatrix.zeros 1 2)
      = (marginalCost, VnlMatrix.zeros 1 2, .error .UnsupportedCombinationError) :=
  GetDerivativeMatrix_marginal linearModel marginalCost [] (VnlMatrix.zeros 1 2) (by decide)

/-- C5: in the conditional regime, at a parameter vector of length `P >= 1` equal to the
cached point, `GetDerivativeMatrix` succeeds and returns a `P x N` matrix with
`derivative(j,i) = b0 * predicted[i] * gradient_i[j] - observed[i] * gradient_i[j]`, and sets
`m_PredictedJacobianProducts[j] = sum_i predicted[i] * gradient_i[j]`; nothing else in the
state changes. `b0` and `predicted` are the stored values, `gradient_i` is the gradient the
forward model gives for measurement `i`. -/
theorem GetDerivativeMatrix_conditional (mcm : MCMStructure) (s : GaussianMCMCost)
    (x : List ℚ) (derivative : VnlMatrix) (hwf : WellFormed s)
    (hm : s.m_MarginalEstimation = false) (hP : 1 ≤ x.length) (hx : x.length < 2 ^ 32)
    (hcached : s.m_TestedParameters = x) :
    (GetDerivativeMatrix mcm s x derivative).2.2 = .ok () ∧
    (GetDerivativeMatrix mcm s x derivative).2.1.rows = x.length ∧
    (GetDerivativeMatrix mcm s x derivative).2.1.cols = s.m_ObservedSignals.length ∧
    (GetDerivativeMatrix mcm s x derivative).2.1.WellSized ∧
    (∀ j i, j < x.length → i < s.m_ObservedSignals.length →
      (GetDerivativeMatrix mcm s x derivative).2.1.get j i
        = s.m_B0Value * s.m_PredictedSignals.getD i 0
            * (gradient mcm s s.m_MCMParameters i).getD j 0
          - observed s i * (gradient mcm s s.m_MCMParameters i).getD j 0) ∧
    (GetDerivativeMatrix mcm s x derivative).1.m_PredictedJacobianProducts.length = x.length ∧
    (∀ j, j < x.length →
      (GetDerivativeMatrix mcm s x derivative).1.m_PredictedJacobianProducts.getD j 0
        = ∑ i ∈ Finset.range s.m_ObservedSignals.length,
            s.m_PredictedSignals.getD i 0 * (gradient mcm s s.m_MCMParameters i).getD j 0) ∧
    (GetDerivativeMatrix mcm s x derivative).1
      = { s with m_PredictedJacobianProducts :=
            (GetDerivativeMatrix mcm s x derivative).1.m_PredictedJacobianProducts } := by
  have hN : s.m_ObservedSignals.length < 2 ^ 32 := by rw [hwf.1]; exact hwf.2.2.2
  obtain ⟨hrows, hcols, hlen, hplen, hget, hpjp⟩ :=
    jacobianOuter_spec mcm s x.length s.m_ObservedSignals.length s.m_ObservedSignals.length
      (le_refl _)
  rw [GetDerivativeMatrix_cached mcm s x derivative hm hP hx hN hcached]
  refine ⟨rfl, hrows, hcols, ?_, ?_, hplen, hpjp, rfl⟩
  · show _ = _
    rw [hlen, hrows, hcols]
  · intro j i hj hi
    rw [hget j i hj hi, if_pos hi]

/-- Witness of C5: observations `1` and `2` under `predicted(x) = x[0]`, after `GetValues`
at `[1]` (`b0 = 3/2`): the returned `1 x 2` matrix is `[1/2, -1/2]` and the stored product
is `2`. -/
theorem GetDerivativeMatrix_conditional_witness :
    (GetDerivativeMatrix linearModel (GetValues linearModel noisyCost [1]).1 [1]
      (VnlMatrix.zeros 0 0)).2.1.data = [1 / 2, -1 / 2] ∧
    (GetDerivativeMatrix linearModel (GetValues linearModel noisyCost [1]).1 [1]
      (VnlMatrix.zeros 0 0)).1.m_PredictedJacobianProducts = [2] ∧
    (GetDerivativeMatrix linearModel (GetValues linearModel noisyCost [1]).1 [1]
      (VnlMatrix.zeros 0 0)).2.1.rows = 1 :=
  ⟨by decide!, by decide!,
    (GetDerivativeMatrix_conditional linearModel (GetValues linearModel noisyCost [1]).1 [1]
      (VnlMatrix.zeros 0 0) (by decide!) (by decide!) (by decide) (by decide)
      (by decide!)).2.1⟩

/-- C6: for a matrix of `P` rows and `N` columns `GetCurrentDerivative` returns a vector of
length `P` with, for every `j`, `2 * b0 * (sum_i derivative(j,i)) / sigma^2` in the
conditional regime and `2 * (predictedJacobianProduct[j] / sum predicted^2 + (N + 1) * b0 *
(sum_i derivative(j,i)) / (N * sigma^2))` in the marginal regime, with the stored `b0`,
`sigma^2` and `sum predicted^2`. The divisors are not zero: the stored `sigma^2` in both
regimes, `N` and the stored `sum predicted^2` in the marginal regime, where the stored
products also have an entry for every row. -/
theorem GetCurrentDerivative_formulas (s : GaussianMCMCost) (derivativeMatrix : VnlMatrix)
    (_hsized : derivativeMatrix.WellSized)
    (_hsigma : s.m_SigmaSquare ≠ 0)
    (_hmarginal : s.m_MarginalEstimation = true →
      derivativeMatrix.cols ≠ 0 ∧ s.m_PredictedSquaredNorm ≠ 0 ∧
      derivativeMatrix.rows ≤ s.m_PredictedJacobianProducts.length) :
    (GetCurrentDerivative s derivativeMatrix).length = derivativeMatrix.rows ∧
    ∀ j, j < derivativeMatrix.rows →
      (s.m_MarginalEstimation = false →
        (GetCurrentDerivative s derivativeMatrix).getD j 0
          = 2 * s.m_B0Value
              * (∑ i ∈ Finset.range derivativeMatrix.cols, derivativeMatrix.get j i)
              / s.m_SigmaSquare) ∧
      (s.m_MarginalEstimation = true →
        (GetCurrentDerivative s derivativeMatrix).getD j 0
          = 2 * (s.m_PredictedJacobianProducts.getD j 0 / s.m_PredictedSquaredNorm
              + ((derivativeMatrix.cols : ℚ) + 1) * s.m_B0Value
                  * (∑ i ∈ Finset.range derivativeMatrix.cols, derivativeMatrix.get j i)
                / ((derivativeMatrix.cols : ℚ) * s.m_SigmaSquare))) := by
  have hbody : GetCurrentDerivative s derivativeMatrix
      = forLoop derivativeMatrix.rows
          (fun derivative j => derivative.set j
            (if s.m_MarginalEstimation = false then
              2 * s.m_B0Value
                * (∑ i ∈ Finset.range derivativeMatrix.cols, derivativeMatrix.get j i)
                / s.m_SigmaSquare
            else
              2 * (s.m_PredictedJacobianProducts.getD j 0 / s.m_PredictedSquaredNorm
                + ((derivativeMatrix.cols : ℚ) + 1) * s.m_B0Value
                    * (∑ i ∈ Finset.range derivativeMatrix.cols, derivativeMatrix.get j i)
                  / ((derivativeMatrix.cols : ℚ) * s.m_SigmaSquare))))
          (List.replicate derivativeMatrix.rows 0) := by
    unfold GetCurrentDerivative
    simp only [forLoop_add, zero_add]
    cases s.m_MarginalEstimation <;> simp
  rw [hbody, forLoop_set_all _ _ _ (List.length_replicate _ _)]
  refine ⟨by simp, ?_⟩
  intro j hj
  rw [getD_map_range _ _ _ hj]
  constructor
  · intro h
    rw [if_pos h]
  · intro h
    rw [if_neg (by simp [h])]

/-- Witness of C6: the `1 x 2` matrix `[1/2, 1]` (row sum `3/2`). In the conditional regime,
with the state left by `GetValues` at `[1]` on the observations `1` and `2` (`b0 = 3/2`,
`sigma^2 = 1/4`), the gradient is `2 * (3/2) * (3/2) / (1/4) = 18`; in the marginal regime,
with `b0 = 3/2`, `sigma^2 = 1/4`, `sum predicted^2 = 2` and the stored product `2`, it is
`2 * (2/2 + 3 * (3/2) * (3/2) / (2 * (1/4))) = 29`. -/
theorem GetCurrentDerivative_formulas_witness :
    ((GetCurrentDerivative (GetValues linearModel noisyCost [1]).1
        ⟨1, 2, [1 / 2, 1]⟩).getD 0 0
      = 2 * (GetValues linearModel noisyCost [1]).1.m_B0Value
          * (∑ i ∈ Finset.range 2, (⟨1, 2, [1 / 2, 1]⟩ : VnlMatrix).get 0 i)
          / (GetValues linearModel noisyCost [1]).1.m_SigmaSquare ∧
      (GetCurrentDerivative (GetValues linearModel noisyCost [1]).1
        ⟨1, 2, [1 / 2, 1]⟩).getD 0 0 = 18) ∧
    ((GetCurrentDerivative marginalEvaluatedCost ⟨1, 2, [1 / 2, 1]⟩).getD 0 0
      = 2 * (marginalEvaluatedCost.m_PredictedJacobianProducts.getD 0 0
            / marginalEvaluatedCost.m_PredictedSquaredNorm
          + (((2 : ℕ) : ℚ) + 1) * marginalEvaluatedCost.m_B0Value
              * (∑ i ∈ Finset.range 2, (⟨1, 2, [1 / 2, 1]⟩ : VnlMatrix).get 0 i)
            / (((2 : ℕ) : ℚ) * marginalEvaluatedCost.m_SigmaSquare)) ∧
      (GetCurrentDerivative marginalEvaluatedCost ⟨1, 2, [1 / 2, 1]⟩).getD 0 0 = 29) :=
  ⟨⟨((GetCurrentDerivative_formulas (GetValues linearModel noisyCost [1]).1
      ⟨1, 2, [1 / 2, 1]⟩ rfl (by decide!) (fun h => absurd h (by decide!))).2 0
      (by decide)).1 (by decide!), by decide!⟩,
   ⟨((GetCurrentDerivative_formulas marginalEvaluatedCost
      ⟨1, 2, [1 / 2, 1]⟩ rfl (by decide!)
      (fun _ => ⟨by decide, by decide!, by decide⟩)).2 0
      (by decide)).2 (by decide!), by decide!⟩⟩

/-- C7: in the conditional regime `GetCurrentCostValue` returns
`N * (1 + log(2 * pi * sigma^2))`, `N` being the number of residuals and `sigma^2` the stored
variance; for `N = 1` and `sigma^2 = 1` this is `1 + log(2 * pi)`. -/
theorem GetCurrentCostValue_conditional (cm : CMath) (s : GaussianMCMCost)
    (hm : s.m_MarginalEstimation = false) (hN : s.m_Residuals.length < 2 ^ 32) :
    GetCurrentCostValue cm s
      = (s.m_Residuals.length : ℚ) * (1 + cm.log (2 * cm.M_PI * s.m_SigmaSquare)) ∧
    (s.m_Residuals.length = 1 → s.m_SigmaSquare = 1 →
      GetCurrentCostValue cm s = 1 + cm.log (2 * cm.M_PI)) := by
  have h : GetCurrentCostValue cm s
      = (s.m_Residuals.length : ℚ) * (1 + cm.log (2 * cm.M_PI * s.m_SigmaSquare)) := by
    simp [GetCurrentCostValue, hm, toUInt_of_lt hN]
  refine ⟨h, ?_⟩
  intro h1 h2
  rw [h, h1, h2]
  simp

/-- Witness of C7: one residual and a stored variance of `1`. -/
theorem GetCurrentCostValue_conditional_witness :
    GetCurrentCostValue cmathStandIn singleCost
      = 1 + cmathStandIn.log (2 * cmathStandIn.M_PI) :=
  (GetCurrentCostValue_conditional cmathStandIn singleCost (by decide) (by decide)).2
    (by decide) (by decide!)

/-! ## Theorems on BoundedLevenbergMarquardtOptimizer -/

open BoundedLevenbergMarquardtOptimizer

/-- C9: in a run of `StartOptimization`, whatever the external collaborators return, every
pass of the main loop either accepts its candidate, whose squared residual norm is at most
the current cost before the pass and becomes the current cost and the current point, or
rejects it and keeps the current cost and point; the current cost never exceeds the cost at
the initial point; and a run that returns does so with a current cost at most the cost at
the initial point and at a position that is the initial point or an accepted candidate. -/
theorem StartOptimization_monotone {σ : Type} (ext : Externals) (cf : CostFunction σ)
    (o : BoundedLevenbergMarquardtOptimizer σ) (fuel : Nat) :
    (∀ st0 a b, initialise ext cf o = .ready st0 → Reachable ext cf st0 a →
      a.stopConditionReached = false → iteration ext cf a = .ok b →
      (b.rejectedStep = false →
        squaredNorm b.newResidualValues ≤ a.members.m_CurrentValue ∧
        b.members.m_CurrentValue = squaredNorm b.newResidualValues ∧
        b.oldParameters = b.parameters) ∧
      (b.rejectedStep = true →
        a.members.m_CurrentValue < squaredNorm b.newResidualValues ∧
        b.members.m_CurrentValue = a.members.m_CurrentValue ∧
        b.oldParameters = a.oldParameters) ∧
      b.members.m_CurrentValue ≤ a.members.m_CurrentValue ∧
      b.members.m_CurrentValue ≤ st0.members.m_CurrentValue) ∧
    (∀ x v, (StartOptimization ext cf o fuel).position = some x →
      (StartOptimization ext cf o fuel).value = some v →
      ∃ residuals, (cf.GetValue o.m_CostFunction o.m_InitialPosition).2 = .ok residuals ∧
        v ≤ squaredNorm residuals ∧
        (x = o.m_InitialPosition ∨
          ∃ st0 a b, initialise ext cf o = .ready st0 ∧ Reachable ext cf st0 a ∧
            a.stopConditionReached = false ∧ iteration ext cf a = .ok b ∧
            b.rejectedStep = false ∧
            squaredNorm b.newResidualValues ≤ a.members.m_CurrentValue ∧
            x = b.parameters)) := by
  constructor
  · intro st0 a b _ ha hstop hab
    obtain ⟨_, _, _, hcost, _⟩ :=
      reachable_invariant ext cf st0 b (Reachable.pass a b ha hstop hab)
    obtain ⟨_, _, _, hcosta, _⟩ := reachable_invariant ext cf st0 a ha
    obtain ⟨_, _, _, _, _, _, _, irej, iacc, irejd, _⟩ := iteration_spec ext cf a b hab
    have hacc : b.rejectedStep = false →
        squaredNorm b.newResidualValues ≤ a.members.m_CurrentValue := by
      intro hr
      rw [hr] at irej
      exact not_lt.mp (of_decide_eq_false irej.symm)
    have hrej : b.rejectedStep = true →
        a.members.m_CurrentValue < squaredNorm b.newResidualValues := by
      intro hr
      rw [hr] at irej
      exact of_decide_eq_true irej.symm
    refine ⟨fun hr => ⟨hacc hr, (iacc hr).2.1, (iacc hr).1⟩,
      fun hr => ⟨hrej hr, (irejd hr).2.1, (irejd hr).1⟩, ?_, hcost⟩
    cases hr : b.rejectedStep with
    | false =>
      rw [(iacc hr).2.1]
      exact hacc hr
    | true => rw [(irejd hr).2.1]
  · intro x v hx hv
    unfold StartOptimization at hx hv
    cases hi : initialise ext cf o with
    | threw e m =>
      rw [hi] at hx
      exact absurd hx (by simp [Outcome.position])
    | degenerate m =>
      rw [hi] at hx hv
      simp only [Outcome.position, Option.some.injEq] at hx
      simp only [Outcome.value, Option.some.injEq] at hv
      obtain ⟨hpos, hval, hcur⟩ := initialise_degenerate ext cf o m hi
      exact ⟨m.m_ResidualValues, hval, by rw [← hv, hcur], Or.inl (by rw [← hx, hpos])⟩
    | ready st0 =>
      rw [hi] at hx hv
      simp only at hx hv
      obtain ⟨hold, hval, hcur, _⟩ := initialise_ready ext cf o st0 hi
      cases hm : mainLoop ext cf fuel st0 with
      | threw e m =>
        rw [hm] at hx
        exact absurd hx (by simp [Outcome.position])
      | running r =>
        rw [hm] at hx
        exact absurd hx (by simp [Outcome.position])
      | returned m =>
        rw [hm] at hx hv
        simp only [Outcome.position, Option.some.injEq] at hx
        simp only [Outcome.value, Option.some.injEq] at hv
        obtain ⟨st', hreach, _, hm'⟩ :=
          mainLoop_returned ext cf st0 fuel st0 m Reachable.head hm
        obtain ⟨_, _, _, hcost, hpos⟩ := reachable_invariant ext cf st0 st' hreach
        subst hm'
        simp only at hx hv
        refine ⟨st0.members.m_ResidualValues, hval, ?_, ?_⟩
        · rw [← hv, ← hcur]
          exact hcost
        · rcases hpos with hp | ⟨a, b, ha, hstop, hab, hr, hle, hp⟩
          · exact Or.inl (by rw [← hx, hp, hold])
          · exact Or.inr ⟨st0, a, b, rfl, ha, hstop, hab, hr, hle, by rw [← hx, hp]⟩

/-- Witness of C9: on the identity residuals with the halving step, the run from `[1]`
(cost `1`) returns at the accepted candidate `[1/8]` with cost `1/64`. -/
theorem StartOptimization_monotone_witness :
    ∃ residuals, (identityCost.GetValue identityOptimizer.m_CostFunction
        identityOptimizer.m_InitialPosition).2 = .ok residuals ∧
      (1 / 64 : ℚ) ≤ squaredNorm residuals ∧
      ([1 / 8] = identityOptimizer.m_InitialPosition ∨
        ∃ st0 a b, initialise halvingExternals identityCost identityOptimizer = .ready st0 ∧
          Reachable halvingExternals identityCost st0 a ∧
          a.stopConditionReached = false ∧ iteration halvingExternals identityCost a = .ok b ∧
          b.rejectedStep = false ∧
          squaredNorm b.newResidualValues ≤ a.members.m_CurrentValue ∧
          [1 / 8] = b.parameters) :=
  (StartOptimization_monotone halvingExternals identityCost identityOptimizer 3).2
    [1 / 8] (1 / 64) (by decide!) (by decide!)

/-- C10, counterexample (scenario B): the initial point `[0.1, 0]` is above the upper bound
`0.05` of parameter `0`; the residuals and the Jacobian at it are zero, so the part before the
main loop ends at the `return` of line 57, no step is ever computed, and `StartOptimization`
returns the position `[0.1, 0]`, outside the bounds. -/
theorem StartOptimization_scenarioB_out_of_bounds :
    GaussianMCMCost.WellFormed scenarioBOptimizer.m_CostFunction ∧
    1 / 10000 ≤ scenarioBOptimizer.m_CostFunction.m_SigmaSquare ∧
    (StartOptimization zeroStepExternals (gaussianCostFunction GaussianMCMCost.linearModel)
      scenarioBOptimizer 100).position = some [1 / 10, 0] ∧
    ¬ ([1 / 10, 0] : List ℚ).getD 0 0 ≤ scenarioBOptimizer.m_UpperBounds.getD 0 0 ∧
    ¬ InBounds scenarioBOptimizer [1 / 10, 0] := by
  refine ⟨by decide, by decide!, by decide!, by decide!, by decide!⟩

/-- C10, amended: when every step `s` the bounded subproblem returns satisfies
`lower[i] - current[i] <= s[i] <= upper[i] - current[i]` (as an inequality between the
values themselves), a run of `StartOptimization` that returns does so at a position of the
initial length that is either the initial position, unchanged, or has every parameter
within its bounds; so it returns within the bounds whenever the initial position is within
them. With an iteration cap `M >= 2` the main loop ends (by a return or by an exception of
the cost function) within `M` passes. The sum `parameters += m_CurrentAddonVector` of such
a step stays within the bounds also when it is rounded, by any monotone rounding that leaves
the bounds as they are. -/
theorem StartOptimization_in_bounds {σ : Type} (ext : Externals) (cf : CostFunction σ)
    (o : BoundedLevenbergMarquardtOptimizer σ) (fuel : Nat)
    (hstep : ∀ st0 a b, initialise ext cf o = .ready st0 → Reachable ext cf st0 a →
      a.stopConditionReached = false → iteration ext cf a = .ok b →
      StepFeasible o a.oldParameters b.members.m_CurrentAddonVector) :
    (∀ x, (StartOptimization ext cf o fuel).position = some x →
      (x = o.m_InitialPosition ∨ InBounds o x) ∧ x.length = o.m_InitialPosition.length) ∧
    (InBounds o o.m_InitialPosition →
      ∀ x, (StartOptimization ext cf o fuel).position = some x → InBounds o x) ∧
    (2 ≤ o.m_NumberOfIterations → o.m_NumberOfIterations < 2 ^ 32 →
      o.m_NumberOfIterations ≤ fuel →
      ∀ st, StartOptimization ext cf o fuel ≠ .running st) ∧
    (∀ (fl : ℚ → ℚ) st0 a b, Monotone fl →
      (∀ i, i < a.oldParameters.length →
        fl (o.m_LowerBounds.getD i 0) = o.m_LowerBounds.getD i 0 ∧
        fl (o.m_UpperBounds.getD i 0) = o.m_UpperBounds.getD i 0) →
      initialise ext cf o = .ready st0 → Reachable ext cf st0 a →
      a.stopConditionReached = false → iteration ext cf a = .ok b →
      b.parameters = addVector a.oldParameters b.members.m_CurrentAddonVector ∧
      InBounds o (b.parameters.map fl)) := by
  have hmain : ∀ x, (StartOptimization ext cf o fuel).position = some x →
      (x = o.m_InitialPosition ∨ InBounds o x) ∧ x.length = o.m_InitialPosition.length := by
    intro x hx
    unfold StartOptimization at hx
    cases hi : initialise ext cf o with
    | threw e m =>
      rw [hi] at hx
      exact absurd hx (by simp [Outcome.position])
    | degenerate m =>
      rw [hi] at hx
      simp only [Outcome.position, Option.some.injEq] at hx
      obtain ⟨hpos, _⟩ := initialise_degenerate ext cf o m hi
      rw [← hx, hpos]
      exact ⟨Or.inl rfl, rfl⟩
    | ready st0 =>
      rw [hi] at hx
      simp only at hx
      obtain ⟨hold, _⟩ := initialise_ready ext cf o st0 hi
      cases hm : mainLoop ext cf fuel st0 with
      | threw e m =>
        rw [hm] at hx
        exact absurd hx (by simp [Outcome.position])
      | running r =>
        rw [hm] at hx
        exact absurd hx (by simp [Outcome.position])
      | returned m =>
        rw [hm] at hx
        simp only [Outcome.position, Option.some.injEq] at hx
        obtain ⟨st', hreach, _, hm'⟩ :=
          mainLoop_returned ext cf st0 fuel st0 m Reachable.head hm
        subst hm'
        simp only at hx
        obtain ⟨hin, hlen⟩ := reachable_inBounds ext cf o st0 st'
          (fun a b ha hs hab => hstep st0 a b hi ha hs hab) hreach
        rw [← hx]
        exact ⟨by rw [← hold]; exact hin, by rw [hlen, hold]⟩
  refine ⟨hmain, ?_, ?_, ?_⟩
  · intro hinit x hx
    rcases (hmain x hx).1 with h | h
    · rw [h]
      exact hinit
    · exact h
  · intro hM2 hM hfuel st
    unfold StartOptimization
    cases hi : initialise ext cf o with
    | threw e m => simp
    | degenerate m => simp
    | ready st0 =>
      simp only
      obtain ⟨_, _, _, _, _, hcap, _, hnum, _⟩ := initialise_ready ext cf o st0 hi
      exact mainLoop_not_running ext cf o.m_NumberOfIterations hM2 hM fuel st0 hcap
        (fun _ => by rw [hnum]; omega) (by rw [hnum]; exact hfuel) st
  · intro fl st0 a b hmono hfix hi ha hs hab
    obtain ⟨_, _, _, _, _, hpar, _⟩ := iteration_spec ext cf a b hab
    refine ⟨hpar, ?_⟩
    rw [hpar]
    exact inBounds_addVector_rounded o fl hmono _ _ hfix (hstep st0 a b hi ha hs hab)

/-- Witness of the amended C10: the identity residuals from `[1]` with bounds `[0, 3/4]`,
the bounded subproblem answering with the step that halves the residuals (`-1/2`, `-1/4`,
`-1/8`, each feasible): the initial position is above its upper bound, and the run returns
`[1/8]`, which is not the initial position and is within the bounds; it ends within the `3`
passes of its iteration cap; and the candidate of every pass, rounded to the nearest
`double`, is within the bounds. -/
theorem StartOptimization_in_bounds_witness :
    (StartOptimization halvingExternals identityCost tightOptimizer 3).position
      = some [1 / 8] ∧
    ¬ InBounds tightOptimizer tightOptimizer.m_InitialPosition ∧
    (([1 / 8] : List ℚ) = tightOptimizer.m_InitialPosition ∨ InBounds tightOptimizer [1 / 8]) ∧
    InBounds tightOptimizer [1 / 8] ∧
    (∀ st, StartOptimization halvingExternals identityCost tightOptimizer 3 ≠ .running st) ∧
    (∀ st0 a b, initialise halvingExternals identityCost tightOptimizer = .ready st0 →
      Reachable halvingExternals identityCost st0 a → a.stopConditionReached = false →
      iteration halvingExternals identityCost a = .ok b →
      InBounds tightOptimizer (b.parameters.map binary64.round)) :=
  ⟨by decide!, by decide!,
    ((StartOptimization_in_bounds halvingExternals identityCost tightOptimizer 3
      (stepFeasible_of_trace halvingExternals identityCost tightOptimizer 3
        (by decide!) (by decide!))).1 [1 / 8] (by decide!)).1,
    by decide!,
    (StartOptimization_in_bounds halvingExternals identityCost tightOptimizer 3
      (stepFeasible_of_trace halvingExternals identityCost tightOptimizer 3
        (by decide!) (by decide!))).2.2.1 (by decide) (by decide) (by decide),
    fun st0 a b hi ha hs hab =>
      ((StartOptimization_in_bounds halvingExternals identityCost tightOptimizer 3
        (stepFeasible_of_trace halvingExternals identityCost tightOptimizer 3
          (by decide!) (by decide!))).2.2.2 binary64.round st0 a b binary64.round_monotone
        (fun i _ => by
          have r0 : binary64.round 0 = 0 := by decide!
          have r1 : binary64.round (3 / 4) = 3 / 4 := by decide!
          rcases i with _ | i
          · exact ⟨r0, r1⟩
          · exact ⟨r0, r0⟩)
        hi ha hs hab).2⟩
/-! ## Further theorems on GaussianMCMCost and BoundedLevenbergMarquardtOptimizer -/

/-- C20, amended: after a successful evaluation on `N` measurements in an arithmetic that
rounds every operation with a relative error of at most `u`, `(N + 1) * u <= 1/32`, the
stored variance is the mean squared residual up to rounding: with `E = sum observed^2 + b0^2
* sum predicted^2` (exact sums, stored `b0`), `|N * sigma^2 - sum_i residual[i]^2| <=
(8 * N + 36) * u * E`, the sum of the squared residuals being the squared norm
`EvaluateCostFunctionAtParameters` computes; so `N * sigma^2 >= -(8 * N + 36) * u * E`; and
the residual vector is orthogonal to the predicted signals up to rounding:
`|sum_i residual[i] * predicted[i]| <= (2 * N + 7) * u * (|b0| * sum predicted^2 +
sum |observed * predicted|)`. In exact arithmetic (`u = 0`) these are the equalities
`N * sigma^2 = sum_i residual[i]^2`, `sigma^2 >= 0` and `sum_i residual[i] * predicted[i] =
0`. -/
theorem GetValuesRounded_variance_mean_square (fl : ℚ → ℚ) (u : ℚ) (mcm : MCMStructure)
    (s : GaussianMCMCost) (x residuals : List ℚ) (hfl : RoundsWithin fl u) (hu0 : 0 ≤ u)
    (hu : ((s.m_Gradients.length : ℚ) + 1) * u ≤ 1 / 32)
    (hwf : WellFormed s) (hx : x.length < 2 ^ 32)
    (hok : (GetValuesRounded fl mcm s x).2 = .ok residuals) :
    1 ≤ s.m_Gradients.length ∧
    (GetValuesRounded fl mcm s x).1.m_Residuals = residuals ∧
    (GetValuesRounded fl mcm s x).1.m_PredictedSignals
      = (List.range s.m_Gradients.length).map (predicted mcm s x) ∧
    |(s.m_Gradients.length : ℚ) * (GetValuesRounded fl mcm s x).1.m_SigmaSquare
        - squaredNorm residuals|
      ≤ (8 * (s.m_Gradients.length : ℚ) + 36) * u
        * (observedSquaredNorm s s.m_Gradients.length
          + (GetValuesRounded fl mcm s x).1.m_B0Value * (GetValuesRounded fl mcm s x).1.m_B0Value
            * predictedSquaredNorm mcm s x s.m_Gradients.length) ∧
    -((8 * (s.m_Gradients.length : ℚ) + 36) * u
        * (observedSquaredNorm s s.m_Gradients.length
          + (GetValuesRounded fl mcm s x).1.m_B0Value * (GetValuesRounded fl mcm s x).1.m_B0Value
            * predictedSquaredNorm mcm s x s.m_Gradients.length))
      ≤ (s.m_Gradients.length : ℚ) * (GetValuesRounded fl mcm s x).1.m_SigmaSquare ∧
    |∑ i ∈ Finset.range s.m_Gradients.length, residuals.getD i 0 * predicted mcm s x i|
      ≤ (2 * (s.m_Gradients.length : ℚ) + 7) * u
        * (|(GetValuesRounded fl mcm s x).1.m_B0Value|
            * predictedSquaredNorm mcm s x s.m_Gradients.length
          + absoluteProductSum mcm s x) ∧
    (u = 0 →
      (s.m_Gradients.length : ℚ) * (GetValuesRounded fl mcm s x).1.m_SigmaSquare
        = squaredNorm residuals ∧
      0 ≤ (GetValuesRounded fl mcm s x).1.m_SigmaSquare ∧
      ∑ i ∈ Finset.range s.m_Gradients.length, residuals.getD i 0 * predicted mcm s x i = 0) := by
  obtain ⟨h1, _, hres, heq⟩ := GetValuesRounded_ok_inv fl mcm s x residuals hwf hx hok
  have hn0 : (0 : ℚ) ≤ (s.m_Gradients.length : ℚ) := Nat.cast_nonneg _
  have hu32 : u ≤ 1 / 32 := by nlinarith
  obtain ⟨hPhpos, hN⟩ := predictedSquaredNormRounded_pos fl u hfl (by linarith) mcm s x h1
  have hn1 : (1 : ℚ) ≤ (s.m_Gradients.length : ℚ) := by exact_mod_cast hN
  obtain ⟨hOh, hPh, hQh⟩ := rounded_sums_error fl u hfl hu0 mcm s x hu
  rw [heq]
  subst hres
  show _ ∧ _ ∧ _ ∧
    |(s.m_Gradients.length : ℚ) * varianceRounded fl mcm s x
        - squaredNorm (residualVectorRounded fl mcm s x)| ≤
      (8 * (s.m_Gradients.length : ℚ) + 36) * u
        * (observedSquaredNorm s s.m_Gradients.length
          + amplitudeRounded fl mcm s x * amplitudeRounded fl mcm s x
            * predictedSquaredNorm mcm s x s.m_Gradients.length) ∧
    -((8 * (s.m_Gradients.length : ℚ) + 36) * u
        * (observedSquaredNorm s s.m_Gradients.length
          + amplitudeRounded fl mcm s x * amplitudeRounded fl mcm s x
            * predictedSquaredNorm mcm s x s.m_Gradients.length))
      ≤ (s.m_Gradients.length : ℚ) * varianceRounded fl mcm s x ∧
    |∑ i ∈ Finset.range s.m_Gradients.length,
        (residualVectorRounded fl mcm s x).getD i 0 * predicted mcm s x i|
      ≤ (2 * (s.m_Gradients.length : ℚ) + 7) * u
        * (|amplitudeRounded fl mcm s x| * predictedSquaredNorm mcm s x s.m_Gradients.length
          + absoluteProductSum mcm s x) ∧
    (u = 0 →
      (s.m_Gradients.length : ℚ) * varianceRounded fl mcm s x
        = squaredNorm (residualVectorRounded fl mcm s x) ∧
      0 ≤ varianceRounded fl mcm s x ∧
      ∑ i ∈ Finset.range s.m_Gradients.length,
        (residualVectorRounded fl mcm s x).getD i 0 * predicted mcm s x i = 0)
  set n : ℚ := (s.m_Gradients.length : ℚ) with hn
  set b := amplitudeRounded fl mcm s x with hb
  set P := predictedSquaredNorm mcm s x s.m_Gradients.length with hP
  set O := observedSquaredNorm s s.m_Gradients.length with hO
  set Q := observedPredictedProduct mcm s x s.m_Gradients.length with hQ
  set A := absoluteProductSum mcm s x with hA
  set a : ℚ := 2 * (n + 1) * u with ha
  have ha16 : a ≤ 1 / 16 := by rw [ha]; linarith
  have hP0 : 0 ≤ P := Finset.sum_nonneg (fun i _ => mul_self_nonneg _)
  have hO0 : 0 ≤ O := Finset.sum_nonneg (fun i _ => mul_self_nonneg _)
  have hA0 : 0 ≤ A := Finset.sum_nonneg (fun i _ => abs_nonneg _)
  have hbb : 0 ≤ b * b := mul_self_nonneg b
  have hE0 : 0 ≤ O + b * b * P := add_nonneg hO0 (mul_nonneg hbb hP0)
  -- the squared norm is the sum of the squared rounded residuals
  have hsq : squaredNorm (residualVectorRounded fl mcm s x)
      = ∑ i ∈ Finset.range s.m_Gradients.length,
          fl (fl (b * predicted mcm s x i) - observed s i)
            * fl (fl (b * predicted mcm s x i) - observed s i) := by
    rw [squaredNorm_eq_sum _ (by rw [length_residualVectorRounded]; exact hwf.2.2.2),
      length_residualVectorRounded]
    apply Finset.sum_congr rfl
    intro i hi
    rw [getD_residualVectorRounded fl mcm s x i (Finset.mem_range.mp hi)]
  have horthsum : ∑ i ∈ Finset.range s.m_Gradients.length,
      (residualVectorRounded fl mcm s x).getD i 0 * predicted mcm s x i
      = ∑ i ∈ Finset.range s.m_Gradients.length,
          fl (fl (b * predicted mcm s x i) - observed s i) * predicted mcm s x i := by
    apply Finset.sum_congr rfl
    intro i hi
    rw [getD_residualVectorRounded fl mcm s x i (Finset.mem_range.mp hi)]
  -- F1
  have F1 := rounded_variance_error hfl hu0 hu32 a b O (observedSquaredNormRounded fl s) P
    (predictedSquaredNormRounded fl mcm s x) n ha16 hO0 hP0 hn1 hOh hPh
  -- F2
  have F2 := amplitude_equation_error u a b P (predictedSquaredNormRounded fl mcm s x) Q
    (observedPredictedProductRounded fl mcm s x) A hu0 hu32 ha16 hP0 hA0 hPh hQh
    (rounded_quotient_error hfl _ _ hPhpos)
  -- F3
  have F3 : ∀ i, |fl (fl (b * predicted mcm s x i) - observed s i)
      - (b * predicted mcm s x i - observed s i)|
      ≤ 3 * u * (|b * predicted mcm s x i| + |observed s i|) :=
    fun i => rounded_residual_error hfl hu0 (by linarith) b _ _
  -- F4
  have F4 : ∑ i ∈ Finset.range s.m_Gradients.length,
      (b * predicted mcm s x i - observed s i) * (b * predicted mcm s x i - observed s i)
      = O - b * b * P + 2 * b * (b * P - Q) := by
    have e : ∀ i, (b * predicted mcm s x i - observed s i)
        * (b * predicted mcm s x i - observed s i)
        = b * b * (predicted mcm s x i * predicted mcm s x i)
          - 2 * b * (observed s i * predicted mcm s x i) + observed s i * observed s i := by
      intro i
      ring
    simp only [e]
    rw [Finset.sum_add_distrib, Finset.sum_sub_distrib, ← Finset.mul_sum, ← Finset.mul_sum]
    show b * b * P - 2 * b * Q + O = _
    ring
  -- F5
  have F5 : |∑ i ∈ Finset.range s.m_Gradients.length,
        fl (fl (b * predicted mcm s x i) - observed s i)
          * fl (fl (b * predicted mcm s x i) - observed s i)
      - ∑ i ∈ Finset.range s.m_Gradients.length,
        (b * predicted mcm s x i - observed s i) * (b * predicted mcm s x i - observed s i)|
      ≤ 14 * u * (b * b * P + O) := by
    rw [← Finset.sum_sub_distrib]
    refine le_trans (Finset.abs_sum_le_sum_abs _ _) ?_
    have e : 14 * u * (b * b * P + O)
        = ∑ i ∈ Finset.range s.m_Gradients.length,
            14 * u * ((b * predicted mcm s x i) * (b * predicted mcm s x i)
              + observed s i * observed s i) := by
      rw [← Finset.mul_sum, Finset.sum_add_distrib]
      have e1 : ∑ i ∈ Finset.range s.m_Gradients.length,
          (b * predicted mcm s x i) * (b * predicted mcm s x i) = b * b * P := by
        rw [hP, predictedSquaredNorm, Finset.mul_sum]
        apply Finset.sum_congr rfl
        intro i _
        ring
      rw [e1]
      rfl
    rw [e]
    apply Finset.sum_le_sum
    intro i _
    exact rounded_square_error u _ _ _ _ hu0 hu32 rfl (F3 i)
  -- F6
  have F6 : 2 * (|b| * A) ≤ b * b * P + O := by
    have e : 2 * (|b| * A) = ∑ i ∈ Finset.range s.m_Gradients.length,
        2 * (|b * predicted mcm s x i| * |observed s i|) := by
      rw [hA, absoluteProductSum, Finset.mul_sum, Finset.mul_sum]
      apply Finset.sum_congr rfl
      intro i _
      rw [abs_mul, abs_mul]
      ring
    have e2 : b * b * P + O = ∑ i ∈ Finset.range s.m_Gradients.length,
        ((b * predicted mcm s x i) * (b * predicted mcm s x i)
          + observed s i * observed s i) := by
      rw [Finset.sum_add_distrib]
      have e1 : ∑ i ∈ Finset.range s.m_Gradients.length,
          (b * predicted mcm s x i) * (b * predicted mcm s x i) = b * b * P := by
        rw [hP, predictedSquaredNorm, Finset.mul_sum]
        apply Finset.sum_congr rfl
        intro i _
        ring
      rw [e1]
      rfl
    rw [e, e2]
    apply Finset.sum_le_sum
    intro i _
    exact two_mul_abs_le _ _
  -- F7: orthogonality of the exact residuals
  have F7 : ∑ i ∈ Finset.range s.m_Gradients.length,
      (b * predicted mcm s x i - observed s i) * predicted mcm s x i = b * P - Q := by
    have e : ∀ i, (b * predicted mcm s x i - observed s i) * predicted mcm s x i
        = b * (predicted mcm s x i * predicted mcm s x i)
          - observed s i * predicted mcm s x i := by
      intro i
      ring
    simp only [e]
    rw [Finset.sum_sub_distrib, ← Finset.mul_sum]
    rfl
  have F8 : |∑ i ∈ Finset.range s.m_Gradients.length,
        fl (fl (b * predicted mcm s x i) - observed s i) * predicted mcm s x i
      - ∑ i ∈ Finset.range s.m_Gradients.length,
        (b * predicted mcm s x i - observed s i) * predicted mcm s x i|
      ≤ 3 * u * (|b| * P + A) := by
    rw [← Finset.sum_sub_distrib]
    refine le_trans (Finset.abs_sum_le_sum_abs _ _) ?_
    have e : 3 * u * (|b| * P + A)
        = ∑ i ∈ Finset.range s.m_Gradients.length,
            3 * u * (|b * predicted mcm s x i| + |observed s i|) * |predicted mcm s x i| := by
      rw [hP, hA, predictedSquaredNorm, absoluteProductSum, Finset.mul_sum,
        ← Finset.sum_add_distrib, Finset.mul_sum]
      apply Finset.sum_congr rfl
      intro i _
      rw [abs_mul, abs_mul, ← abs_mul_abs_self (predicted mcm s x i)]
      ring
    rw [e]
    apply Finset.sum_le_sum
    intro i _
    rw [← sub_mul, abs_mul]
    exact mul_le_mul_of_nonneg_right (F3 i) (abs_nonneg _)
  -- assembly
  have hB0 : 0 ≤ |b| := abs_nonneg b
  have hBB : |b| * |b| = b * b := abs_mul_abs_self b
  have G1 : |2 * b * (b * P - Q)| ≤ 3 * (a + 2 * u) * (O + b * b * P) := by
    rw [abs_mul, abs_mul, abs_of_pos (by norm_num : (0 : ℚ) < 2)]
    have h1 : 2 * |b| * |b * P - Q| ≤ 2 * |b| * ((a + 2 * u) * (|b| * P + A)) :=
      mul_le_mul_of_nonneg_left F2 (by positivity)
    have ha0 : 0 ≤ a := by rw [ha]; positivity
    have h2 : 2 * |b| * ((a + 2 * u) * (|b| * P + A))
        = (a + 2 * u) * (2 * (b * b * P) + 2 * (|b| * A)) := by
      rw [← hBB]
      ring
    have h3 : (a + 2 * u) * (2 * (b * b * P) + 2 * (|b| * A))
        ≤ (a + 2 * u) * (3 * (O + b * b * P)) :=
      mul_le_mul_of_nonneg_left (by linarith [mul_nonneg hbb hP0]) (by linarith)
    linarith
  have hmain : |n * varianceRounded fl mcm s x - squaredNorm (residualVectorRounded fl mcm s x)|
      ≤ (8 * n + 36) * u * (O + b * b * P) := by
    rw [hsq]
    have e : ∀ X Y : ℚ, n * varianceRounded fl mcm s x - X
        = (n * varianceRounded fl mcm s x - (O - b * b * P)) - 2 * b * (b * P - Q)
          - (X - Y) + (O - b * b * P + 2 * b * (b * P - Q) - Y) := by
      intro X Y
      ring
    rw [e _ (∑ i ∈ Finset.range s.m_Gradients.length,
      (b * predicted mcm s x i - observed s i) * (b * predicted mcm s x i - observed s i)),
      F4, sub_self, add_zero]
    have t1 := abs_sub ((n * varianceRounded fl mcm s x - (O - b * b * P))
      - 2 * b * (b * P - Q))
      (∑ i ∈ Finset.range s.m_Gradients.length,
        fl (fl (b * predicted mcm s x i) - observed s i)
          * fl (fl (b * predicted mcm s x i) - observed s i)
      - (O - b * b * P + 2 * b * (b * P - Q)))
    have t2 := abs_sub (n * varianceRounded fl mcm s x - (O - b * b * P))
      (2 * b * (b * P - Q))
    rw [F4] at F5
    have F1' : |n * varianceRounded fl mcm s x - (O - b * b * P)|
        ≤ (a + 8 * u) * (O + b * b * P) := F1
    have huE : 0 ≤ u * (O + b * b * P) := mul_nonneg hu0 hE0
    have e2 : (a + 8 * u) * (O + b * b * P) + 3 * (a + 2 * u) * (O + b * b * P)
        + 14 * u * (b * b * P + O) = (8 * n + 36) * u * (O + b * b * P) := by
      rw [ha]
      ring
    linarith
  have horth : |∑ i ∈ Finset.range s.m_Gradients.length,
        (residualVectorRounded fl mcm s x).getD i 0 * predicted mcm s x i|
      ≤ (2 * n + 7) * u * (|b| * P + A) := by
    rw [horthsum]
    rw [F7] at F8
    have t := abs_sub_abs_le_abs_sub (∑ i ∈ Finset.range s.m_Gradients.length,
        fl (fl (b * predicted mcm s x i) - observed s i) * predicted mcm s x i) (b * P - Q)
    have e2 : (a + 2 * u) * (|b| * P + A) + 3 * u * (|b| * P + A)
        = (2 * n + 7) * u * (|b| * P + A) := by
      rw [ha]
      ring
    linarith
  have hlow : -((8 * n + 36) * u * (O + b * b * P)) ≤ n * varianceRounded fl mcm s x := by
    have hs0 : 0 ≤ squaredNorm (residualVectorRounded fl mcm s x) := by
      rw [hsq]
      exact Finset.sum_nonneg (fun i _ => mul_self_nonneg _)
    have := (abs_le.mp hmain).1
    linarith
  refine ⟨hN, rfl, rfl, hmain, hlow, horth, ?_⟩
  intro hu
  rw [hu, mul_zero, zero_mul] at hmain hlow horth
  have hv : n * varianceRounded fl mcm s x = squaredNorm (residualVectorRounded fl mcm s x) :=
    sub_eq_zero.mp (abs_nonpos_iff.mp hmain)
  refine ⟨hv, ?_, abs_nonpos_iff.mp (by simpa using horth)⟩
  have hnn : 0 ≤ n * varianceRounded fl mcm s x := by linarith
  exact nonneg_of_mul_nonneg_right hnn (by linarith)

/-- C20, counterexample (scenario A in the arithmetic of `double`): at the parameters
`[0.03, 0]`, `0.03` being the `double` nearest to `3/100`, the evaluation succeeds with all
five residuals `0`, and the stored variance is negative (about `-7.1e-16`), so `N * sigma^2`
is not the sum of the squared residuals; at `[0.1, 0]` the evaluation succeeds with the
residuals `-2^-52`, `N * sigma^2` (about `3.6e-15`) is not the sum of the squared residuals
(about `2.5e-31`), and the residuals are not orthogonal to the predicted signals. -/
theorem GetValuesRounded_variance_negative :
    WellFormed scenarioCost ∧
    (GetValuesRounded binary64.round linearModel scenarioCost [binary64.round (3 / 100), 0]).2
      = .ok [0, 0, 0, 0, 0] ∧
    (GetValuesRounded binary64.round linearModel scenarioCost
      [binary64.round (3 / 100), 0]).1.m_SigmaSquare
      = -3602879701896397 / 5070602400912917605986812821504 ∧
    (GetValuesRounded binary64.round linearModel scenarioCost
      [binary64.round (3 / 100), 0]).1.m_SigmaSquare < 0 ∧
    (scenarioCost.m_Gradients.length : ℚ)
        * (GetValuesRounded binary64.round linearModel scenarioCost
            [binary64.round (3 / 100), 0]).1.m_SigmaSquare
      ≠ squaredNorm [0, 0, 0, 0, 0] ∧
    (GetValuesRounded binary64.round linearModel scenarioCost scenarioParameters).2
      = .ok [-1 / 2 ^ 52, -1 / 2 ^ 52, -1 / 2 ^ 52, -1 / 2 ^ 52, -1 / 2 ^ 52] ∧
    (scenarioCost.m_Gradients.length : ℚ)
        * (GetValuesRounded binary64.round linearModel scenarioCost
            scenarioParameters).1.m_SigmaSquare
      ≠ squaredNorm [-1 / 2 ^ 52, -1 / 2 ^ 52, -1 / 2 ^ 52, -1 / 2 ^ 52, -1 / 2 ^ 52] ∧
    ∑ i ∈ Finset.range scenarioCost.m_Gradients.length,
      ([-1 / 2 ^ 52, -1 / 2 ^ 52, -1 / 2 ^ 52, -1 / 2 ^ 52, -1 / 2 ^ 52] : List ℚ).getD i 0
        * predicted linearModel scenarioCost scenarioParameters i ≠ 0 := by
  refine ⟨by decide, by decide!, by decide!, by decide!, by decide!, by decide!, by decide!,
    by decide!⟩

/-- Witness of the amended C20 (scenario A in the arithmetic of `double`): at `[0.03, 0]`,
where the stored variance is about `-7.1e-16` and the residuals are `0`, five times the
variance is within `76 * 2^-53 * E` of the sum of the squared residuals. -/
theorem GetValuesRounded_variance_mean_square_witness :
    |(scenarioCost.m_Gradients.length : ℚ)
        * (GetValuesRounded binary64.round linearModel scenarioCost
            [binary64.round (3 / 100), 0]).1.m_SigmaSquare
        - squaredNorm [0, 0, 0, 0, 0]|
      ≤ (8 * (scenarioCost.m_Gradients.length : ℚ) + 36) * binary64.unitRoundoff
        * (observedSquaredNorm scenarioCost scenarioCost.m_Gradients.length
          + (GetValuesRounded binary64.round linearModel scenarioCost
              [binary64.round (3 / 100), 0]).1.m_B0Value
            * (GetValuesRounded binary64.round linearModel scenarioCost
              [binary64.round (3 / 100), 0]).1.m_B0Value
            * predictedSquaredNorm linearModel scenarioCost [binary64.round (3 / 100), 0]
                scenarioCost.m_Gradients.length) :=
  (GetValuesRounded_variance_mean_square binary64.round binary64.unitRoundoff linearModel
    scenarioCost [binary64.round (3 / 100), 0] [0, 0, 0, 0, 0] binary64.roundsWithin_round
    (by decide!) (by decide!) (by decide) (by decide) (by decide!)).2.2.2.1

/-- C12: with a current cost that is not `0` (the divisor of the relative decrease),
`CheckConditions` returns `true` exactly when the iteration count equals
`m_NumberOfIterations`, or `Delta < valueTolerance * ||D.x||` with
`||D.x|| = sqrt(sum_i (D[i] * x[i])^2)`, or the relative decrease
`r = (currentCost - newCost) / currentCost` satisfies `0 <= r < costTolerance`; so with
`r < 0` and neither of the first two criteria it returns `false`. -/
theorem CheckConditions_iff {σ : Type} (cm : CMath) (o : BoundedLevenbergMarquardtOptimizer σ)
    (numIterations : Nat) (newParams dValues : List ℚ) (newCostValue : ℚ)
    (_hcur : o.m_CurrentValue ≠ 0) :
    (CheckConditions cm o numIterations newParams dValues newCostValue = true ↔
      (numIterations = o.m_NumberOfIterations ∨
        o.m_DeltaParameter < o.m_ValueTolerance
          * cm.sqrt (∑ i ∈ Finset.range newParams.length,
              (dValues.getD i 0 * newParams.getD i 0) ^ 2) ∨
        (0 ≤ (o.m_CurrentValue - newCostValue) / o.m_CurrentValue ∧
          (o.m_CurrentValue - newCostValue) / o.m_CurrentValue < o.m_CostTolerance))) ∧
    ((o.m_CurrentValue - newCostValue) / o.m_CurrentValue < 0 →
      numIterations ≠ o.m_NumberOfIterations →
      ¬ o.m_DeltaParameter < o.m_ValueTolerance
          * cm.sqrt (∑ i ∈ Finset.range newParams.length,
              (dValues.getD i 0 * newParams.getD i 0) ^ 2) →
      CheckConditions cm o numIterations newParams dValues newCostValue = false) := by
  have hsum : forLoop newParams.length
      (fun acc i => acc + (dValues.getD i 0 * newParams.getD i 0)
        * (dValues.getD i 0 * newParams.getD i 0)) (0 : ℚ)
      = ∑ i ∈ Finset.range newParams.length, (dValues.getD i 0 * newParams.getD i 0) ^ 2 := by
    rw [forLoop_add, zero_add]
    apply Finset.sum_congr rfl
    intro i _
    ring
  have hiff : CheckConditions cm o numIterations newParams dValues newCostValue = true ↔
      (numIterations = o.m_NumberOfIterations ∨
        o.m_DeltaParameter < o.m_ValueTolerance
          * cm.sqrt (∑ i ∈ Finset.range newParams.length,
              (dValues.getD i 0 * newParams.getD i 0) ^ 2) ∨
        (0 ≤ (o.m_CurrentValue - newCostValue) / o.m_CurrentValue ∧
          (o.m_CurrentValue - newCostValue) / o.m_CurrentValue < o.m_CostTolerance)) := by
    unfold CheckConditions
    simp only [hsum]
    by_cases h1 : numIterations = o.m_NumberOfIterations
    · rw [if_pos h1]
      exact iff_of_true rfl (Or.inl h1)
    · rw [if_neg h1]
      by_cases h2 : o.m_DeltaParameter < o.m_ValueTolerance
          * cm.sqrt (∑ i ∈ Finset.range newParams.length,
              (dValues.getD i 0 * newParams.getD i 0) ^ 2)
      · rw [if_pos h2]
        exact iff_of_true rfl (Or.inr (Or.inl h2))
      · rw [if_neg h2]
        by_cases h3 : (o.m_CurrentValue - newCostValue) / o.m_CurrentValue ≥ 0 ∧
            (o.m_CurrentValue - newCostValue) / o.m_CurrentValue < o.m_CostTolerance
        · rw [if_pos h3]
          exact iff_of_true rfl (Or.inr (Or.inr h3))
        · rw [if_neg h3]
          refine iff_of_false (by simp) ?_
          rintro (h | h | h)
          · exact h1 h
          · exact h2 h
          · exact h3 h
  refine ⟨hiff, ?_⟩
  intro hr h1 h2
  cases hc : CheckConditions cm o numIterations newParams dValues newCostValue with
  | false => rfl
  | true =>
    rcases hiff.mp hc with h | h | h
    · exact absurd h h1
    · exact absurd h h2
    · exact absurd h.1 (not_le.mpr hr)

/-- Witness of C12: a cost going up from `1` to `2` (`r = -1`) at iteration `2` of at most
`3`, with `Delta = 1` and a zero value tolerance: no criterion holds and the result is
`false`; with a cost going down from `1` to `1 - 1/2000000` (`r = 1/2000000`, below the cost
tolerance `1/1000000`) the third criterion holds and the result is `true`. -/
theorem CheckConditions_iff_witness :
    CheckConditions cmathStandIn
      { identityOptimizer with m_CurrentValue := 1, m_DeltaParameter := 1,
                               m_ValueTolerance := 0 } 2 [1] [1] 2 = false ∧
    CheckConditions cmathStandIn
      { identityOptimizer with m_CurrentValue := 1, m_DeltaParameter := 1,
                               m_ValueTolerance := 0 } 2 [1] [1] (1 - 1 / 2000000) = true :=
  ⟨(CheckConditions_iff cmathStandIn
    { identityOptimizer with m_CurrentValue := 1, m_DeltaParameter := 1,
                             m_ValueTolerance := 0 } 2 [1] [1] 2 (by decide!)).2
    (by decide!) (by decide) (by decide!),
   (CheckConditions_iff cmathStandIn
    { identityOptimizer with m_CurrentValue := 1, m_DeltaParameter := 1,
                             m_ValueTolerance := 0 } 2 [1] [1] (1 - 1 / 2000000)
      (by decide!)).1.mpr (Or.inr (Or.inr (by decide!)))⟩

/-- C15: in one pass of the main loop with a current cost `> 0`, let `ratio` be
`(1 - candidateCost/currentCost) / (1 - predictedNorm^2/currentCost)` when the step is not
rejected and the denominator is positive, and `0` otherwise, `predictedNorm^2` being
`|| f + Jp ||^2`. Then the new `Delta` is `2 * Delta` when `ratio >= 0.75`, is `mu * Delta`
with `0.1 <= mu <= 0.5` when `ratio <= 0.25` (`mu = 0.1` when `candidateCost >
100 * currentCost`, `mu = 0.5` when the step is not rejected), and is `Delta` when
`0.25 < ratio < 0.75`. -/
theorem iteration_radius {σ : Type} (ext : Externals) (cf : CostFunction σ) (a b : LoopState σ)
    (hab : iteration ext cf a = .ok b) (hc : 0 < a.members.m_CurrentValue) :
    ∃ predictedNormSq ratio mu : ℚ,
      predictedNormSq
        = ∑ i ∈ Finset.range a.numResiduals,
            (a.members.m_ResidualValues.getD i 0
              + ∑ j ∈ Finset.range a.nbParams,
                  a.derivativeMatrixCopy.get i j * b.members.m_CurrentAddonVector.getD j 0) ^ 2 ∧
      ratio
        = (if ¬ a.members.m_CurrentValue < squaredNorm b.newResidualValues ∧
              0 < 1 - predictedNormSq / a.members.m_CurrentValue then
            (1 - squaredNorm b.newResidualValues / a.members.m_CurrentValue)
              / (1 - predictedNormSq / a.members.m_CurrentValue)
          else 0) ∧
      1 / 10 ≤ mu ∧ mu ≤ 1 / 2 ∧
      (100 * a.members.m_CurrentValue < squaredNorm b.newResidualValues → mu = 1 / 10) ∧
      (¬ a.members.m_CurrentValue < squaredNorm b.newResidualValues → mu = 1 / 2) ∧
      (3 / 4 ≤ ratio → b.members.m_DeltaParameter = 2 * a.members.m_DeltaParameter) ∧
      (ratio ≤ 1 / 4 → b.members.m_DeltaParameter = mu * a.members.m_DeltaParameter) ∧
      (1 / 4 < ratio → ratio < 3 / 4 →
        b.members.m_DeltaParameter = a.members.m_DeltaParameter) := by
  obtain ⟨_, _, _, _, _, _, _, irej, _⟩ := iteration_spec ext cf a b hab
  have hd := iteration_delta ext cf a b hab
  rw [fjpNorm_eq] at hd
  refine ⟨_, _, shrinkFactor a.derivativeMatrixCopy a.members.m_ResidualValues
      b.members.m_CurrentAddonVector a.nbParams a.numResiduals
      (squaredNorm b.newResidualValues) a.members.m_CurrentValue, rfl, rfl,
    (shrinkFactor_bounds _ _ _ _ _ _ _).1, (shrinkFactor_bounds _ _ _ _ _ _ _).2,
    shrinkFactor_far _ _ _ _ _ _ _, shrinkFactor_accepted _ _ _ _ _ _ _ hc, ?_⟩
  rw [hd, irej, acceptRatio_eq]
  exact adaptDelta_cases _ _ _
/-- Witness of C15: the pass from `identityLoopState` with the halving step: the candidate
cost `1/4` and the predicted squared norm `1/4` give the ratio `1`, and the radius doubles. -/
theorem iteration_radius_witness :
    identityNextState.members.m_DeltaParameter
      = 2 * identityLoopState.members.m_DeltaParameter := by
  obtain ⟨pn, r, mu, hpn, hr, _, _, _, _, h2, _, _⟩ :=
    iteration_radius halvingExternals identityCost identityLoopState identityNextState
      (by decide!) (by decide!)
  apply h2
  rw [hr, hpn]
  decide!

/-- C16, counterexample: on the observations `1` and `2` under `predicted(x) = x[0]`, after
`GetValues` at `[1]` (`b0 = 3/2`, gradient `[1]`), `GetDerivativeMatrix` returns the entry
`derivative(0,0) = 1/2`, the residual of measurement `0`, and not `b0 * gradient_0[0] = 3/2`. -/
theorem GetDerivativeMatrix_not_amplitude_gradient :
    (GetValues linearModel noisyCost [1]).2 = .ok [1 / 2, -1 / 2] ∧
    (GetDerivativeMatrix linearModel (GetValues linearModel noisyCost [1]).1 [1]
      (VnlMatrix.zeros 0 0)).2.2 = .ok () ∧
    (GetDerivativeMatrix linearModel (GetValues linearModel noisyCost [1]).1 [1]
      (VnlMatrix.zeros 0 0)).2.1.get 0 0 = 1 / 2 ∧
    (GetValues linearModel noisyCost [1]).1.m_B0Value
      * (gradient linearModel noisyCost [1] 0).getD 0 0 = 3 / 2 := by
  refine ⟨by decide!, by decide!, by decide!, by decide!⟩

/-- C16, amended: in the conditional regime, `GetDerivativeMatrix` at `x` right after a
successful `GetValues` at `x` returns the matrix with
`derivative(j,i) = (b0 * predicted[i] - observed[i]) * gradient_i[j]
= residual[i] * gradient_i[j]`: the gradient of the predicted signal scaled by the residual
of the measurement, not by `b0`. -/
theorem GetDerivativeMatrix_residual_gradient (mcm : MCMStructure) (s : GaussianMCMCost)
    (x residuals : List ℚ) (derivative : VnlMatrix) (hwf : WellFormed s)
    (hm : s.m_MarginalEstimation = false) (hP : 1 ≤ x.length) (hx : x.length < 2 ^ 32)
    (hok : (GetValues mcm s x).2 = .ok residuals) :
    (GetDerivativeMatrix mcm (GetValues mcm s x).1 x derivative).2.2 = .ok () ∧
    ∀ j i, j < x.length → i < s.m_ObservedSignals.length →
      (GetDerivativeMatrix mcm (GetValues mcm s x).1 x derivative).2.1.get j i
        = ((GetValues mcm s x).1.m_B0Value * predicted mcm s x i - observed s i)
          * (gradient mcm s x i).getD j 0 ∧
      (GetDerivativeMatrix mcm (GetValues mcm s x).1 x derivative).2.1.get j i
        = residuals.getD i 0 * (gradient mcm s x i).getD j 0 := by
  have hN : s.m_ObservedSignals.length < 2 ^ 32 := by rw [hwf.1]; exact hwf.2.2.2
  obtain ⟨_, _, hres⟩ := GetValues_ok_inv mcm s x residuals hwf hx hok
  rw [GetValues_ok_state mcm s x residuals hwf hx hok]
  simp only
  obtain ⟨_, _, _, _, hget, _⟩ :=
    jacobianOuter_spec mcm (evaluated mcm s x) x.length s.m_ObservedSignals.length
      s.m_ObservedSignals.length (le_refl _)
  rw [GetDerivativeMatrix_cached mcm (evaluated mcm s x) x derivative hm hP hx hN rfl]
  refine ⟨rfl, ?_⟩
  intro j i hj hi
  have hi' : i < s.m_Gradients.length := by rw [← hwf.1]; exact hi
  have hentry := hget j i hj hi
  rw [if_pos hi] at hentry
  have hpred : (evaluated mcm s x).m_PredictedSignals.getD i 0 = predicted mcm s x i :=
    getD_map_range _ _ _ hi'
  have hgrad : gradient mcm (evaluated mcm s x) (evaluated mcm s x).m_MCMParameters i
      = gradient mcm s x i := rfl
  have hobs : observed (evaluated mcm s x) i = observed s i := rfl
  have hb0 : (evaluated mcm s x).m_B0Value = amplitude mcm s x := rfl
  rw [hpred, hgrad, hobs] at hentry
  constructor
  · exact hentry.trans (by ring)
  · exact hentry.trans (by rw [hres, getD_residualVector mcm s x i hi', hb0]; ring)

/-- Witness of the amended C16: observations `1` and `2` under `predicted(x) = x[0]` at
`[1]`: entry `(0,1)` is the residual `-1/2` times the gradient `1`. -/
theorem GetDerivativeMatrix_residual_gradient_witness :
    (GetDerivativeMatrix linearModel (GetValues linearModel noisyCost [1]).1 [1]
      (VnlMatrix.zeros 0 0)).2.1.get 0 1
      = ([1 / 2, -1 / 2] : List ℚ).getD 1 0 * (gradient linearModel noisyCost [1] 1).getD 0 0 :=
  ((GetDerivativeMatrix_residual_gradient linearModel noisyCost [1] [1 / 2, -1 / 2]
    (VnlMatrix.zeros 0 0) (by decide) (by decide) (by decide) (by decide) (by decide!)).2
    0 1 (by decide) (by decide)).2
/-- C11: for a problem with at most as many parameters as residuals (`P <= N`), when the
residual and the Jacobian evaluations at the initial position succeed and no entry of the
`P x N` Jacobian has an absolute value above `sqrt(epsilon)`, `StartOptimization` returns
(whatever the number of passes allowed to the main loop) with its current position equal to
the initial position, after exactly one `GetValue` call and one `GetDerivative` call on the
cost function; the returned members are the same for every behaviour of the external
collaborators, `m_LambdaParameter` and `m_CurrentAddonVector` are untouched; and every entry
`derivativeMatrix[i][j]` the test of lines 40-54 reads lies in the block of the transposed
matrix. -/
theorem StartOptimization_degenerate {σ : Type} (ext : Externals) (cf : CostFunction σ)
    (o : BoundedLevenbergMarquardtOptimizer σ) (fuel : Nat) (c1 c2 : σ) (residuals : List ℚ)
    (J : VnlMatrix)
    (hval : cf.GetValue o.m_CostFunction o.m_InitialPosition = (c1, .ok residuals))
    (hder : cf.GetDerivative c1 o.m_InitialPosition
      (VnlMatrix.zeros (toUInt o.m_InitialPosition.length) (toUInt residuals.length))
      = (c2, J, .ok ()))
    (hPN : toUInt o.m_InitialPosition.length ≤ toUInt residuals.length)
    (hrows : J.rows = toUInt o.m_InitialPosition.length)
    (hcols : J.cols = toUInt residuals.length)
    (_hsized : J.WellSized)
    (hzero : ∀ v ∈ J.data, |v| ≤ sqrtMachineEpsilon) :
    (∃ o', StartOptimization ext (countingCost cf) (withCounters o) fuel = .returned o' ∧
      o'.m_CurrentPosition = o.m_InitialPosition ∧
      o'.m_CostFunction = (c2, 1, 1) ∧
      o'.m_LambdaParameter = o.m_LambdaParameter ∧
      o'.m_CurrentAddonVector = o.m_CurrentAddonVector ∧
      (∀ ext' fuel',
        StartOptimization ext' (countingCost cf) (withCounters o) fuel' = .returned o') ∧
      (StartOptimization ext cf o fuel).position = some o.m_InitialPosition) ∧
    (∀ p ∈ derivativeCheckReads (toUInt o.m_InitialPosition.length) (toUInt residuals.length),
      p.1 * J.transpose.cols + p.2 < J.transpose.data.length) := by
  have hval' : (countingCost cf).GetValue (withCounters o).m_CostFunction
      (withCounters o).m_InitialPosition = ((c1, 1, 0), .ok residuals) := by
    simp [countingCost, withCounters, hval]
  have hder' : (countingCost cf).GetDerivative (c1, 1, 0) (withCounters o).m_InitialPosition
      (VnlMatrix.zeros (toUInt (withCounters o).m_InitialPosition.length)
        (toUInt residuals.length)) = ((c2, 1, 1), J, .ok ()) := by
    simp [countingCost, withCounters, hder]
  have hinit := fun ext' =>
    initialise_zero_jacobian ext' (countingCost cf) (withCounters o) (c1, 1, 0)
      (c2, 1, 1) residuals J hval' hder' hzero
  refine ⟨⟨{ withCounters o with m_CurrentPosition := (withCounters o).m_InitialPosition
                                 m_CostFunction := (c2, 1, 1)
                                 m_ResidualValues := residuals
                                 m_CurrentValue := squaredNorm residuals },
    ?_, rfl, rfl, rfl, rfl, ?_, ?_⟩, ?_⟩
  · unfold StartOptimization
    rw [hinit ext]
  · intro ext' fuel'
    unfold StartOptimization
    rw [hinit ext']
  · unfold StartOptimization
    rw [initialise_zero_jacobian ext cf o c1 c2 residuals J hval hder hzero]
    rfl
  · intro p hp
    simp only [derivativeCheckReads, List.mem_flatMap, List.mem_map, List.mem_range] at hp
    obtain ⟨i, hi, j, hj, hpij⟩ := hp
    subst hpij
    simp only [VnlMatrix.transpose, List.length_map, List.length_range, hrows, hcols]
    have h1 : i + 1 ≤ toUInt o.m_InitialPosition.length := hi
    calc i * toUInt o.m_InitialPosition.length + j
        < i * toUInt o.m_InitialPosition.length + toUInt residuals.length :=
          Nat.add_lt_add_left hj _
      _ ≤ i * toUInt residuals.length + toUInt residuals.length :=
          Nat.add_le_add_right (Nat.mul_le_mul_left i hPN) _
      _ = (i + 1) * toUInt residuals.length := by ring
      _ ≤ toUInt o.m_InitialPosition.length * toUInt residuals.length :=
          Nat.mul_le_mul_right _ h1
      _ = toUInt residuals.length * toUInt o.m_InitialPosition.length := Nat.mul_comm _ _

/-- Witness of C11 (scenario C): a forward model with an identically zero gradient on the
five observations `2.0` and two parameters: the optimizer returns the initial parameters
`[0.1, 0]` after one residual evaluation and one Jacobian evaluation. -/
theorem StartOptimization_degenerate_witness :
    ∃ o', StartOptimization zeroStepExternals
        (countingCost (gaussianCostFunction zeroGradientModel))
        (withCounters scenarioCOptimizer) 100 = .returned o' ∧
      o'.m_CurrentPosition = [1 / 10, 0] ∧ o'.m_CostFunction.2 = (1, 1) := by
  obtain ⟨⟨o', h1, h2, h3, _⟩, _⟩ :=
    StartOptimization_degenerate zeroStepExternals (gaussianCostFunction zeroGradientModel)
      scenarioCOptimizer 100
      (GetValues zeroGradientModel scenarioCost [1 / 10, 0]).1
      (GetDerivativeMatrix zeroGradientModel
        (GetValues zeroGradientModel scenarioCost [1 / 10, 0]).1 [1 / 10, 0]
        (VnlMatrix.zeros 2 5)).1
      [0, 0, 0, 0, 0]
      (GetDerivativeMatrix zeroGradientModel
        (GetValues zeroGradientModel scenarioCost [1 / 10, 0]).1 [1 / 10, 0]
        (VnlMatrix.zeros 2 5)).2.1
      (Prod.ext rfl (by decide!)) (Prod.ext rfl (Prod.ext rfl (by decide!)))
      (by decide) (by decide!) (by decide!) (by decide!) (by decide!)
  exact ⟨o', h1, h2, by rw [h3]⟩
/-- C13, evaluation at the failing input: with an iteration cap of `1`, on the residual
`x` from `[1]` with the halving step, the main loop has made `5` passes and is still
running. -/
theorem StartOptimization_cap_one_overrun :
    capOneOptimizer.m_NumberOfIterations = 1 ∧
    (StartOptimization halvingExternals identityCost capOneOptimizer 5).passesRunning
      = some 5 := by
  refine ⟨rfl, by decide!⟩

/-- C17, evaluation at the failing input: on scenario A, after `GetValues` at `[0.1, 0]`
(`b0 = 20`, variance `0`), `GetValues` at `[0.2, 0]` raises `DegenerateVarianceError` but has
already stored `[0.2, 0]` as the cached point and the predicted signals of `[0.2, 0]`, while
`b0` is still `20` (the amplitude of `[0.2, 0]` is `10`); `GetDerivativeMatrix` at `[0.2, 0]`
then finds the cached point equal, does not run `GetValues`, and returns the matrix built
from the stale `b0`: its first row is `2`, where the amplitude of `[0.2, 0]` gives `0`. -/
theorem GetDerivativeMatrix_stale_amplitude :
    (GetValues linearModel scenarioCost [1 / 10, 0]).2 = .ok [0, 0, 0, 0, 0] ∧
    (GetValues linearModel (GetValues linearModel scenarioCost [1 / 10, 0]).1 [1 / 5, 0]).2
      = .error .DegenerateVarianceError ∧
    staleCost.m_TestedParameters = [1 / 5, 0] ∧
    staleCost.m_PredictedSignals = [1 / 5, 1 / 5, 1 / 5, 1 / 5, 1 / 5] ∧
    staleCost.m_B0Value = 20 ∧
    amplitude linearModel staleCost [1 / 5, 0] = 10 ∧
    requireGetValue staleCost [1 / 5, 0] 2 = false ∧
    (GetDerivativeMatrix linearModel staleCost [1 / 5, 0] (VnlMatrix.zeros 0 0)).2.2 = .ok () ∧
    (GetDerivativeMatrix linearModel staleCost [1 / 5, 0] (VnlMatrix.zeros 0 0)).2.1.data
      = [2, 2, 2, 2, 2, 0, 0, 0, 0, 0] ∧
    (∀ i, i < 5 →
      amplitude linearModel staleCost [1 / 5, 0] * predicted linearModel staleCost [1 / 5, 0] i
        * (gradient linearModel staleCost [1 / 5, 0] i).getD 0 0
      - observed staleCost i * (gradient linearModel staleCost [1 / 5, 0] i).getD 0 0 = 0) := by
  refine ⟨by decide!, by decide!, by decide!, by decide!, by decide!, by decide!, by decide!,
    by decide!, by decide!, by decide!⟩

/-- C18, evaluation at the failing input: for the step `p = [-9/2, 0]`, the `2 x 2` Jacobian
`J` with the single non-zero entry `J[1][0] = 1` and the residuals `f = [1, 2]` (cost `5`),
the code computes `gamma = -9/10`, while `p^T J^T f / |f|^2 = -9/5`. These are the values of
the first pass of the run on `shearCost` from `[1, 0]`: the candidate cost `29/4` lies above
the cost `5` and below `500`, the step is rejected, and the radius `1` becomes `2/5`. -/
theorem gammaValue_not_directional_derivative :
    gammaValue ⟨2, 2, [0, 0, 1, 0]⟩ [1, 2] [-9 / 2, 0] 2 2 5 = -9 / 10 ∧
    (∑ i ∈ Finset.range 2, ([-9 / 2, 0] : List ℚ).getD i 0
        * ∑ j ∈ Finset.range 2,
            (⟨2, 2, [0, 0, 1, 0]⟩ : VnlMatrix).get j i * ([1, 2] : List ℚ).getD j 0) / 5
      = -9 / 5 ∧
    (initialise (fixedStepExternals [-9 / 2, 0]) shearCost
        (twoParameterOptimizer [1, 0])).state.map
      (fun a => (a.derivativeMatrixCopy, a.members.m_ResidualValues, a.members.m_CurrentValue,
        a.nbParams, a.numResiduals, a.members.m_DeltaParameter))
      = some (⟨2, 2, [0, 0, 1, 0]⟩, [1, 2], 5, 2, 2, 1) ∧
    (firstPass (fixedStepExternals [-9 / 2, 0]) shearCost (twoParameterOptimizer [1, 0])).map
      (fun b => (b.members.m_CurrentAddonVector, squaredNorm b.newResidualValues,
        b.rejectedStep, b.members.m_DeltaParameter))
      = some ([-9 / 2, 0], 29 / 4, true, 2 / 5) := by
  refine ⟨by decide!, by decide!, by decide!, by decide!⟩

/-- C19, evaluation at the failing input: for `N = 3` residuals and `P = 2` parameters and
the `3 x 2` Jacobian whose only non-zero entry is `J[2][1] = 1`, the test of lines 40-54 finds
nothing, although `|J[2][1]|` is above `sqrt(epsilon)`; it reads the index pair `(0, 2)`,
which is not inside the `3 x 2` matrix; and `StartOptimization` on `lastEntryCost`, whose
Jacobian this is, ends at the `return` of line 57 with the initial position `[1, 1]`. -/
theorem derivativeCheck_misses_entry :
    (⟨2, 3, [0, 0, 0, 0, 0, 1]⟩ : VnlMatrix).transpose = ⟨3, 2, [0, 0, 0, 0, 0, 1]⟩ ∧
    derivativeCheck ⟨3, 2, [0, 0, 0, 0, 0, 1]⟩ 2 3 = false ∧
    (⟨3, 2, [0, 0, 0, 0, 0, 1]⟩ : VnlMatrix).Inside 2 1 ∧
    |(⟨3, 2, [0, 0, 0, 0, 0, 1]⟩ : VnlMatrix).get 2 1| > sqrtMachineEpsilon ∧
    (0, 2) ∈ derivativeCheckReads 2 3 ∧
    ¬ (⟨3, 2, [0, 0, 0, 0, 0, 1]⟩ : VnlMatrix).Inside 0 2 ∧
    (initialise zeroStepExternals lastEntryCost (twoParameterOptimizer [1, 1])).isDegenerate
      = true ∧
    (StartOptimization zeroStepExternals lastEntryCost (twoParameterOptimizer [1, 1])
      10).position = some [1, 1] := by
  refine ⟨by decide!, by decide!, by decide!, by decide!, by decide!, by decide!, by decide!,
    by decide!⟩
/-- C14, counterexample: from the initial parameter vector `[0]`, whose Jacobian `[1]` passes
the degenerate check, the radius at the head of the main loop is `0`, and it is still `0`
after the first pass. -/
theorem StartOptimization_radius_zero :
    (initialise zeroStepExternals identityCost zeroStartOptimizer).state.map
      (fun a => (a.derivativeMatrixCopy, a.oldParameters, a.members.m_DeltaParameter))
      = some (⟨1, 1, [1]⟩, [0], 0) ∧
    (firstPass zeroStepExternals identityCost zeroStartOptimizer).map
      (fun b => b.members.m_DeltaParameter) = some 0 ∧
    zeroStepExternals.cm.sqrt 0 = 0 := by
  refine ⟨by decide!, by decide!, by decide!⟩

/-- C14, amended: when `sqrt` is positive on positive numbers and `pow(2, .)` is positive,
the numbers of residuals and of parameters add up to less than `2^32`, and the initial
parameter vector has at least one non-zero entry, `Delta > 0` holds at the head of the main
loop, in every loop state of the run, and so at the start and at the end of every pass. -/
theorem StartOptimization_radius_positive {σ : Type} (ext : Externals) (cf : CostFunction σ)
    (o : BoundedLevenbergMarquardtOptimizer σ) (st0 : LoopState σ)
    (hsqrt : ∀ v, 0 < v → 0 < ext.cm.sqrt v) (hpow : ∀ y, 0 < ext.cm.pow 2 y)
    (hP : o.m_InitialPosition.length < 2 ^ 32)
    (hne : ∃ i, i < o.m_InitialPosition.length ∧ o.m_InitialPosition.getD i 0 ≠ 0)
    (hNP : st0.numResiduals + st0.nbParams < 2 ^ 32)
    (hinit : initialise ext cf o = .ready st0) :
    0 < st0.members.m_DeltaParameter ∧
    (∀ st, Reachable ext cf st0 st → 0 < st.members.m_DeltaParameter) ∧
    (∀ a b, Reachable ext cf st0 a → a.stopConditionReached = false →
      iteration ext cf a = .ok b →
      0 < a.members.m_DeltaParameter ∧ 0 < b.members.m_DeltaParameter) := by
  obtain ⟨hnb, J, hdelta⟩ := initialise_delta ext cf o st0 hinit
  rw [toUInt_of_lt hP] at hnb
  have hP1 : 1 ≤ st0.nbParams := by
    obtain ⟨i, hi, _⟩ := hne
    omega
  have heps : 0 < scalingThreshold ext.cm
      (initialDValues ext.cm J st0.nbParams st0.numResiduals).2 st0.nbParams
      st0.numResiduals := by
    unfold scalingThreshold
    rw [toUInt_of_lt hNP]
    have h1 : (0 : ℚ) < ((st0.numResiduals + st0.nbParams : ℕ) : ℚ) := by
      exact_mod_cast (by omega : 0 < st0.numResiduals + st0.nbParams)
    have h2 : (0 : ℚ) < machineEpsilon := by
      unfold machineEpsilon
      positivity
    exact mul_pos (mul_pos (mul_pos (by norm_num) h2) h1) (hpow _)
  have h0 : 0 < st0.members.m_DeltaParameter := by
    rw [hdelta]
    apply hsqrt
    apply scaledSquaredRadius_pos _ _ _ _ heps (length_initialDValues _ _ _ _)
    rw [hnb]
    exact hne
  have hall : ∀ st, Reachable ext cf st0 st → 0 < st.members.m_DeltaParameter := by
    intro st hst
    induction hst with
    | head => exact h0
    | pass a b _ _ hab ih => exact iteration_delta_pos ext cf a b hab ih
  exact ⟨h0, hall, fun a b ha _ hab =>
    ⟨hall a ha, iteration_delta_pos ext cf a b hab (hall a ha)⟩⟩

/-- Witness of the amended C14: the run on the residual `x` from `[1]`: the radius at the
head of the main loop is `1`. -/
theorem StartOptimization_radius_positive_witness :
    0 < identityLoopState.members.m_DeltaParameter :=
  (StartOptimization_radius_positive halvingExternals identityCost identityOptimizer
    identityLoopState (fun _ hv => hv) (fun _ => by show (0 : ℚ) < 2; norm_num) (by decide)
    ⟨0, by decide, by decide!⟩ (by decide) (by decide!)).1

end anima
